import Mathlib

/-! # antigravity2api-nodejs: message and tool normalisation

A shallow embedding of `src/utils/converters/openai.js`, `claude.js`, `gemini.js` and
`src/utils/toolConverter.js`, followed by theorems about the embedded functions.

Conventions of the embedding:

* a JavaScript field that may be missing is an `Option` (`none` is `undefined`);
* `a || b` on strings treats `undefined` and the empty string as falsy;
* a `TypeError` raised by the JavaScript is `Except.error`;
* the functions imported from modules that are not part of the embedded sources
  (`sanitizeToolName`, `cleanParameters`, the signature caches and defaults) are the fields of
  `Env`; calls of `setToolNameMapping` are recorded, with their arguments in the order passed.
-/

namespace Antigravity

/-! ## JSON values and JavaScript built-ins -/

/-- JSON value. Numbers are restricted to integers. -/
inductive Json where
  | null
  | bool (b : Bool)
  | num (n : Int)
  | str (s : String)
  | arr (items : List Json)
  | obj (fields : List (String × Json))

namespace Json

/-- JavaScript truthiness of a JSON value. -/
def truthy : Json → Bool
  | null => false
  | bool b => b
  | num n => n != 0
  | str s => s != ""
  | arr _ => true
  | obj _ => true

/-- Lower-case hexadecimal digit of a number below sixteen. -/
def hexDigit (n : Nat) : Char :=
  if n < 10 then Char.ofNat (48 + n) else Char.ofNat (87 + n)

/-- Escape of one character inside a JSON string literal, as `JSON.stringify` writes it. -/
def escapeChar (c : Char) : List Char :=
  if c = Char.ofNat 34 then [Char.ofNat 92, Char.ofNat 34]
  else if c = Char.ofNat 92 then [Char.ofNat 92, Char.ofNat 92]
  else if c = Char.ofNat 8 then [Char.ofNat 92, Char.ofNat 98]
  else if c = Char.ofNat 12 then [Char.ofNat 92, Char.ofNat 102]
  else if c = Char.ofNat 10 then [Char.ofNat 92, Char.ofNat 110]
  else if c = Char.ofNat 13 then [Char.ofNat 92, Char.ofNat 114]
  else if c = Char.ofNat 9 then [Char.ofNat 92, Char.ofNat 116]
  else if c.toNat < 32 then
    [Char.ofNat 92, Char.ofNat 117, Char.ofNat 48, Char.ofNat 48,
      hexDigit (c.toNat / 16), hexDigit (c.toNat % 16)]
  else [c]

/-- Quoted JSON string literal. -/
def quote (s : String) : String :=
  String.mk (Char.ofNat 34 :: (s.data.flatMap escapeChar ++ [Char.ofNat 34]))

/-- Decimal rendering of an integer. -/
def intToString : Int → String
  | Int.ofNat k => Nat.repr k
  | Int.negSucc k => "-" ++ Nat.repr (k + 1)

mutual
/-- The built-in `JSON.stringify(value)` (no indentation) on JSON values. -/
def stringify : Json → String
  | null => "null"
  | bool true => "true"
  | bool false => "false"
  | num n => intToString n
  | str s => quote s
  | arr items => "[" ++ stringifyItems items ++ "]"
  | obj fields => "\x7b" ++ stringifyFields fields ++ "\x7d"
/-- Comma-separated elements of an array. -/
def stringifyItems : List Json → String
  | [] => ""
  | [x] => stringify x
  | x :: y :: rest => stringify x ++ "," ++ stringifyItems (y :: rest)
/-- Comma-separated members of an object. -/
def stringifyFields : List (String × Json) → String
  | [] => ""
  | [(k, v)] => quote k ++ ":" ++ stringify v
  | (k, v) :: f :: rest => quote k ++ ":" ++ stringify v ++ "," ++ stringifyFields (f :: rest)
end

end Json

/-- White space as removed by `String.prototype.trim` (WhiteSpace and LineTerminator). -/
def isJsWhitespace (c : Char) : Bool :=
  let n := c.toNat
  n == 9 || n == 10 || n == 11 || n == 12 || n == 13 || n == 32 || n == 160 || n == 5760
    || (8192 ≤ n && n ≤ 8202) || n == 8232 || n == 8233 || n == 8239 || n == 8287
    || n == 12288 || n == 65279

/-- The built-in `s.trimEnd()`. -/
def jsTrimEnd (s : String) : String :=
  String.mk (s.data.reverse.dropWhile isJsWhitespace).reverse

/-- The built-in `s.trim()`. -/
def jsTrim (s : String) : String :=
  String.mk ((s.data.dropWhile isJsWhitespace).reverse.dropWhile isJsWhitespace).reverse

/-- Truthiness of a string that may be `undefined`. -/
def truthyStr : Option String → Bool
  | some s => s != ""
  | none => false

/-- The value of `a || b` where both operands may be `undefined`. -/
def jsOr (a b : Option String) : Option String :=
  if truthyStr a then a else b

/-- The value of `a || b` where the right operand is a string. -/
def jsOrD (a : Option String) (b : String) : String :=
  match a with
  | some s => if s != "" then s else b
  | none => b

/-! ## Provider messages -/

/-- The `image_url` object of an OpenAI content item. -/
structure OpenAIImageUrl where
  url : Option String
  deriving DecidableEq, Repr

/-- One item of an OpenAI content array. -/
structure OpenAIContentItem where
  type : Option String
  text : Option String
  image_url : Option OpenAIImageUrl
  deriving DecidableEq, Repr

/-- The `content` of an OpenAI message: missing, a string, or an array of items. -/
inductive MessageContent where
  | absent
  | text (s : String)
  | blocks (items : List OpenAIContentItem)
  deriving DecidableEq, Repr

/-- The `function` object of an OpenAI tool call. -/
structure OpenAIFunction where
  name : String
  arguments : String
  deriving DecidableEq, Repr

/-- One entry of `message.tool_calls`. -/
structure OpenAIToolCall where
  id : Option String
  function : Option OpenAIFunction
  thoughtSignature : Option String
  deriving DecidableEq, Repr

/-- An OpenAI chat message. -/
structure OpenAIMessage where
  role : String
  content : MessageContent
  tool_calls : Option (List OpenAIToolCall)
  tool_call_id : Option String
  thoughtSignature : Option String
  reasoning_content : Option String
  deriving DecidableEq, Repr

/-- The `source` object of a Claude image block. -/
structure ClaudeImageSource where
  type : Option String
  media_type : Option String
  data : Option String
  deriving DecidableEq, Repr

/-- One block of the content array of a Claude `tool_result`. -/
structure ClaudeResultBlock where
  type : Option String
  text : Option String
  deriving DecidableEq, Repr

/-- The `content` of a Claude `tool_result` block: missing, a string, or an array of blocks. -/
inductive ClaudeResultContent where
  | absent
  | text (s : String)
  | blocks (items : List ClaudeResultBlock)
  deriving DecidableEq, Repr

/-- One block of a Claude content array (`text`, `image`, `tool_use`, `tool_result`, ...), with
the fields the converter reads. -/
structure ClaudeContentItem where
  type : Option String
  text : Option String
  source : Option ClaudeImageSource
  id : Option String
  name : Option String
  input : Option Json
  tool_use_id : Option String
  content : ClaudeResultContent

/-- The `content` of a Claude message: missing, a string, or an array of blocks. -/
inductive ClaudeContent where
  | absent
  | text (s : String)
  | blocks (items : List ClaudeContentItem)

/-- A Claude message. -/
structure ClaudeMessage where
  role : String
  content : ClaudeContent

/-! ## Unified content model -/

/-- A part of a unified message. -/
inductive Part where
  /-- The part `{ text }`, or `{ text, thought: true }` when `thought` is set. -/
  | text (text : String) (thought : Bool)
  /-- The part `{ text, thoughtSignature }`. -/
  | signature (text : String) (thoughtSignature : String)
  /-- The part `{ inlineData: { mimeType, data } }`. -/
  | inlineData (mimeType : String) (data : String)
  /-- The part `{ functionCall: { id, name, args: { query } } }`, with `thoughtSignature` when present. -/
  | functionCall (id : Option String) (name : String) (query : String)
      (thoughtSignature : Option String)
  /-- The part `{ functionResponse: { id, name, response: { output } } }`. -/
  | functionResponse (id : Option String) (name : String) (output : MessageContent)
  deriving DecidableEq, Repr

/-- A unified message: `{ role, parts }`. -/
structure UnifiedMessage where
  role : String
  parts : List Part
  deriving DecidableEq, Repr

/-- The imported functions the converters call. -/
structure Env where
  sanitizeToolName : Option String → String
  cleanParameters : Json → Option (List (String × Json))
  getReasoningSignature : Option String → String → Option String
  getToolSignature : Option String → String → Option String
  getThoughtSignatureForModel : String → String
  getToolSignatureForModel : String → String

/-- The message list under construction together with the calls of `setToolNameMapping` made so
far (oldest first), each with its arguments in the order passed. -/
structure ConvState where
  messages : List UnifiedMessage
  nameMappings : List (List (Option String))
  deriving DecidableEq, Repr

/-- The `p.functionResponse` test on a part. -/
def Part.isFunctionResponse : Part → Bool
  | .functionResponse _ _ _ => true
  | _ => false

/-- The `lastMessage.parts.push(...ps)` on the last message of the list. -/
def appendToLast : List UnifiedMessage → List Part → List UnifiedMessage
  | [], _ => []
  | [m], ps => [{ m with parts := m.parts ++ ps }]
  | m :: n :: rest, ps => m :: appendToLast (n :: rest) ps

/-- First part of `parts` that is a function call with the given id: its name. -/
def findCallName (id : Option String) : List Part → Option String
  | [] => none
  | .functionCall cid name _ _ :: rest => if cid = id then some name else findCallName id rest
  | _ :: rest => findCallName id rest

/-- The backward scan of `handleToolCall` / `handleClaudeToolResult`: `msgs` is the message list
from the last message to the first and `functionName` the variable of the loop. -/
def scanFunctionName (id : Option String) : List UnifiedMessage → String → String
  | [], functionName => functionName
  | m :: rest, functionName =>
    if m.role = "model" then
      let functionName := (findCallName id m.parts).getD functionName
      if functionName != "" then functionName else scanFunctionName id rest functionName
    else scanFunctionName id rest functionName

/-- Name of the call a tool result refers to (`functionName` after the loop). -/
def resolveFunctionName (antigravityMessages : List UnifiedMessage) (id : Option String) : String :=
  scanFunctionName id antigravityMessages.reverse ""

/-- The merge rule shared by `handleToolCall` and `handleClaudeToolResult`: push onto the last
message when it is a user message that already holds a function response, else start a message. -/
def pushFunctionResponse (antigravityMessages : List UnifiedMessage) (functionResponse : Part) :
    List UnifiedMessage :=
  match antigravityMessages.getLast? with
  | some lastMessage =>
    if lastMessage.role = "user" && lastMessage.parts.any Part.isFunctionResponse then
      appendToLast antigravityMessages [functionResponse]
    else antigravityMessages ++ [{ role := "user", parts := [functionResponse] }]
  | none => antigravityMessages ++ [{ role := "user", parts := [functionResponse] }]

/-! ## `src/utils/converters/openai.js` -/

namespace OpenAI

/-- The result of `extractImagesFromContent`: `{ text, images }`. -/
structure Extracted where
  text : String
  images : List Part
  deriving DecidableEq, Repr

/-- The word characters of the regular expression class `\w`. -/
def isWordChar (c : Char) : Bool :=
  let n := c.toNat
  (48 ≤ n && n ≤ 57) || (65 ≤ n && n ≤ 90) || (97 ≤ n && n ≤ 122) || n == 95

/-- The characters the regular expression `.` does not match. -/
def isLineTerminator (c : Char) : Bool :=
  let n := c.toNat
  n == 10 || n == 13 || n == 8232 || n == 8233

/-- The rest of `s` after the leading `pre`, when `s` starts with it. -/
def dropLeading : List Char → List Char → Option (List Char)
  | [], s => some s
  | _ :: _, [] => none
  | p :: ps, c :: cs => if p = c then dropLeading ps cs else none

/-- The groups of `imageUrl.match(/^data:image\/(\w+);base64,(.+)$/)`. -/
def matchDataUrl (imageUrl : String) : Option (String × String) :=
  match dropLeading "data:image/".data imageUrl.data with
  | none => none
  | some rest =>
    let word := rest.takeWhile isWordChar
    if word.isEmpty then none
    else
      match dropLeading ";base64,".data (rest.dropWhile isWordChar) with
      | none => none
      | some data =>
        if !data.isEmpty && data.all (fun c => !isLineTerminator c) then
          some (String.mk word, String.mk data)
        else none

/-- The body of the loop of `extractImagesFromContent` for one item. -/
def extractItem (result : Extracted) (item : OpenAIContentItem) : Extracted :=
  if item.type = some "text" then
    { result with text := result.text ++ item.text.getD "undefined" }
  else if item.type = some "image_url" then
    let imageUrl := jsOrD (item.image_url.bind fun u => u.url) ""
    match matchDataUrl imageUrl with
    | some (format, data) =>
      { result with images := result.images ++ [Part.inlineData ("image/" ++ format) data] }
    | none => result
  else result

/-- The function `extractImagesFromContent`. -/
def extractImagesFromContent : MessageContent → Extracted
  | .text s => { text := s, images := [] }
  | .blocks items => items.foldl extractItem { text := "", images := [] }
  | .absent => { text := "", images := [] }

/-- The function `handleUserMessage`. -/
def handleUserMessage (extracted : Extracted) (antigravityMessages : List UnifiedMessage) :
    List UnifiedMessage :=
  antigravityMessages ++ [{ role := "user", parts := Part.text extracted.text false :: extracted.images }]

/-- The callback of `message.tool_calls.map` in `handleAssistantMessage`: the part built for one
tool call and the calls of `setToolNameMapping` it makes. Reading `toolCall.function.name` when
`function` is missing raises a `TypeError`. -/
def convertToolCall (env : Env) (enableThinking : Bool) (actualModelName : String)
    (sessionId : Option String) (toolCall : OpenAIToolCall) :
    Except String (Part × List (List (Option String))) :=
  match toolCall.function with
  | none => .error "TypeError: toolCall.function is undefined"
  | some function =>
    let originalName := function.name
    let safeName := env.sanitizeToolName (some originalName)
    let recorded :=
      if truthyStr sessionId && actualModelName != "" && safeName != originalName then
        [[sessionId, some actualModelName, some safeName, some originalName]]
      else []
    let thoughtSignature :=
      if enableThinking then
        let cachedToolSig := env.getToolSignature sessionId actualModelName
        some (jsOrD (jsOr toolCall.thoughtSignature cachedToolSig)
          (env.getToolSignatureForModel actualModelName))
      else none
    .ok (Part.functionCall toolCall.id safeName function.arguments thoughtSignature, recorded)

/-- The `message.tool_calls.map(...)` of `handleAssistantMessage`, in input order. -/
def convertToolCalls (env : Env) (enableThinking : Bool) (actualModelName : String)
    (sessionId : Option String) :
    List OpenAIToolCall → Except String (List Part × List (List (Option String)))
  | [] => .ok ([], [])
  | toolCall :: rest =>
    match convertToolCall env enableThinking actualModelName sessionId toolCall with
    | .error e => .error e
    | .ok (part, recorded) =>
      match convertToolCalls env enableThinking actualModelName sessionId rest with
      | .error e => .error e
      | .ok (parts, more) => .ok (part :: parts, recorded ++ more)

/-- The flag `hasContent = message.content && message.content.trim() !== ''`; an array has no
`trim` method, so the call raises a `TypeError`. -/
def hasContent : MessageContent → Except String Bool
  | .absent => .ok false
  | .text s => .ok (s != "" && jsTrim s != "")
  | .blocks _ => .error "TypeError: message.content.trim is not a function"

/-- The text of `message.content.trimEnd()` (evaluated only when `hasContent` holds). -/
def contentTrimEnd : MessageContent → String
  | .text s => jsTrimEnd s
  | _ => ""

/-- The block `if (enableThinking) { ... }` of `handleAssistantMessage` (lines 73 to 79): the
parts it pushes onto the new message. -/
def thoughtParts (env : Env) (message : OpenAIMessage) (enableThinking : Bool)
    (actualModelName : String) (sessionId : Option String) : List Part :=
  if enableThinking then
    let cachedSig := env.getReasoningSignature sessionId actualModelName
    let thoughtSignature := jsOrD (jsOr message.thoughtSignature cachedSig)
      (env.getThoughtSignatureForModel actualModelName)
    let reasoningText := match message.reasoning_content with
      | some r => if r != "" then r else " "
      | none => " "
    [Part.text reasoningText true, Part.signature " " thoughtSignature]
  else []

/-- The function `handleAssistantMessage`. -/
def handleAssistantMessage (env : Env) (message : OpenAIMessage) (st : ConvState)
    (enableThinking : Bool) (actualModelName : String) (sessionId : Option String) :
    Except String ConvState :=
  let lastMessage := st.messages.getLast?
  let hasToolCalls := match message.tool_calls with
    | some toolCalls => !toolCalls.isEmpty
    | none => false
  match hasContent message.content with
  | .error e => .error e
  | .ok hasContent =>
    match (if hasToolCalls then
        convertToolCalls env enableThinking actualModelName sessionId (message.tool_calls.getD [])
      else .ok ([], [])) with
    | .error e => .error e
    | .ok (antigravityTools, recorded) =>
      if (lastMessage.map fun m => m.role) = some "model" && hasToolCalls && !hasContent then
        .ok { messages := appendToLast st.messages antigravityTools,
              nameMappings := st.nameMappings ++ recorded }
      else
        let thoughtParts := thoughtParts env message enableThinking actualModelName sessionId
        let textParts :=
          if hasContent then [Part.text (contentTrimEnd message.content) false] else []
        .ok { messages := st.messages ++
                [{ role := "model", parts := thoughtParts ++ textParts ++ antigravityTools }],
              nameMappings := st.nameMappings ++ recorded }

/-- The function `handleToolCall`. -/
def handleToolCall (message : OpenAIMessage) (antigravityMessages : List UnifiedMessage) :
    List UnifiedMessage :=
  let functionName := resolveFunctionName antigravityMessages message.tool_call_id
  pushFunctionResponse antigravityMessages
    (Part.functionResponse message.tool_call_id functionName message.content)

/-- The body of the loop of `openaiMessageToAntigravity` for one message. -/
def step (env : Env) (enableThinking : Bool) (actualModelName : String)
    (sessionId : Option String) (st : ConvState) (message : OpenAIMessage) :
    Except String ConvState :=
  if message.role = "user" || message.role = "system" then
    .ok { st with messages :=
      handleUserMessage (extractImagesFromContent message.content) st.messages }
  else if message.role = "assistant" then
    handleAssistantMessage env message st enableThinking actualModelName sessionId
  else if message.role = "tool" then
    .ok { st with messages := handleToolCall message st.messages }
  else .ok st

/-- The loop of `openaiMessageToAntigravity`, from the state reached so far. -/
def loop (env : Env) (enableThinking : Bool) (actualModelName : String)
    (sessionId : Option String) : List OpenAIMessage → ConvState → Except String ConvState
  | [], st => .ok st
  | message :: rest, st =>
    match step env enableThinking actualModelName sessionId st message with
    | .error e => .error e
    | .ok st => loop env enableThinking actualModelName sessionId rest st

/-- The function `openaiMessageToAntigravity`: the returned list is `messages`. -/
def openaiMessageToAntigravity (env : Env) (openaiMessages : List OpenAIMessage)
    (enableThinking : Bool) (actualModelName : String) (sessionId : Option String) :
    Except String ConvState :=
  loop env enableThinking actualModelName sessionId openaiMessages
    { messages := [], nameMappings := [] }

end OpenAI

/-! ## `src/utils/converters/claude.js` -/

namespace Claude

/-- The result of `extractImagesFromClaudeContent`: `{ text, images }`. -/
structure Extracted where
  text : String
  images : List Part
  deriving DecidableEq, Repr

/-- The body of the loop of `extractImagesFromClaudeContent` for one block. -/
def extractItem (result : Extracted) (item : ClaudeContentItem) : Extracted :=
  if item.type = some "text" then
    { result with text := result.text ++ jsOrD item.text "" }
  else if item.type = some "image" then
    match item.source with
    | some source =>
      if source.type = some "base64" && truthyStr source.data then
        { result with images := result.images ++
            [Part.inlineData (jsOrD source.media_type "image/png") (source.data.getD "")] }
      else result
    | none => result
  else result

/-- The function `extractImagesFromClaudeContent`. -/
def extractImagesFromClaudeContent : ClaudeContent → Extracted
  | .text s => { text := s, images := [] }
  | .blocks items => items.foldl extractItem { text := "", images := [] }
  | .absent => { text := "", images := [] }

/-- The function `handleClaudeUserMessage`. -/
def handleClaudeUserMessage (extracted : Extracted) (antigravityMessages : List UnifiedMessage) :
    List UnifiedMessage :=
  antigravityMessages ++ [{ role := "user", parts := Part.text extracted.text false :: extracted.images }]

/-- The variables `textContent` and `toolCalls` of `handleClaudeAssistantMessage`, with the calls
of `setToolNameMapping` made while the content is read. -/
structure Scanned where
  textContent : String
  toolCalls : List Part
  recorded : List (List (Option String))
  deriving DecidableEq, Repr

/-- The value of `item.input || {}`. -/
def inputOrEmpty : Option Json → Json
  | some v => if v.truthy then v else Json.obj []
  | none => Json.obj []

/-- The body of the content loop of `handleClaudeAssistantMessage` for one block. -/
def scanItem (env : Env) (actualModelName : String) (sessionId : Option String)
    (acc : Scanned) (item : ClaudeContentItem) : Scanned :=
  if item.type = some "text" then
    { acc with textContent := acc.textContent ++ jsOrD item.text "" }
  else if item.type = some "tool_use" then
    let originalName := item.name
    let safeName := env.sanitizeToolName originalName
    let part := Part.functionCall item.id safeName (Json.stringify (inputOrEmpty item.input)) none
    let recorded :=
      if truthyStr sessionId && actualModelName != "" && some safeName != originalName then
        [[sessionId, some actualModelName, some safeName, originalName]]
      else []
    { acc with toolCalls := acc.toolCalls ++ [part], recorded := acc.recorded ++ recorded }
  else acc

/-- The first part of `handleClaudeAssistantMessage`: reading `message.content`. -/
def scanContent (env : Env) (actualModelName : String) (sessionId : Option String) :
    ClaudeContent → Scanned
  | .text s => { textContent := s, toolCalls := [], recorded := [] }
  | .blocks items =>
    items.foldl (scanItem env actualModelName sessionId)
      { textContent := "", toolCalls := [], recorded := [] }
  | .absent => { textContent := "", toolCalls := [], recorded := [] }

/-- The block `if (enableThinking) { ... }` of `handleClaudeAssistantMessage` (lines 79 to 84):
the parts it pushes onto the new message. -/
def thoughtParts (env : Env) (enableThinking : Bool) (actualModelName : String)
    (sessionId : Option String) : List Part :=
  if enableThinking then
    let cachedSig := env.getReasoningSignature sessionId actualModelName
    let thoughtSignature := jsOrD cachedSig (env.getThoughtSignatureForModel actualModelName)
    [Part.text " " true, Part.signature " " thoughtSignature]
  else []

/-- The function `handleClaudeAssistantMessage`. -/
def handleClaudeAssistantMessage (env : Env) (message : ClaudeMessage) (st : ConvState)
    (enableThinking : Bool) (actualModelName : String) (sessionId : Option String) : ConvState :=
  let lastMessage := st.messages.getLast?
  let scanned := scanContent env actualModelName sessionId message.content
  let textContent := scanned.textContent
  let toolCalls := scanned.toolCalls
  let hasToolCalls := !toolCalls.isEmpty
  let hasContent := textContent != "" && jsTrim textContent != ""
  if (lastMessage.map fun m => m.role) = some "model" && hasToolCalls && !hasContent then
    { messages := appendToLast st.messages toolCalls,
      nameMappings := st.nameMappings ++ scanned.recorded }
  else
    let thoughtParts := thoughtParts env enableThinking actualModelName sessionId
    let textParts := if hasContent then [Part.text (jsTrimEnd textContent) false] else []
    { messages := st.messages ++
        [{ role := "model", parts := thoughtParts ++ textParts ++ toolCalls }],
      nameMappings := st.nameMappings ++ scanned.recorded }

/-- The value of `resultContent` for a `tool_result` block: the string itself, or the texts of
the `text` blocks of an array joined (`join` writes nothing for a missing text). -/
def resultContent : ClaudeResultContent → String
  | .text s => s
  | .blocks items =>
    String.join ((items.filter fun c => c.type = some "text").map fun c => c.text.getD "")
  | .absent => ""

/-- The body of the loop of `handleClaudeToolResult` for one block. -/
def handleToolResultItem (antigravityMessages : List UnifiedMessage) (item : ClaudeContentItem) :
    List UnifiedMessage :=
  if item.type != some "tool_result" then antigravityMessages
  else
    let toolUseId := item.tool_use_id
    let functionName := resolveFunctionName antigravityMessages toolUseId
    pushFunctionResponse antigravityMessages
      (Part.functionResponse toolUseId functionName (MessageContent.text (resultContent item.content)))

/-- The function `handleClaudeToolResult`. -/
def handleClaudeToolResult (message : ClaudeMessage) (antigravityMessages : List UnifiedMessage) :
    List UnifiedMessage :=
  match message.content with
  | .blocks items => items.foldl handleToolResultItem antigravityMessages
  | _ => antigravityMessages

/-- The test `Array.isArray(content) && content.some(item => item.type === 'tool_result')`. -/
def hasToolResult : ClaudeContent → Bool
  | .blocks items => items.any fun item => item.type = some "tool_result"
  | _ => false

/-- The body of the loop of `claudeMessageToAntigravity` for one message. -/
def step (env : Env) (enableThinking : Bool) (actualModelName : String)
    (sessionId : Option String) (st : ConvState) (message : ClaudeMessage) : ConvState :=
  if message.role = "user" then
    if hasToolResult message.content then
      { st with messages := handleClaudeToolResult message st.messages }
    else
      { st with messages :=
          handleClaudeUserMessage (extractImagesFromClaudeContent message.content) st.messages }
  else if message.role = "assistant" then
    handleClaudeAssistantMessage env message st enableThinking actualModelName sessionId
  else st

/-- The function `claudeMessageToAntigravity`: the returned list is `messages`. -/
def claudeMessageToAntigravity (env : Env) (claudeMessages : List ClaudeMessage)
    (enableThinking : Bool) (actualModelName : String) (sessionId : Option String) : ConvState :=
  claudeMessages.foldl (step env enableThinking actualModelName sessionId)
    { messages := [], nameMappings := [] }

end Claude

/-! ## `src/utils/converters/gemini.js` -/

namespace Gemini

/-- The `functionCall` object of a Gemini part. -/
structure FunctionCall where
  id : Option String
  name : Option String
  args : Option Json

/-- The `functionResponse` object of a Gemini part. -/
structure FunctionResponse where
  id : Option String
  name : Option String
  response : Option Json

/-- A part of a Gemini content, with the fields the converter reads or writes; `inlineData`
stands for the payload that is passed through. -/
structure GeminiPart where
  text : Option String
  thought : Option Bool
  thoughtSignature : Option String
  functionCall : Option FunctionCall
  functionResponse : Option FunctionResponse
  inlineData : Option Json

/-- One entry of `request.contents`; `parts` is missing or an array. -/
structure GeminiContent where
  role : Option String
  parts : Option (List GeminiPart)

/-- A `forEach` whose callback updates its element in place and a local variable: the updated
elements in order and the final value of the variable. -/
def forEachState {σ α : Type} (f : σ → α → α × σ) : σ → List α → List α × σ
  | s, [] => ([], s)
  | s, a :: rest =>
    let r := f s a
    let rs := forEachState f r.2 rest
    (r.1 :: rs.1, rs.2)

/-- The local state of the first pass: how many ids were generated and `functionCallIds`. -/
structure IdState where
  generated : Nat
  functionCallIds : List String

/-- The first pass on one part. The generated id is `call_` followed by the text produced by
`Date.now()` and `Math.random()`, which is `fresh k` for the `k`-th id generated. -/
def assignCallId (fresh : Nat → String) (acc : IdState) (part : GeminiPart) :
    GeminiPart × IdState :=
  match part.functionCall with
  | none => (part, acc)
  | some functionCall =>
    if !truthyStr functionCall.id then
      let id := "call_" ++ fresh acc.generated
      ({ part with functionCall := some { functionCall with id := some id } },
        { generated := acc.generated + 1, functionCallIds := acc.functionCallIds ++ [id] })
    else
      (part, { acc with functionCallIds := acc.functionCallIds ++ [functionCall.id.getD ""] })

/-- The first pass on one content. -/
def assignCallIds (fresh : Nat → String) (acc : IdState) (content : GeminiContent) :
    GeminiContent × IdState :=
  if content.role = some "model" then
    match content.parts with
    | some parts =>
      let r := forEachState (assignCallId fresh) acc parts
      ({ content with parts := some r.1 }, r.2)
    | none => (content, acc)
  else (content, acc)

/-- The second pass on one part; `responseIndex` is the local counter. -/
def assignResponseId (functionCallIds : List String) (responseIndex : Nat) (part : GeminiPart) :
    GeminiPart × Nat :=
  match part.functionResponse with
  | none => (part, responseIndex)
  | some functionResponse =>
    if !truthyStr functionResponse.id && responseIndex < functionCallIds.length then
      let paired := { functionResponse with id := functionCallIds[responseIndex]? }
      ({ part with functionResponse := some paired }, responseIndex + 1)
    else (part, responseIndex)

/-- The second pass on one content. -/
def assignResponseIds (functionCallIds : List String) (responseIndex : Nat)
    (content : GeminiContent) : GeminiContent × Nat :=
  if content.role = some "user" then
    match content.parts with
    | some parts =>
      let r := forEachState (assignResponseId functionCallIds) responseIndex parts
      ({ content with parts := some r.1 }, r.2)
    | none => (content, responseIndex)
  else (content, responseIndex)

/-- The injected part `{ text: ' ', thought: true }`. -/
def thoughtPart : GeminiPart :=
  { text := some " ", thought := some true, thoughtSignature := none, functionCall := none,
    functionResponse := none, inlineData := none }

/-- The injected part `{ text: ' ', thoughtSignature }`. -/
def signaturePart (thoughtSignature : String) : GeminiPart :=
  { text := some " ", thought := none, thoughtSignature := some thoughtSignature,
    functionCall := none, functionResponse := none, inlineData := none }

/-- The third pass on one content. -/
def injectThought (thoughtSignature : String) (content : GeminiContent) : GeminiContent :=
  if content.role = some "model" then
    match content.parts with
    | some parts =>
      let hasThought := parts.any fun p => p.thought = some true
      if !hasThought then
        { content with parts := some (thoughtPart :: signaturePart thoughtSignature :: parts) }
      else content
    | none => content
  else content

/-- The block `if (request.contents && Array.isArray(request.contents))` of
`generateGeminiRequestBody` (lines 13 to 58), on the array `request.contents`. -/
def augmentContents (env : Env) (fresh : Nat → String) (enableThinking : Bool)
    (actualModelName : String) (sessionId : Option String) (contents : List GeminiContent) :
    List GeminiContent :=
  let first := forEachState (assignCallIds fresh) { generated := 0, functionCallIds := [] } contents
  let functionCallIds := first.2.functionCallIds
  let second := forEachState (assignResponseIds functionCallIds) 0 first.1
  if enableThinking then
    let cachedSig := env.getReasoningSignature sessionId actualModelName
    let thoughtSignature := jsOrD cachedSig (env.getThoughtSignatureForModel actualModelName)
    second.1.map (injectThought thoughtSignature)
  else second.1

end Gemini

/-! ## `src/utils/toolConverter.js` -/

namespace ToolConverter

/-- A function declaration `{ name, description, parameters }`; `parameters` is the list of the
members of the schema object. -/
structure FunctionDeclaration where
  name : String
  description : String
  parameters : List (String × Json)

/-- A tool group `{ functionDeclarations }`. -/
structure ToolGroup where
  functionDeclarations : List FunctionDeclaration

/-- The `function` object of an OpenAI tool. -/
structure OpenAIToolFunction where
  name : Option String
  description : Option String
  parameters : Option Json

/-- An OpenAI tool `{ type: 'function', function }`. -/
structure OpenAITool where
  function : Option OpenAIToolFunction

/-- A Claude tool `{ name, description, input_schema }`. -/
structure ClaudeTool where
  name : Option String
  description : Option String
  input_schema : Option Json

/-- The value of `obj[key]`. -/
def getField (key : String) : List (String × Json) → Option Json
  | [] => none
  | (k, v) :: rest => if k = key then some v else getField key rest

/-- The assignment `obj[key] = value`: an existing member keeps its position. -/
def setField (key : String) (value : Json) : List (String × Json) → List (String × Json)
  | [] => [(key, value)]
  | (k, v) :: rest => if k = key then (k, value) :: rest else (k, v) :: setField key value rest

/-- The test `v === s` for a string `s`. -/
def isString (v : Option Json) (s : String) : Bool :=
  match v with
  | some (Json.str t) => t == s
  | _ => false

/-- The value of `parameters || {}`. -/
def orEmptyObject : Option Json → Json
  | some v => if v.truthy then v else Json.obj []
  | none => Json.obj []

/-- The function `convertSingleTool`: the declaration returned and the calls of
`setToolNameMapping` made, each with its arguments in the order passed. -/
def convertSingleTool (env : Env) (name : Option String) (description : Option String)
    (parameters : Option Json) (_sessionId : Option String) (actualModelName : String) :
    FunctionDeclaration × List (List (Option String)) :=
  let originalName := name
  let safeName := env.sanitizeToolName originalName
  let recorded :=
    if actualModelName != "" && some safeName != originalName then
      [[some actualModelName, some safeName, originalName]]
    else []
  let rawParams := orEmptyObject parameters
  let cleanedParams := (env.cleanParameters rawParams).getD []
  let cleanedParams :=
    if (getField "type" cleanedParams).isNone then setField "type" (Json.str "OBJECT") cleanedParams
    else if isString (getField "type" cleanedParams) "object" then
      setField "type" (Json.str "OBJECT") cleanedParams
    else cleanedParams
  let cleanedParams :=
    if (isString (getField "type" cleanedParams) "OBJECT"
          || isString (getField "type" cleanedParams) "object")
        && (getField "properties" cleanedParams).isNone then
      setField "properties" (Json.obj []) cleanedParams
    else cleanedParams
  ({ name := safeName, description := jsOrD description "", parameters := cleanedParams }, recorded)

/-- The declarations of a list of converted tools, and the recorded calls in order. -/
def collect (converted : List (FunctionDeclaration × List (List (Option String)))) :
    List FunctionDeclaration × List (List (Option String)) :=
  (converted.map fun r => r.1, converted.flatMap fun r => r.2)

/-- The function `convertOpenAIToolsToAntigravity` of `toolConverter.js`. -/
def convertOpenAIToolsToAntigravity (env : Env) (openaiTools : Option (List OpenAITool))
    (sessionId : Option String) (actualModelName : String) :
    List ToolGroup × List (List (Option String)) :=
  match openaiTools with
  | none => ([], [])
  | some [] => ([], [])
  | some tools =>
    let declarations := collect (tools.map fun tool =>
      match tool.function with
      | some func =>
        convertSingleTool env func.name func.description func.parameters sessionId actualModelName
      | none => convertSingleTool env none none none sessionId actualModelName)
    ([{ functionDeclarations := declarations.1 }], declarations.2)

/-- The function `convertClaudeToolsToAntigravity` of `toolConverter.js`. -/
def convertClaudeToolsToAntigravity (env : Env) (claudeTools : Option (List ClaudeTool))
    (sessionId : Option String) (actualModelName : String) :
    List ToolGroup × List (List (Option String)) :=
  match claudeTools with
  | none => ([], [])
  | some [] => ([], [])
  | some tools =>
    let declarations := collect (tools.map fun tool =>
      convertSingleTool env tool.name tool.description tool.input_schema sessionId actualModelName)
    ([{ functionDeclarations := declarations.1 }], declarations.2)

end ToolConverter

/-! ## Vocabulary of the statements -/

namespace OpenAI

/-- The tool call `{ id, function, thoughtSignature }` whose `function` object is present. -/
def callOf (c : Option String × OpenAIFunction × Option String) : OpenAIToolCall :=
  { id := c.1, function := some c.2.1, thoughtSignature := c.2.2 }

/-- The tool-level signature attached to a function call part under thinking:
`toolCall.thoughtSignature || cachedToolSig || getToolSignatureForModel(actualModelName)`. -/
def toolSignature (env : Env) (actualModelName : String) (sessionId : Option String)
    (sent : Option String) : String :=
  jsOrD (jsOr sent (env.getToolSignature sessionId actualModelName))
    (env.getToolSignatureForModel actualModelName)

/-- The function call part for a tool call with the given id, function object and signature. -/
def partOf (env : Env) (enableThinking : Bool) (actualModelName : String)
    (sessionId : Option String) (c : Option String × OpenAIFunction × Option String) : Part :=
  Part.functionCall c.1 (env.sanitizeToolName (some c.2.1.name)) c.2.1.arguments
    (if enableThinking then some (toolSignature env actualModelName sessionId c.2.2) else none)

end OpenAI

namespace Claude

/-- The function call part built for a `tool_use` block. -/
def toolUsePart (env : Env) (item : ClaudeContentItem) : Part :=
  Part.functionCall item.id (env.sanitizeToolName item.name)
    (Json.stringify (inputOrEmpty item.input)) none

/-- The texts of the `text` blocks of a content array, concatenated in order. -/
def textOf (items : List ClaudeContentItem) : String :=
  String.join ((items.filter fun i => i.type = some "text").map fun i => jsOrD i.text "")

/-- The parts of the `tool_use` blocks of a content array, in order. -/
def toolUseParts (env : Env) (items : List ClaudeContentItem) : List Part :=
  (items.filter fun i => i.type = some "tool_use").map (toolUsePart env)

end Claude

/-! ## Sample inputs -/

/-- A sample environment: the sanitizer replaces every character that is not a word character by
an underscore, nothing is cached, and the defaults are fixed strings. -/
def sampleEnv : Env :=
  { sanitizeToolName := fun name =>
      String.mk ((name.getD "").data.map fun c => if OpenAI.isWordChar c then c else Char.ofNat 95)
    cleanParameters := fun _ => none
    getReasoningSignature := fun _ _ => none
    getToolSignature := fun _ _ => none
    getThoughtSignatureForModel := fun _ => "default-reasoning-signature"
    getToolSignatureForModel := fun _ => "default-tool-signature" }

/-- A sample model message holding one function call. -/
def sampleModelMessage : UnifiedMessage :=
  { role := "model", parts := [Part.functionCall (some "c1") "search" "q" none] }

/-- A sample OpenAI assistant turn with one tool call and no text. -/
def sampleToolTurn : OpenAIMessage :=
  { role := "assistant", content := .absent,
    tool_calls := some [OpenAI.callOf (some "c2", { name := "fetch", arguments := "u" }, none)],
    tool_call_id := none, thoughtSignature := none, reasoning_content := none }

/-- A sample Claude `tool_use` block. -/
def sampleToolUse : ClaudeContentItem :=
  { type := some "tool_use", text := none, source := none, id := some "x1",
    name := some "My Tool!", input := some (Json.obj [("q", Json.num 1)]), tool_use_id := none,
    content := .absent }

/-- A sample Claude assistant turn with one `tool_use` block and no text. -/
def sampleClaudeToolTurn : ClaudeMessage :=
  { role := "assistant", content := .blocks [sampleToolUse] }

/-- The name of a part when it is a function call with id `c`. -/
def Part.callNameWithId (c : Option String) : Part → Option String
  | .functionCall id name _ _ => if id = c then some name else none
  | _ => none

/-- The names of the function call parts with id `c` held by the model-role messages of a list,
in order. -/
def callNames (msgs : List UnifiedMessage) (c : Option String) : List String :=
  (msgs.filter fun m => m.role = "model").flatMap fun m =>
    m.parts.filterMap (Part.callNameWithId c)

/-- A sample OpenAI tool message answering call `c1`. -/
def sampleToolMessage : OpenAIMessage :=
  { role := "tool", content := .text "42", tool_calls := none, tool_call_id := some "c1",
    thoughtSignature := none, reasoning_content := none }

/-- A sample Claude `tool_result` block answering call `c1`. -/
def sampleToolResult : ClaudeContentItem :=
  { type := some "tool_result", text := none, source := none, id := none, name := none,
    input := none, tool_use_id := some "c1", content := .text "42" }

/-- The conversation of the end-to-end example: a user turn with text `hi`, an assistant turn
with the tool call `{name: "My Tool!", id: "x1", input: {q: 1}}`, and a user turn with one
`tool_result` block referencing `x1` with content `42`. -/
def endToEndMessages : List ClaudeMessage :=
  [ { role := "user", content := .text "hi" },
    { role := "assistant", content := .blocks [sampleToolUse] },
    { role := "user",
      content := .blocks
        [{ type := some "tool_result", text := none, source := none, id := none, name := none,
           input := none, tool_use_id := some "x1", content := .text "42" }] } ]

/-- A sample OpenAI conversation: a user turn, an assistant turn with one tool call, the tool
result, and an assistant turn with text. -/
def sampleOpenAIMessages : List OpenAIMessage :=
  [ { role := "user", content := .text "hi", tool_calls := none, tool_call_id := none,
      thoughtSignature := none, reasoning_content := none },
    { role := "assistant", content := .absent,
      tool_calls := some [OpenAI.callOf (some "c1", { name := "My Tool!", arguments := "u" }, none)],
      tool_call_id := none, thoughtSignature := none, reasoning_content := none },
    sampleToolMessage,
    { role := "assistant", content := .text "done ", tool_calls := none, tool_call_id := none,
      thoughtSignature := none, reasoning_content := none } ]

/-- The state `openaiMessageToAntigravity` reaches on `sampleOpenAIMessages` with thinking
enabled, model `m` and session `s` in `sampleEnv`. -/
def sampleOpenAIResult : ConvState :=
  { messages :=
      [ { role := "user", parts := [Part.text "hi" false] },
        { role := "model",
          parts := [Part.text " " true, Part.signature " " "default-reasoning-signature",
            Part.functionCall (some "c1") "My_Tool_" "u" (some "default-tool-signature")] },
        { role := "user",
          parts := [Part.functionResponse (some "c1") "My_Tool_" (MessageContent.text "42")] },
        { role := "model",
          parts := [Part.text " " true, Part.signature " " "default-reasoning-signature",
            Part.text "done" false] } ],
    nameMappings := [[some "s", some "m", some "My_Tool_", some "My Tool!"]] }

/-- A sample OpenAI assistant turn carrying a `reasoning_content` string and text. -/
def sampleReasoningTurn : OpenAIMessage :=
  { role := "assistant", content := .text "hello", tool_calls := none, tool_call_id := none,
    thoughtSignature := none, reasoning_content := some "because" }

/-- A sample Claude assistant turn with text. -/
def sampleClaudeTextTurn : ClaudeMessage :=
  { role := "assistant", content := .text "hello" }

/-- The function response part `handleToolCall` builds for a tool message when the list of
unified messages is `msgs`. -/
def OpenAI.responseOf (msgs : List UnifiedMessage) (message : OpenAIMessage) : Part :=
  Part.functionResponse message.tool_call_id (resolveFunctionName msgs message.tool_call_id)
    message.content

/-- The function response part `handleClaudeToolResult` builds for a `tool_result` block when
the list of unified messages is `msgs`. -/
def Claude.responseOf (msgs : List UnifiedMessage) (item : ClaudeContentItem) : Part :=
  Part.functionResponse item.tool_use_id (resolveFunctionName msgs item.tool_use_id)
    (MessageContent.text (Claude.resultContent item.content))

/-- A sample user message that already holds a function response. -/
def sampleResponseMessage : UnifiedMessage :=
  { role := "user", parts := [Part.functionResponse (some "c0") "" (MessageContent.text "0")] }

/-- An OpenAI tool named `My Tool!`, as received by the shared converter. -/
def sampleOpenAITool : ToolConverter.OpenAITool :=
  { function := some { name := some "My Tool!", description := some "a tool", parameters := none } }

namespace Gemini

/-- The ids pushed onto `functionCallIds` for a part whose calls all have an id. -/
def partCallIds (p : GeminiPart) : List String :=
  match p.functionCall with
  | some functionCall => [functionCall.id.getD ""]
  | none => []

/-- The ids of the function calls of a content the first pass visits. -/
def contentCallIds (c : GeminiContent) : List String :=
  if c.role = some "model" then (c.parts.getD []).flatMap partCallIds else []

/-- The function call of the part, if any, has a non-empty id. -/
def PartHasId (p : GeminiPart) : Prop :=
  ∀ functionCall, p.functionCall = some functionCall → truthyStr functionCall.id = true

/-- Every function call the first pass visits in the content has a non-empty id. -/
def ContentHasIds (c : GeminiContent) : Prop :=
  c.role = some "model" → ∀ p ∈ c.parts.getD [], PartHasId p

/-- The part is a function response without an id. -/
def isIdlessResponse (p : GeminiPart) : Bool :=
  match p.functionResponse with
  | some functionResponse => !truthyStr functionResponse.id
  | none => false

/-- No function response the second pass visits in the content lacks an id. -/
def ContentNoIdless (c : GeminiContent) : Prop :=
  c.role = some "user" → ∀ p ∈ c.parts.getD [], isIdlessResponse p = false

/-- Number of function call parts of a content the first pass visits. -/
def contentCallCount (c : GeminiContent) : Nat :=
  if c.role = some "model" then
    ((c.parts.getD []).filter fun p => p.functionCall.isSome).length
  else 0

/-- Number of function call parts in the model turns of the contents. -/
def callCount (contents : List GeminiContent) : Nat :=
  (contents.map contentCallCount).sum

/-- Number of function responses without an id of a content the second pass visits. -/
def contentIdlessCount (c : GeminiContent) : Nat :=
  if c.role = some "user" then ((c.parts.getD []).filter isIdlessResponse).length else 0

/-- Number of function response parts without an id in the user turns of the contents. -/
def idlessResponseCount (contents : List GeminiContent) : Nat :=
  (contents.map contentIdlessCount).sum

/-- The ids of the function responses of the contents, in order (`none` for a missing id). -/
def responseIds (contents : List GeminiContent) : List (Option String) :=
  contents.flatMap fun c =>
    (c.parts.getD []).filterMap fun p => p.functionResponse.map fun r => r.id

/-- A part holding only a function call without an id. -/
def callPart (name : String) : GeminiPart :=
  { text := none, thought := none, thoughtSignature := none,
    functionCall := some { id := none, name := some name, args := none },
    functionResponse := none, inlineData := none }

/-- A part holding only a function response without an id. -/
def responsePart (name : String) : GeminiPart :=
  { text := none, thought := none, thoughtSignature := none, functionCall := none,
    functionResponse := some { id := none, name := some name, response := none },
    inlineData := none }

/-- A payload with one function call and two function responses, none with an id. -/
def unbalancedContents : List GeminiContent :=
  [ { role := some "model", parts := some [callPart "f"] },
    { role := some "user", parts := some [responsePart "f", responsePart "g"] } ]

/-- A payload with one function call and one function response, none with an id. -/
def balancedContents : List GeminiContent :=
  [ { role := some "model", parts := some [callPart "f"] },
    { role := some "user", parts := some [responsePart "f"] } ]

end Gemini

/-- An OpenAI message `handleAssistantMessage` reads without raising: when its role is
`assistant`, its content is missing or a string and every tool call has its `function` object. -/
def OpenAI.WellShaped (m : OpenAIMessage) : Prop :=
  m.role = "assistant" →
    (∀ items, m.content ≠ .blocks items)
      ∧ ∀ toolCalls, m.tool_calls = some toolCalls → ∀ tc ∈ toolCalls, tc.function ≠ none

/-! ## Tool declarations of `openai.js` and `claude.js` -/

/-- A function declaration `{ name, description, parameters }` as `openai.js` and `claude.js`
build it; `description` is missing when `openai.js` copies a missing description. -/
structure Declaration where
  name : String
  description : Option String
  parameters : List (String × Json)

/-- A tool group `{ functionDeclarations }` of `openai.js` and `claude.js`. -/
structure DeclarationGroup where
  functionDeclarations : List Declaration

/-- The schema treatment shared by `convertOpenAIToolsToAntigravity` (openai.js, lines 135 to
138) and `convertClaudeToolsToAntigravity` (claude.js, lines 158 to 161): `parameters` is
`tool.function?.parameters`, resp. `tool.input_schema`. -/
def cleanedParams (env : Env) (parameters : Option Json) : List (String × Json) :=
  let rawParams := ToolConverter.orEmptyObject parameters
  let cleanedParams := (env.cleanParameters rawParams).getD []
  let cleanedParams :=
    if (ToolConverter.getField "type" cleanedParams).isNone then
      ToolConverter.setField "type" (Json.str "object") cleanedParams
    else cleanedParams
  if ToolConverter.isString (ToolConverter.getField "type" cleanedParams) "object"
      && (ToolConverter.getField "properties" cleanedParams).isNone then
    ToolConverter.setField "properties" (Json.obj []) cleanedParams
  else cleanedParams

namespace OpenAI

/-- The callback of `openaiTools.map` in `convertOpenAIToolsToAntigravity` (openai.js): the
group built for one tool and the calls of `setToolNameMapping` made. Reading
`tool.function.description` when `function` is missing raises a `TypeError`. -/
def convertTool (env : Env) (sessionId : Option String) (actualModelName : String)
    (tool : ToolConverter.OpenAITool) :
    Except String (DeclarationGroup × List (List (Option String))) :=
  let cleanedParams := cleanedParams env (tool.function.bind fun f => f.parameters)
  let originalName := tool.function.bind fun f => f.name
  let safeName := env.sanitizeToolName originalName
  let recorded :=
    if truthyStr sessionId && actualModelName != "" && some safeName != originalName then
      [[sessionId, some actualModelName, some safeName, originalName]]
    else []
  match tool.function with
  | none => .error "TypeError: tool.function is undefined"
  | some function =>
    .ok ({ functionDeclarations :=
            [{ name := safeName, description := function.description,
               parameters := cleanedParams }] },
         recorded)

/-- The `openaiTools.map(...)` of `convertOpenAIToolsToAntigravity` (openai.js), in input
order. -/
def convertTools (env : Env) (sessionId : Option String) (actualModelName : String) :
    List ToolConverter.OpenAITool →
      Except String (List DeclarationGroup × List (List (Option String)))
  | [] => .ok ([], [])
  | tool :: rest =>
    match convertTool env sessionId actualModelName tool with
    | .error e => .error e
    | .ok (group, recorded) =>
      match convertTools env sessionId actualModelName rest with
      | .error e => .error e
      | .ok (groups, more) => .ok (group :: groups, recorded ++ more)

/-- The function `convertOpenAIToolsToAntigravity` of `openai.js`. -/
def convertOpenAIToolsToAntigravity (env : Env)
    (openaiTools : Option (List ToolConverter.OpenAITool)) (sessionId : Option String)
    (actualModelName : String) :
    Except String (List DeclarationGroup × List (List (Option String))) :=
  match openaiTools with
  | none => .ok ([], [])
  | some [] => .ok ([], [])
  | some tools => convertTools env sessionId actualModelName tools

end OpenAI

namespace Claude

/-- The callback of `claudeTools.map` in `convertClaudeToolsToAntigravity` (claude.js). -/
def convertTool (env : Env) (sessionId : Option String) (actualModelName : String)
    (tool : ToolConverter.ClaudeTool) : DeclarationGroup × List (List (Option String)) :=
  let cleanedParams := cleanedParams env tool.input_schema
  let originalName := tool.name
  let safeName := env.sanitizeToolName originalName
  let recorded :=
    if truthyStr sessionId && actualModelName != "" && some safeName != originalName then
      [[sessionId, some actualModelName, some safeName, originalName]]
    else []
  ({ functionDeclarations :=
      [{ name := safeName, description := some (jsOrD tool.description ""),
         parameters := cleanedParams }] },
   recorded)

/-- The function `convertClaudeToolsToAntigravity` of `claude.js`. -/
def convertClaudeToolsToAntigravity (env : Env)
    (claudeTools : Option (List ToolConverter.ClaudeTool)) (sessionId : Option String)
    (actualModelName : String) : List DeclarationGroup × List (List (Option String)) :=
  match claudeTools with
  | none => ([], [])
  | some [] => ([], [])
  | some tools =>
    ((tools.map (convertTool env sessionId actualModelName)).map (fun r => r.1),
     (tools.map (convertTool env sessionId actualModelName)).flatMap fun r => r.2)

end Claude

namespace ToolConverter

/-- A declaration inside `functionDeclarations` of a Gemini tool entry. -/
structure GeminiDeclaration where
  name : Option String
  description : Option String
  parameters : Option Json

/-- An entry of a Gemini tool list: a group under `functionDeclarations` or
`function_declarations` (missing, or an array), or a single tool definition. -/
structure GeminiTool where
  functionDeclarations : Option (List GeminiDeclaration)
  function_declarations : Option (List GeminiDeclaration)
  name : Option String
  description : Option String
  parameters : Option Json
  input_schema : Option Json

/-- The value of `tool.parameters || tool.input_schema`. -/
def parametersOrSchema (tool : GeminiTool) : Option Json :=
  match tool.parameters with
  | some v => if v.truthy then some v else tool.input_schema
  | none => tool.input_schema

/-- The body of the loop of `convertGeminiToolsToAntigravity` for one entry: `acc` holds
`allDeclarations` and the calls of `setToolNameMapping` made so far. -/
def collectGeminiTool (env : Env) (sessionId : Option String) (actualModelName : String)
    (acc : List FunctionDeclaration × List (List (Option String))) (tool : GeminiTool) :
    List FunctionDeclaration × List (List (Option String)) :=
  match tool.functionDeclarations.orElse fun _ => tool.function_declarations with
  | some declarations =>
    declarations.foldl
      (fun acc fd =>
        let r := convertSingleTool env fd.name fd.description fd.parameters sessionId
          actualModelName
        (acc.1 ++ [r.1], acc.2 ++ r.2))
      acc
  | none =>
    if truthyStr tool.name then
      let r := convertSingleTool env tool.name tool.description (parametersOrSchema tool)
        sessionId actualModelName
      (acc.1 ++ [r.1], acc.2 ++ r.2)
    else acc

/-- The function `convertGeminiToolsToAntigravity`. -/
def convertGeminiToolsToAntigravity (env : Env) (geminiTools : Option (List GeminiTool))
    (sessionId : Option String) (actualModelName : String) :
    List ToolGroup × List (List (Option String)) :=
  match geminiTools with
  | none => ([], [])
  | some [] => ([], [])
  | some tools =>
    let all := tools.foldl (collectGeminiTool env sessionId actualModelName) ([], [])
    (if all.1.length > 0 then [{ functionDeclarations := all.1 }] else [], all.2)

end ToolConverter

/-! ## Request assembly: the three entry points -/

/-- The `token` argument of the entry points. -/
structure Token where
  projectId : Option String
  sessionId : Option String

/-- The fields of `config` the entry points read; `thinking_budget` is
`config.defaults.thinking_budget`. -/
structure Config where
  systemInstruction : Option String
  useContextSystemPrompt : Bool
  thinking_budget : Option Json

/-- The configuration and the imported functions the entry points call; `generateRequestId` is
the id the call of `generateRequestId()` returns. -/
structure Host where
  config : Config
  generateRequestId : String
  isEnableThinking : String → Bool
  modelMapping : String → String
  generateGenerationConfig : Option Json → Bool → String → Json
  extractSystemInstruction : List OpenAIMessage → Option String

/-- The object `{ mode }`. -/
structure FunctionCallingConfig where
  mode : String

/-- The object `{ functionCallingConfig }`. -/
structure ToolConfig where
  functionCallingConfig : FunctionCallingConfig

/-- The `request` object built by `generateRequestBody` and `generateClaudeRequestBody`;
`systemInstruction` is missing unless it is attached. -/
structure Request where
  contents : List UnifiedMessage
  tools : List DeclarationGroup
  toolConfig : ToolConfig
  generationConfig : Json
  sessionId : Option String
  systemInstruction : Option UnifiedMessage

/-- The envelope `{ project, requestId, request, model, userAgent }`. -/
structure Envelope (ρ : Type) where
  project : Option String
  requestId : String
  request : ρ
  model : String
  userAgent : String

namespace OpenAI

/-- The loop of `generateRequestBody` over `openaiMessages` (lines 163 to 170): `rest` holds
the messages from index `i` on, and the result is `filteredMessages` after the loop. -/
def filterLoop (openaiMessages : List OpenAIMessage) :
    Nat → Nat → List OpenAIMessage → List OpenAIMessage
  | _, _, [] => openaiMessages
  | i, startIndex, message :: rest =>
    if message.role = "system" then filterLoop openaiMessages (i + 1) (i + 1) rest
    else openaiMessages.drop startIndex

/-- The value of `filteredMessages` in `generateRequestBody`. -/
def filteredMessages (config : Config) (openaiMessages : List OpenAIMessage) :
    List OpenAIMessage :=
  if config.useContextSystemPrompt then filterLoop openaiMessages 0 0 openaiMessages
  else openaiMessages

/-- The function `generateRequestBody`: the envelope returned and the calls of
`setToolNameMapping` made. -/
def generateRequestBody (env : Env) (host : Host) (openaiMessages : List OpenAIMessage)
    (modelName : String) (parameters : Option Json)
    (openaiTools : Option (List ToolConverter.OpenAITool)) (token : Token) :
    Except String (Envelope Request × List (List (Option String))) :=
  let enableThinking := host.isEnableThinking modelName
  let actualModelName := host.modelMapping modelName
  let mergedSystemInstruction := host.extractSystemInstruction openaiMessages
  let filteredMessages := filteredMessages host.config openaiMessages
  match openaiMessageToAntigravity env filteredMessages enableThinking actualModelName
      token.sessionId with
  | .error e => .error e
  | .ok st =>
    match convertOpenAIToolsToAntigravity env openaiTools token.sessionId actualModelName with
    | .error e => .error e
    | .ok (tools, recorded) =>
      let request : Request :=
        { contents := st.messages
          tools := tools
          toolConfig := { functionCallingConfig := { mode := "VALIDATED" } }
          generationConfig :=
            host.generateGenerationConfig parameters enableThinking actualModelName
          sessionId := token.sessionId
          systemInstruction :=
            if truthyStr mergedSystemInstruction then
              some { role := "user", parts := [Part.text (mergedSystemInstruction.getD "") false] }
            else none }
      .ok ({ project := token.projectId
             requestId := host.generateRequestId
             request := request
             model := actualModelName
             userAgent := "antigravity" },
           st.nameMappings ++ recorded)

end OpenAI

namespace Claude

/-- The value of `mergedSystem` in `generateClaudeRequestBody` (lines 183 to 192). -/
def mergedSystem (config : Config) (systemPrompt : Option String) : String :=
  let baseSystem := jsOrD config.systemInstruction ""
  if config.useContextSystemPrompt && truthyStr systemPrompt then
    let parts :=
      (if jsTrim baseSystem != "" then [jsTrim baseSystem] else [])
        ++ (if jsTrim (systemPrompt.getD "") != "" then [jsTrim (systemPrompt.getD "")] else [])
    String.intercalate "\n\n" parts
  else baseSystem

/-- The function `generateClaudeRequestBody`: the envelope returned and the calls of
`setToolNameMapping` made. -/
def generateClaudeRequestBody (env : Env) (host : Host) (claudeMessages : List ClaudeMessage)
    (modelName : String) (parameters : Option Json)
    (claudeTools : Option (List ToolConverter.ClaudeTool)) (systemPrompt : Option String)
    (token : Token) : Envelope Request × List (List (Option String)) :=
  let enableThinking := host.isEnableThinking modelName
  let actualModelName := host.modelMapping modelName
  let mergedSystem := mergedSystem host.config systemPrompt
  let st := claudeMessageToAntigravity env claudeMessages enableThinking actualModelName
    token.sessionId
  let tools := convertClaudeToolsToAntigravity env claudeTools token.sessionId actualModelName
  let request : Request :=
    { contents := st.messages
      tools := tools.1
      toolConfig := { functionCallingConfig := { mode := "VALIDATED" } }
      generationConfig := host.generateGenerationConfig parameters enableThinking actualModelName
      sessionId := token.sessionId
      systemInstruction :=
        if mergedSystem != "" then
          some { role := "user", parts := [Part.text mergedSystem false] }
        else none }
  ({ project := token.projectId
     requestId := host.generateRequestId
     request := request
     model := actualModelName
     userAgent := "antigravity" },
   st.nameMappings ++ tools.2)

end Claude

namespace Gemini

/-- The Gemini request body, with the fields `generateGeminiRequestBody` reads or writes and the
fields `toolConfig` and `tools` it passes through; `generationConfig` is missing or an object. -/
structure GeminiRequest where
  contents : Option (List GeminiContent)
  generationConfig : Option (List (String × Json))
  sessionId : Option String
  safetySettings : Option Json
  systemInstruction : Option GeminiContent
  toolConfig : Option Json
  tools : Option Json

/-- The value of `config.defaults.thinking_budget ?? 1024`. -/
def defaultThinkingBudget (config : Config) : Json :=
  match config.thinking_budget with
  | none => Json.num 1024
  | some Json.null => Json.num 1024
  | some v => v

/-- The value of `request.systemInstruction?.parts?.[0]?.text || ''`. -/
def existingText (request : GeminiRequest) : String :=
  jsOrD
    (request.systemInstruction.bind fun s => s.parts.bind fun ps => ps.head?.bind fun p => p.text)
    ""

/-- The value of `mergedText` in `generateGeminiRequestBody` (line 79); a missing
`config.systemInstruction` is written `undefined` by the template literal. -/
def mergedText (config : Config) (request : GeminiRequest) : String :=
  if existingText request != "" then
    config.systemInstruction.getD "undefined" ++ "\n\n" ++ existingText request
  else config.systemInstruction.getD ""

/-- The part `{ text }`. -/
def textPart (text : String) : GeminiPart :=
  { text := some text, thought := none, thoughtSignature := none, functionCall := none,
    functionResponse := none, inlineData := none }

/-- The function `generateGeminiRequestBody`; `geminiBody` is the body and the returned
`request` its modified copy. -/
def generateGeminiRequestBody (env : Env) (host : Host) (fresh : Nat → String)
    (geminiBody : GeminiRequest) (modelName : String) (token : Token) :
    Envelope GeminiRequest :=
  let enableThinking := host.isEnableThinking modelName
  let actualModelName := host.modelMapping modelName
  let contents := geminiBody.contents.map
    (augmentContents env fresh enableThinking actualModelName token.sessionId)
  let generationConfig := geminiBody.generationConfig.getD []
  let generationConfig :=
    if enableThinking
        && !(match ToolConverter.getField "thinkingConfig" generationConfig with
          | some v => v.truthy
          | none => false) then
      ToolConverter.setField "thinkingConfig"
        (Json.obj [("includeThoughts", Json.bool true),
          ("thinkingBudget", defaultThinkingBudget host.config)])
        generationConfig
    else generationConfig
  let generationConfig := ToolConverter.setField "candidateCount" (Json.num 1) generationConfig
  let request : GeminiRequest :=
    { contents := contents
      generationConfig := some generationConfig
      sessionId := token.sessionId
      safetySettings := none
      systemInstruction :=
        some { role := some "user", parts := some [textPart (mergedText host.config geminiBody)] }
      toolConfig := geminiBody.toolConfig
      tools := geminiBody.tools }
  { project := token.projectId
    requestId := host.generateRequestId
    request := request
    model := actualModelName
    userAgent := "antigravity" }

end Gemini

namespace Gemini

/-- The function call of a part, as a list. -/
def callsOfPart (p : GeminiPart) : List FunctionCall := p.functionCall.toList

/-- The function calls of a content the first pass visits, in order. -/
def callsOfContent (c : GeminiContent) : List FunctionCall :=
  if c.role = some "model" then (c.parts.getD []).flatMap callsOfPart else []

/-- The function calls of the model turns of the contents, in document order. -/
def modelCalls (contents : List GeminiContent) : List FunctionCall :=
  contents.flatMap callsOfContent

/-- The function response of a part, as a list. -/
def responsesOfPart (p : GeminiPart) : List FunctionResponse := p.functionResponse.toList

/-- The function responses of a content the second pass visits, in order. -/
def responsesOfContent (c : GeminiContent) : List FunctionResponse :=
  if c.role = some "user" then (c.parts.getD []).flatMap responsesOfPart else []

/-- The function responses of the user turns of the contents, in document order. -/
def userResponses (contents : List GeminiContent) : List FunctionResponse :=
  contents.flatMap responsesOfContent

/-- The effect of the first pass on one function call. -/
def callStep (fresh : Nat → String) (acc : IdState) (functionCall : FunctionCall) :
    FunctionCall × IdState :=
  if !truthyStr functionCall.id then
    let id := "call_" ++ fresh acc.generated
    ({ functionCall with id := some id },
      { generated := acc.generated + 1, functionCallIds := acc.functionCallIds ++ [id] })
  else (functionCall, { acc with functionCallIds := acc.functionCallIds ++ [functionCall.id.getD ""] })

/-- The effect of the second pass on one function response. -/
def responseStep (functionCallIds : List String) (responseIndex : Nat)
    (functionResponse : FunctionResponse) : FunctionResponse × Nat :=
  if !truthyStr functionResponse.id && responseIndex < functionCallIds.length then
    ({ functionResponse with id := functionCallIds[responseIndex]? }, responseIndex + 1)
  else (functionResponse, responseIndex)

/-- Number of function responses without an id among the first `j` of a list. -/
def idlessBefore (responses : List FunctionResponse) (j : Nat) : Nat :=
  ((responses.take j).filter fun r => !truthyStr r.id).length

/-- A part holding only a function response with the given id. -/
def responsePartWithId (id name : String) : GeminiPart :=
  { text := none, thought := none, thoughtSignature := none, functionCall := none,
    functionResponse := some { id := some id, name := some name, response := none },
    inlineData := none }

/-- A payload with two function calls without ids, a function response that arrives with the
id `r0` and a second function response without an id. -/
def mixedContents : List GeminiContent :=
  [ { role := some "model", parts := some [callPart "f", callPart "g"] },
    { role := some "user", parts := some [responsePartWithId "r0" "f", responsePart "g"] } ]

end Gemini

/-- A sample configuration without base system instruction, with the merge option enabled. -/
def sampleConfig : Config :=
  { systemInstruction := none, useContextSystemPrompt := true, thinking_budget := none }

/-- A sample host: thinking is enabled for every model, model names are kept, the generation
configuration is empty and no system instruction is extracted from the messages. -/
def sampleHost : Host :=
  { config := sampleConfig
    generateRequestId := "req-1"
    isEnableThinking := fun _ => true
    modelMapping := fun m => m
    generateGenerationConfig := fun _ _ _ => Json.obj []
    extractSystemInstruction := fun _ => none }

/-- A sample token. -/
def sampleToken : Token := { projectId := some "p", sessionId := some "s" }

/-- A Gemini body with one user text turn and nothing else. -/
def sampleGeminiBody : Gemini.GeminiRequest :=
  { contents := some [{ role := some "user", parts := some [Gemini.textPart "hi"] }]
    generationConfig := none
    sessionId := none
    safetySettings := none
    systemInstruction := none
    toolConfig := none
    tools := none }

/-- A sample OpenAI assistant turn whose content is an array of items. -/
def sampleArrayTurn : OpenAIMessage :=
  { role := "assistant",
    content := .blocks [{ type := some "text", text := some "hi", image_url := none }],
    tool_calls := none, tool_call_id := none, thoughtSignature := none,
    reasoning_content := none }

/-- A sample OpenAI assistant turn with a tool call that has no `function` object. -/
def sampleBareCallTurn : OpenAIMessage :=
  { role := "assistant", content := .absent,
    tool_calls := some [{ id := some "c1", function := none, thoughtSignature := none }],
    tool_call_id := none, thoughtSignature := none, reasoning_content := none }

/-- A tool entry without `function` key. -/
def sampleBareTool : ToolConverter.OpenAITool := { function := none }

/-- The string has no leading and no trailing white space. -/
def NoOuterWhitespace (s : String) : Prop :=
  (∀ c, s.data.head? = some c → isJsWhitespace c = false)
    ∧ (∀ c, s.data.getLast? = some c → isJsWhitespace c = false)

/-- The envelope `generateRequestBody` returns for `sampleOpenAIMessages` without tools, for
model `m`, in `sampleEnv` and `sampleHost` with `sampleToken`. -/
def sampleOpenAIEnvelope : Envelope Request :=
  { project := some "p"
    requestId := "req-1"
    request :=
      { contents := sampleOpenAIResult.messages
        tools := []
        toolConfig := { functionCallingConfig := { mode := "VALIDATED" } }
        generationConfig := Json.obj []
        sessionId := some "s"
        systemInstruction := none }
    model := "m"
    userAgent := "antigravity" }

/-- The tool `{ type: 'function', function }` whose `function` object is present. -/
def OpenAI.toolOf (function : ToolConverter.OpenAIToolFunction) : ToolConverter.OpenAITool :=
  { function := some function }

/-- The tool group `openai.js` builds for a tool with the given `function` object. -/
def OpenAI.groupOf (env : Env) (function : ToolConverter.OpenAIToolFunction) : DeclarationGroup :=
  { functionDeclarations :=
      [{ name := env.sanitizeToolName function.name, description := function.description,
         parameters := cleanedParams env function.parameters }] }

/-- A sample `function` object of an OpenAI tool. -/
def sampleToolFunction : ToolConverter.OpenAIToolFunction :=
  { name := some "My Tool!", description := some "a tool", parameters := none }

/-- A sample Claude tool. -/
def sampleClaudeTool : ToolConverter.ClaudeTool :=
  { name := some "My Tool!", description := some "a tool", input_schema := none }

/-- The declarations an entry of a Gemini tool list contributes, in the words of the
specification: every declaration under `functionDeclarations` or `function_declarations` when
the entry has one of these keys (the first of the two when it has both), the entry itself when
it instead has a non-empty `name`, and nothing otherwise; each is converted by
`convertSingleTool`. -/
def ToolConverter.declarationsOfEntry (env : Env) (sessionId : Option String)
    (actualModelName : String) (tool : ToolConverter.GeminiTool) :
    List ToolConverter.FunctionDeclaration :=
  match tool.functionDeclarations, tool.function_declarations with
  | some declarations, _ =>
    declarations.map fun fd =>
      (convertSingleTool env fd.name fd.description fd.parameters sessionId actualModelName).1
  | none, some declarations =>
    declarations.map fun fd =>
      (convertSingleTool env fd.name fd.description fd.parameters sessionId actualModelName).1
  | none, none =>
    match tool.name with
    | some name =>
      if name = "" then []
      else
        [(convertSingleTool env tool.name tool.description (parametersOrSchema tool) sessionId
          actualModelName).1]
    | none => []

/-- A Gemini tool entry grouping one declaration under `function_declarations`. -/
def sampleGeminiGroup : ToolConverter.GeminiTool :=
  { functionDeclarations := none,
    function_declarations := some [{ name := some "f", description := none, parameters := none }],
    name := none, description := none, parameters := none, input_schema := none }

/-- A Gemini tool entry that is a single tool definition. -/
def sampleGeminiFlat : ToolConverter.GeminiTool :=
  { functionDeclarations := none, function_declarations := none, name := some "g",
    description := none, parameters := none, input_schema := none }

/-- The result of the schema cleaner for the schema `parameters` of a tool, the empty object
when the cleaner returns nothing. -/
def cleanedOf (env : Env) (parameters : Option Json) : List (String × Json) :=
  (env.cleanParameters (ToolConverter.orEmptyObject parameters)).getD []

/-- The shape invariant of emitted `parameters` with respect to the cleaned schema: `type` is
defined, it is the object-type marker when the cleaned schema has no type, and when it is the
marker `properties` is defined, being the empty mapping when the cleaned schema had none and the
properties of the cleaned schema otherwise. -/
def ParametersShape (marker : String) (cleaned emitted : List (String × Json)) : Prop :=
  (ToolConverter.getField "type" emitted).isSome = true
    ∧ (ToolConverter.getField "type" cleaned = none →
        ToolConverter.getField "type" emitted = some (Json.str marker))
    ∧ (ToolConverter.isString (ToolConverter.getField "type" emitted) marker = true →
        (ToolConverter.getField "properties" emitted).isSome = true
          ∧ (ToolConverter.getField "properties" cleaned = none →
              ToolConverter.getField "properties" emitted = some (Json.obj []))
          ∧ ∀ v, ToolConverter.getField "properties" cleaned = some v →
              ToolConverter.getField "properties" emitted = some v)

/-- The shape of the `parameters` emitted by `toolConverter.js` for some tool schema: the
invariant with marker `OBJECT`, and a lower-case `object` of the cleaned schema rewritten to
`OBJECT`. -/
def SharedShape (env : Env) (emitted : List (String × Json)) : Prop :=
  ∃ parameters, ParametersShape "OBJECT" (cleanedOf env parameters) emitted
    ∧ (ToolConverter.isString (ToolConverter.getField "type" (cleanedOf env parameters))
          "object" = true →
        ToolConverter.getField "type" emitted = some (Json.str "OBJECT"))

/-- The shape of the `parameters` emitted by `openai.js` and `claude.js` for some tool schema:
the invariant with marker `object`. -/
def LegacyShape (env : Env) (emitted : List (String × Json)) : Prop :=
  ∃ parameters, ParametersShape "object" (cleanedOf env parameters) emitted

/-- The part is a thought part `{ text, thought: true }` or a signature part. -/
def Part.isThoughtOrSignature : Part → Bool
  | .text _ true => true
  | .signature _ _ => true
  | _ => false

/-- The part is a plain text part `{ text }`. -/
def Part.isPlainText : Part → Bool
  | .text _ false => true
  | _ => false

/-- The part is a function call part. -/
def Part.isFunctionCall : Part → Bool
  | .functionCall _ _ _ _ => true
  | _ => false

/-- The parts are, in order, thought and signature parts, then at most one plain text part,
then only function call parts. -/
def OrderedParts (parts : List Part) : Prop :=
  ∃ thoughts text calls, parts = thoughts ++ text ++ calls
    ∧ (∀ p ∈ thoughts, p.isThoughtOrSignature = true)
    ∧ text.length ≤ 1 ∧ (∀ p ∈ text, p.isPlainText = true)
    ∧ (∀ p ∈ calls, p.isFunctionCall = true)

/-- A sample Claude conversation whose assistant turn lists a text block after a `tool_use`
block and is followed by a turn with only a `tool_use` block. -/
def sampleInterleavedMessages : List ClaudeMessage :=
  [ { role := "user", content := .text "hi" },
    { role := "assistant",
      content := .blocks
        [ sampleToolUse,
          { type := some "text", text := some "calling", source := none, id := none,
            name := none, input := none, tool_use_id := none, content := .absent } ] },
    sampleClaudeToolTurn ]

/-- No part that is not a function call follows a function call part in `parts`. -/
def NoContentAfterCall (parts : List Part) : Prop :=
  ∀ (i j : Nat) (p q : Part), i < j → parts[i]? = some p → p.isFunctionCall = true →
    parts[j]? = some q → q.isFunctionCall = true

/-- Every model-role message of `messages` has ordered parts, none but function calls after a
function call. -/
def ModelPartsOrdered (messages : List UnifiedMessage) : Prop :=
  ∀ m ∈ messages, m.role = "model" → OrderedParts m.parts ∧ NoContentAfterCall m.parts

/-- The fields of the envelope other than `request`: `project` is the project id of the token,
`requestId` the generated id, `model` the mapped model name and `userAgent` the literal
`antigravity`. -/
def EnvelopeShape {ρ : Type} (host : Host) (modelName : String) (token : Token)
    (body : Envelope ρ) : Prop :=
  body.project = token.projectId ∧ body.requestId = host.generateRequestId
    ∧ body.model = host.modelMapping modelName ∧ body.userAgent = "antigravity"

/-- A Gemini body that carries its own `toolConfig`, with mode `AUTO`. -/
def sampleGeminiAutoBody : Gemini.GeminiRequest :=
  { contents := some [{ role := some "user", parts := some [Gemini.textPart "hi"] }]
    generationConfig := none
    sessionId := none
    safetySettings := none
    systemInstruction := none
    toolConfig := some (Json.obj [("functionCallingConfig", Json.obj [("mode", Json.str "AUTO")])])
    tools := none }

/-- The test `message.role === 'system'` of the loop of `generateRequestBody`. -/
def OpenAI.isSystem (message : OpenAIMessage) : Bool := message.role = "system"

/-- The message list with its maximal leading run of system-role messages removed. -/
def OpenAI.withoutLeadingSystem (openaiMessages : List OpenAIMessage) : List OpenAIMessage :=
  openaiMessages.dropWhile OpenAI.isSystem

/-- A sample system turn with text `S`. -/
def sampleSystemTurn : OpenAIMessage :=
  { role := "system", content := .text "S", tool_calls := none, tool_call_id := none,
    thoughtSignature := none, reasoning_content := none }

/-- A sample user turn with text `hi`. -/
def sampleUserTurn : OpenAIMessage :=
  { role := "user", content := .text "hi", tool_calls := none, tool_call_id := none,
    thoughtSignature := none, reasoning_content := none }

/-- The parts of all the messages of a list, in order. -/
def allParts (messages : List UnifiedMessage) : List Part :=
  messages.flatMap fun m => m.parts

/-- The test of the merge rule of tool results on the last message of the list: it is a user
message that already holds a function response. -/
def endsWithResponses (messages : List UnifiedMessage) : Bool :=
  match messages.getLast? with
  | some lastMessage => lastMessage.role = "user" && lastMessage.parts.any Part.isFunctionResponse
  | none => false

namespace Claude

/-- The function response parts of the `tool_result` blocks of a content array, one per block
in block order, the names resolved in `msgs`. -/
def toolResultParts (msgs : List UnifiedMessage) (items : List ClaudeContentItem) : List Part :=
  (items.filter fun i => i.type = some "tool_result").map (responseOf msgs)

/-- The inline data part of an `image` block whose source is base64 with data. -/
def imagePart (item : ClaudeContentItem) : Option Part :=
  if item.type = some "image" then
    match item.source with
    | some source =>
      if source.type = some "base64" && truthyStr source.data then
        some (Part.inlineData (jsOrD source.media_type "image/png") (source.data.getD ""))
      else none
    | none => none
  else none

/-- The base64 images of a content array, in order. -/
def imagesOf (items : List ClaudeContentItem) : List Part := items.filterMap imagePart

/-- The concatenated text of a user content: the string itself, or the texts of the `text`
blocks of the array in order. -/
def userText : ClaudeContent → String
  | .text s => s
  | .blocks items => textOf items
  | .absent => ""

/-- The base64 images of a user content, in order. -/
def userImages : ClaudeContent → List Part
  | .blocks items => imagesOf items
  | _ => []

end Claude

/-- A state whose last message is a model message calling `My_Tool_` with id `c1`. -/
def sampleCallState : ConvState :=
  { messages :=
      [ { role := "user", parts := [Part.text "hi" false] },
        { role := "model", parts := [Part.functionCall (some "c1") "My_Tool_" "u" none] } ],
    nameMappings := [] }

/-- A sample Claude `text` block with text `note`. -/
def sampleTextBlock : ClaudeContentItem :=
  { type := some "text", text := some "note", source := none, id := none, name := none,
    input := none, tool_use_id := none, content := .absent }

/-- A sample Claude `image` block with base64 data `AAAA` and no media type. -/
def sampleImageBlock : ClaudeContentItem :=
  { type := some "image", text := none,
    source := some { type := some "base64", media_type := none, data := some "AAAA" },
    id := none, name := none, input := none, tool_use_id := none, content := .absent }

/-- A sample Claude `tool_result` block answering an unknown call `x2`. -/
def sampleOtherResult : ClaudeContentItem :=
  { type := some "tool_result", text := none, source := none, id := none, name := none,
    input := none, tool_use_id := some "x2", content := .text "7" }

/-- A user turn whose content array mixes a text block, a `tool_result` block, an image block
and another `tool_result` block. -/
def sampleMixedResultTurn : ClaudeMessage :=
  { role := "user",
    content := .blocks [sampleTextBlock, sampleToolResult, sampleImageBlock, sampleOtherResult] }

/-- A user turn with a text block, an image block and another text block. -/
def sampleImageTurn : ClaudeMessage :=
  { role := "user", content := .blocks [sampleTextBlock, sampleImageBlock, sampleTextBlock] }

/-- A sample OpenAI assistant turn with one tool call whose content is the empty array: a turn
with a tool call and no text. -/
def sampleEmptyArrayCallTurn : OpenAIMessage :=
  { role := "assistant", content := .blocks [],
    tool_calls := some [OpenAI.callOf (some "c2", { name := "fetch", arguments := "u" }, none)],
    tool_call_id := none, thoughtSignature := none, reasoning_content := none }

/-- A state whose only message is `sampleModelMessage`. -/
def sampleModelState : ConvState :=
  { messages := [sampleModelMessage], nameMappings := [] }

end Antigravity

/-! # Theorems -/

namespace Antigravity

/-! ## Lists of unified messages -/

theorem appendToLast_concat (init : List UnifiedMessage) (last : UnifiedMessage)
    (ps : List Part) :
    appendToLast (init ++ [last]) ps = init ++ [{ last with parts := last.parts ++ ps }] := by
  induction init with
  | nil => rfl
  | cons a rest ih =>
    cases rest with
    | nil => rfl
    | cons b rest =>
      have h : appendToLast (a :: b :: (rest ++ [last])) ps
          = a :: appendToLast (b :: (rest ++ [last])) ps := rfl
      simp only [List.cons_append] at ih ⊢
      rw [h, ih]

theorem getLast?_role_concat (init : List UnifiedMessage) (last : UnifiedMessage) :
    ((init ++ [last]).getLast?.map fun m => m.role) = some last.role := by
  simp

theorem join_cons (a : String) (l : List String) : String.join (a :: l) = a ++ String.join l := by
  have h : ∀ (l : List String) (acc : String),
      List.foldl (fun r s => r ++ s) acc l = acc ++ List.foldl (fun r s => r ++ s) "" l := by
    intro l
    induction l with
    | nil => intro acc; simp
    | cons b l ih =>
      intro acc
      simp only [List.foldl_cons]
      rw [ih (acc ++ b), ih ("" ++ b)]
      simp [String.append_assoc]
  simp only [String.join, List.foldl_cons]
  rw [h l ("" ++ a)]
  simp

/-! ## Assistant turns -/

theorem OpenAI.convertToolCalls_callOf (env : Env) (enableThinking : Bool)
    (actualModelName : String) (sessionId : Option String)
    (calls : List (Option String × OpenAIFunction × Option String)) :
    ∃ recorded, convertToolCalls env enableThinking actualModelName sessionId (calls.map callOf)
      = .ok (calls.map (partOf env enableThinking actualModelName sessionId), recorded) := by
  induction calls with
  | nil => exact ⟨[], rfl⟩
  | cons c rest ih =>
    obtain ⟨r, hr⟩ := ih
    simp only [List.map_cons, convertToolCalls, convertToolCall, callOf] at hr ⊢
    rw [hr]
    cases enableThinking <;> simp [partOf, toolSignature]

theorem Claude.scan_foldl (env : Env) (actualModelName : String) (sessionId : Option String)
    (items : List ClaudeContentItem) (acc : Scanned) :
    (items.foldl (scanItem env actualModelName sessionId) acc).textContent
        = acc.textContent ++ textOf items ∧
      (items.foldl (scanItem env actualModelName sessionId) acc).toolCalls
        = acc.toolCalls ++ toolUseParts env items := by
  induction items generalizing acc with
  | nil => simp [textOf, toolUseParts, String.join]
  | cons item rest ih =>
    simp only [List.foldl_cons]
    obtain ⟨h1, h2⟩ := ih (scanItem env actualModelName sessionId acc item)
    rw [h1, h2]
    by_cases ht : item.type = some "text"
    · simp [scanItem, ht, textOf, toolUseParts, join_cons, String.append_assoc]
    · by_cases hu : item.type = some "tool_use"
      · simp [scanItem, hu, textOf, toolUseParts, toolUsePart]
      · simp [scanItem, ht, hu, textOf, toolUseParts]

theorem Claude.scanContent_blocks (env : Env) (actualModelName : String)
    (sessionId : Option String) (items : List ClaudeContentItem) :
    (scanContent env actualModelName sessionId (.blocks items)).textContent = textOf items ∧
      (scanContent env actualModelName sessionId (.blocks items)).toolCalls
        = toolUseParts env items := by
  have h := scan_foldl env actualModelName sessionId items
    { textContent := "", toolCalls := [], recorded := [] }
  simpa [scanContent] using h

/-- Merge coalescing on the turns the handlers accept. When the last unified message has role
`model` and an assistant turn carries at least one tool call and no non-whitespace text,
`handleAssistantMessage` (OpenAI; the tool calls with their `function` object, the content
missing or a blank string) and `handleClaudeAssistantMessage` (Claude; a content array with a
`tool_use` block whose text blocks are blank) keep every earlier message and replace the last
message by itself with the function call parts of the turn appended in input order: no message
and no thought pair is added, whatever `enableThinking` is. -/
theorem merge_coalescing (env : Env) (enableThinking : Bool) (actualModelName : String)
    (sessionId : Option String) (init : List UnifiedMessage) (last : UnifiedMessage)
    (recorded : List (List (Option String)))
    (hlast : last.role = "model")
    (message : OpenAIMessage) (calls : List (Option String × OpenAIFunction × Option String))
    (hcalls : calls ≠ [])
    (htools : message.tool_calls = some (calls.map OpenAI.callOf))
    (hblank : message.content = .absent ∨ ∃ s, message.content = .text s ∧ jsTrim s = "")
    (turn : ClaudeMessage) (items : List ClaudeContentItem)
    (hitems : turn.content = .blocks items)
    (huse : ∃ item ∈ items, item.type = some "tool_use")
    (htext : jsTrim (Claude.textOf items) = "") :
    (∃ st, OpenAI.handleAssistantMessage env message
          { messages := init ++ [last], nameMappings := recorded }
          enableThinking actualModelName sessionId = .ok st
        ∧ st.messages = init ++
          [{ last with
              parts := last.parts ++
                calls.map (OpenAI.partOf env enableThinking actualModelName sessionId) }])
      ∧ (Claude.handleClaudeAssistantMessage env turn
          { messages := init ++ [last], nameMappings := recorded }
          enableThinking actualModelName sessionId).messages
        = init ++ [{ last with parts := last.parts ++ Claude.toolUseParts env items }] := by
  constructor
  · obtain ⟨r, hr⟩ := OpenAI.convertToolCalls_callOf env enableThinking actualModelName
      sessionId calls
    have hne : (calls.map OpenAI.callOf).isEmpty = false := by
      cases calls with
      | nil => exact absurd rfl hcalls
      | cons c rest => rfl
    have hcontent : OpenAI.hasContent message.content = .ok false := by
      rcases hblank with h | ⟨s, h, hs⟩
      · rw [h]; rfl
      · rw [h]; simp [OpenAI.hasContent, hs]
    refine ⟨⟨appendToLast (init ++ [last])
        (calls.map (OpenAI.partOf env enableThinking actualModelName sessionId)),
        recorded ++ r⟩, ?_, ?_⟩
    · simp only [OpenAI.handleAssistantMessage, htools, hne, hcontent, Option.getD_some, hr,
        getLast?_role_concat, hlast]
      simp
    · exact appendToLast_concat init last _
  · obtain ⟨h1, h2⟩ := Claude.scanContent_blocks env actualModelName sessionId items
    have hne : (Claude.toolUseParts env items).isEmpty = false := by
      obtain ⟨item, hmem, htype⟩ := huse
      have : Claude.toolUsePart env item ∈ Claude.toolUseParts env items :=
        List.mem_map.mpr ⟨item, List.mem_filter.mpr ⟨hmem, by simp [htype]⟩, rfl⟩
      cases hp : Claude.toolUseParts env items with
      | nil => rw [hp] at this; cases this
      | cons a b => rfl
    simp only [Claude.handleClaudeAssistantMessage, hitems, h1, h2, hne, htext,
      getLast?_role_concat, hlast]
    simp [appendToLast_concat, hlast]

/-- Merge coalescing on the sample model message and the sample tool-call turns. -/
theorem merge_coalescing_witness :
    (∃ st, OpenAI.handleAssistantMessage sampleEnv sampleToolTurn
          { messages := [] ++ [sampleModelMessage], nameMappings := [] }
          true "m" (some "s") = .ok st
        ∧ st.messages = [] ++
          [{ sampleModelMessage with
              parts := sampleModelMessage.parts ++
                [(some "c2", ({ name := "fetch", arguments := "u" } : OpenAIFunction), none)].map
                  (OpenAI.partOf sampleEnv true "m" (some "s")) }])
      ∧ (Claude.handleClaudeAssistantMessage sampleEnv sampleClaudeToolTurn
          { messages := [] ++ [sampleModelMessage], nameMappings := [] }
          true "m" (some "s")).messages
        = [] ++
          [{ sampleModelMessage with
              parts := sampleModelMessage.parts ++ Claude.toolUseParts sampleEnv [sampleToolUse] }] :=
  merge_coalescing sampleEnv true "m" (some "s") [] sampleModelMessage [] rfl
    sampleToolTurn [(some "c2", { name := "fetch", arguments := "u" }, none)] (by simp) rfl
    (Or.inl rfl) sampleClaudeToolTurn [sampleToolUse] rfl ⟨sampleToolUse, by simp, rfl⟩
    (by decide)

/-! ## Tool results -/

theorem findCallName_eq_head? (c : Option String) (parts : List Part) :
    findCallName c parts = (parts.filterMap (Part.callNameWithId c)).head? := by
  induction parts with
  | nil => rfl
  | cons p rest ih =>
    cases p with
    | functionCall id name q sig =>
      by_cases h : id = c
      · simp [findCallName, Part.callNameWithId, h]
      · simp [findCallName, Part.callNameWithId, h, ih]
    | _ => simp [findCallName, Part.callNameWithId, ih]

theorem callNames_append (a b : List UnifiedMessage) (c : Option String) :
    callNames (a ++ b) c = callNames a c ++ callNames b c := by
  simp [callNames]

theorem callNames_cons (m : UnifiedMessage) (l : List UnifiedMessage) (c : Option String) :
    callNames (m :: l) c
      = (if m.role = "model" then m.parts.filterMap (Part.callNameWithId c) else [])
        ++ callNames l c := by
  by_cases h : m.role = "model" <;> simp [callNames, List.filter_cons, h]

theorem callNames_reverse (l : List UnifiedMessage) (c : Option String) :
    (callNames l.reverse c).length = (callNames l c).length
      ∧ ∀ x, x ∈ callNames l.reverse c ↔ x ∈ callNames l c := by
  induction l with
  | nil => simp
  | cons m rest ih =>
    have h1 : callNames (m :: rest) c = callNames [m] c ++ callNames rest c :=
      callNames_append [m] rest c
    rw [List.reverse_cons, callNames_append, h1]
    refine ⟨by simp [ih.1, Nat.add_comm], fun x => ?_⟩
    simp only [List.mem_append, ih.2 x]
    exact Or.comm

theorem scanFunctionName_unique (c : Option String) (l : List UnifiedMessage)
    (h : (callNames l c).length ≤ 1) :
    scanFunctionName c l "" = (callNames l c).head?.getD "" := by
  induction l with
  | nil => rfl
  | cons m rest ih =>
    rw [callNames_cons] at h ⊢
    by_cases hm : m.role = "model"
    · simp only [hm, if_true] at h ⊢
      simp only [scanFunctionName, hm, if_true, findCallName_eq_head?]
      cases hp : m.parts.filterMap (Part.callNameWithId c) with
      | nil =>
        rw [hp] at h
        simpa using ih (by simpa using h)
      | cons n more =>
        rw [hp] at h
        have hrest : callNames rest c = [] := by
          cases hr : callNames rest c with
          | nil => rfl
          | cons a b => rw [hr] at h; simp at h
        by_cases hn : n = ""
        · simp [hn, ih (by simp [hrest]), hrest]
        · simp [hn]
    · simp only [hm, if_false, List.nil_append] at h ⊢
      simp only [scanFunctionName, hm, if_false]
      exact ih h

theorem resolveFunctionName_unique (msgs : List UnifiedMessage) (c : Option String)
    (h : (callNames msgs c).length ≤ 1) :
    (∀ x ∈ callNames msgs c, resolveFunctionName msgs c = x)
      ∧ (callNames msgs c = [] → resolveFunctionName msgs c = "") := by
  obtain ⟨hlen, hmem⟩ := callNames_reverse msgs c
  have hscan := scanFunctionName_unique c msgs.reverse (by omega)
  unfold resolveFunctionName
  rw [hscan]
  constructor
  · intro x hx
    have hx2 := (hmem x).mpr hx
    cases hr : callNames msgs.reverse c with
    | nil => rw [hr] at hx2; cases hx2
    | cons a b =>
      rw [hr] at hx2 hlen
      have hb : b = [] := by
        cases b with
        | nil => rfl
        | cons _ _ => simp at hlen; omega
      subst hb
      simpa using (List.mem_singleton.mp hx2).symm
  · intro hnil
    have : callNames msgs.reverse c = [] := by
      apply List.eq_nil_of_length_eq_zero
      rw [hlen, hnil]; rfl
    rw [this]; rfl

theorem pushFunctionResponse_concat (init : List UnifiedMessage) (last : UnifiedMessage)
    (r : Part) :
    pushFunctionResponse (init ++ [last]) r =
      if last.role = "user" && last.parts.any Part.isFunctionResponse then
        init ++ [{ last with parts := last.parts ++ [r] }]
      else init ++ [last] ++ [{ role := "user", parts := [r] }] := by
  have hlast : (init ++ [last]).getLast? = some last := List.getLast?_concat init
  unfold pushFunctionResponse
  rw [hlast]
  simp only [appendToLast_concat]

theorem pushFunctionResponse_emits (msgs : List UnifiedMessage) (r : Part) :
    ∃ init ps, pushFunctionResponse msgs r = init ++ [{ role := "user", parts := ps ++ [r] }] := by
  rcases List.eq_nil_or_concat msgs with h | ⟨init, last, h⟩
  · subst h
    exact ⟨[], [], rfl⟩
  · rw [List.concat_eq_append] at h
    subst h
    rw [pushFunctionResponse_concat]
    by_cases hc : (last.role = "user" && last.parts.any Part.isFunctionResponse) = true
    · refine ⟨init, last.parts, ?_⟩
      have hrole : last.role = "user" := by
        simp only [Bool.and_eq_true, decide_eq_true_eq] at hc
        exact hc.1
      rw [if_pos hc, hrole]
    · refine ⟨init ++ [last], [], ?_⟩
      rw [if_neg hc]
      rfl

/-- C2 (tool-result pairing). When at most one function call part of the model-role messages has
id `c`, a tool result referencing `c` (`handleToolCall` for an OpenAI tool message,
`handleClaudeToolResult` for a Claude turn holding the `tool_result` block) ends the list with a
user message whose last part is a function response with id `c`; its name is the name of that
call when there is one and the empty string when there is none. Both functions are total. -/
theorem tool_result_pairing (msgs : List UnifiedMessage) (c : Option String)
    (hunique : (callNames msgs c).length ≤ 1)
    (message : OpenAIMessage) (hid : message.tool_call_id = c)
    (turn : ClaudeMessage) (item : ClaudeContentItem)
    (hturn : turn.content = .blocks [item])
    (htype : item.type = some "tool_result") (huse : item.tool_use_id = c) :
    ∃ name,
      (∀ x ∈ callNames msgs c, name = x) ∧ (callNames msgs c = [] → name = "") ∧
      (∃ init ps, OpenAI.handleToolCall message msgs = init ++
        [{ role := "user", parts := ps ++ [Part.functionResponse c name message.content] }]) ∧
      (∃ init ps, Claude.handleClaudeToolResult turn msgs = init ++
        [{ role := "user",
           parts := ps ++ [Part.functionResponse c name
            (MessageContent.text (Claude.resultContent item.content))] }]) := by
  obtain ⟨h1, h2⟩ := resolveFunctionName_unique msgs c hunique
  refine ⟨resolveFunctionName msgs c, h1, h2, ?_, ?_⟩
  · unfold OpenAI.handleToolCall
    rw [hid]
    exact pushFunctionResponse_emits msgs _
  · simp only [Claude.handleClaudeToolResult, hturn, List.foldl_cons, List.foldl_nil,
      Claude.handleToolResultItem, htype, huse, bne_self_eq_false, Bool.false_eq_true, if_false]
    exact pushFunctionResponse_emits msgs _

/-- C2 on the sample model message, for the call id `c1`. -/
theorem tool_result_pairing_witness :
    ∃ name,
      (∀ x ∈ callNames [sampleModelMessage] (some "c1"), name = x) ∧
      (callNames [sampleModelMessage] (some "c1") = [] → name = "") ∧
      (∃ init ps, OpenAI.handleToolCall sampleToolMessage [sampleModelMessage] = init ++
        [{ role := "user",
           parts := ps ++ [Part.functionResponse (some "c1") name sampleToolMessage.content] }]) ∧
      (∃ init ps, Claude.handleClaudeToolResult
          { role := "user", content := .blocks [sampleToolResult] } [sampleModelMessage] = init ++
        [{ role := "user",
           parts := ps ++ [Part.functionResponse (some "c1") name
            (MessageContent.text (Claude.resultContent sampleToolResult.content))] }]) :=
  tool_result_pairing [sampleModelMessage] (some "c1") (by decide) sampleToolMessage rfl
    { role := "user", content := .blocks [sampleToolResult] } sampleToolResult rfl rfl rfl

/-! ## End-to-end example -/

/-- C3 (end-to-end example, Claude format, thinking disabled). With a sanitizer mapping
`My Tool!` to `My_Tool_`, `claudeMessageToAntigravity` turns the three-turn conversation
`endToEndMessages` into exactly three unified messages: the user text, a model message with the
single function call `x1` named `My_Tool_` with `args.query` the serialised input, and a user
message with the single function response `x1` named `My_Tool_` with output `42`. -/
theorem claude_end_to_end (env : Env) (actualModelName : String) (sessionId : Option String)
    (hsan : env.sanitizeToolName (some "My Tool!") = "My_Tool_") :
    (Claude.claudeMessageToAntigravity env endToEndMessages false actualModelName
        sessionId).messages
      = [ { role := "user", parts := [Part.text "hi" false] },
          { role := "model",
            parts := [Part.functionCall (some "x1") "My_Tool_" "\x7b\"q\":1\x7d" none] },
          { role := "user",
            parts := [Part.functionResponse (some "x1") "My_Tool_" (MessageContent.text "42")] } ] := by
  have hq : Json.stringify (Json.obj [("q", Json.num 1)]) = "\x7b\"q\":1\x7d" := by decide
  simp [Claude.claudeMessageToAntigravity, endToEndMessages, Claude.step, Claude.hasToolResult,
    Claude.handleClaudeUserMessage, Claude.extractImagesFromClaudeContent,
    Claude.handleClaudeAssistantMessage, Claude.scanContent, Claude.scanItem, sampleToolUse,
    Claude.thoughtParts,
    Claude.handleClaudeToolResult, Claude.handleToolResultItem, Claude.inputOrEmpty, Json.truthy,
    hsan, hq, pushFunctionResponse, resolveFunctionName, scanFunctionName, findCallName,
    Claude.resultContent, Part.isFunctionResponse]

/-- C3 in the sample environment, whose sanitizer maps `My Tool!` to `My_Tool_`. -/
theorem claude_end_to_end_witness :
    (Claude.claudeMessageToAntigravity sampleEnv endToEndMessages false "m" (some "s")).messages
      = [ { role := "user", parts := [Part.text "hi" false] },
          { role := "model",
            parts := [Part.functionCall (some "x1") "My_Tool_" "\x7b\"q\":1\x7d" none] },
          { role := "user",
            parts := [Part.functionResponse (some "x1") "My_Tool_" (MessageContent.text "42")] } ] :=
  claude_end_to_end sampleEnv "m" (some "s") (by decide)

/-! ## Shape of the messages after a step -/

theorem length_appendToLast (msgs : List UnifiedMessage) (ps : List Part) :
    (appendToLast msgs ps).length = msgs.length := by
  rcases List.eq_nil_or_concat msgs with h | ⟨init, last, h⟩
  · subst h; rfl
  · rw [List.concat_eq_append] at h
    subst h
    simp [appendToLast_concat]

theorem mem_appendToLast {m : UnifiedMessage} {msgs : List UnifiedMessage} {ps : List Part}
    (h : m ∈ appendToLast msgs ps) :
    ∃ m0 ∈ msgs, m.role = m0.role ∧ ∃ extra, m.parts = m0.parts ++ extra := by
  rcases List.eq_nil_or_concat msgs with h0 | ⟨init, last, h0⟩
  · subst h0; cases h
  · rw [List.concat_eq_append] at h0
    subst h0
    rw [appendToLast_concat] at h
    rcases List.mem_append.mp h with h1 | h1
    · exact ⟨m, List.mem_append_left _ h1, rfl, [], by simp⟩
    · rw [List.mem_singleton] at h1
      subst h1
      exact ⟨last, by simp, rfl, ps, rfl⟩

theorem mem_pushFunctionResponse {m : UnifiedMessage} {msgs : List UnifiedMessage} {r : Part}
    (h : m ∈ pushFunctionResponse msgs r) :
    m.role = "user" ∨ ∃ m0 ∈ msgs, m.role = m0.role ∧ ∃ extra, m.parts = m0.parts ++ extra := by
  rcases List.eq_nil_or_concat msgs with h0 | ⟨init, last, h0⟩
  · subst h0
    left
    simp only [pushFunctionResponse, List.getLast?_nil, List.nil_append, List.mem_singleton] at h
    rw [h]
  · rw [List.concat_eq_append] at h0
    subst h0
    rw [pushFunctionResponse_concat] at h
    by_cases hc : (last.role = "user" && last.parts.any Part.isFunctionResponse) = true
    · rw [if_pos hc, ← appendToLast_concat] at h
      exact Or.inr (mem_appendToLast h)
    · rw [if_neg hc] at h
      rcases List.mem_append.mp h with h1 | h1
      · exact Or.inr ⟨m, h1, rfl, [], by simp⟩
      · rw [List.mem_singleton] at h1
        left; rw [h1]

theorem OpenAI.handleAssistantMessage_ok {env : Env} {message : OpenAIMessage} {st st' : ConvState}
    {enableThinking : Bool} {actualModelName : String} {sessionId : Option String}
    (h : handleAssistantMessage env message st enableThinking actualModelName sessionId = .ok st') :
    ∃ tools, st'.messages = appendToLast st.messages tools
      ∨ ∃ textParts, st'.messages = st.messages ++
          [{ role := "model",
             parts := thoughtParts env message enableThinking actualModelName sessionId
              ++ textParts ++ tools }] := by
  simp only [handleAssistantMessage] at h
  split at h
  · cases h
  · split at h
    · cases h
    · rename_i tools recorded _
      split at h
      · injection h with h
        subst h
        exact ⟨tools, Or.inl rfl⟩
      · injection h with h
        subst h
        exact ⟨tools, Or.inr ⟨_, rfl⟩⟩

theorem Claude.handleClaudeAssistantMessage_cases (env : Env) (message : ClaudeMessage)
    (st : ConvState) (enableThinking : Bool) (actualModelName : String)
    (sessionId : Option String) :
    ∃ tools, (handleClaudeAssistantMessage env message st enableThinking actualModelName
          sessionId).messages = appendToLast st.messages tools
      ∨ ∃ textParts, (handleClaudeAssistantMessage env message st enableThinking actualModelName
          sessionId).messages = st.messages ++
          [{ role := "model",
             parts := thoughtParts env enableThinking actualModelName sessionId
              ++ textParts ++ tools }] := by
  simp only [handleClaudeAssistantMessage]
  split
  · exact ⟨_, Or.inl rfl⟩
  · exact ⟨_, Or.inr ⟨_, rfl⟩⟩

/-! ## Invariants of the normalizers -/

theorem OpenAI.step_invariant (P : UnifiedMessage → Prop) (env : Env) (enableThinking : Bool)
    (actualModelName : String) (sessionId : Option String) (turn : OpenAIMessage)
    (hstable : ∀ m0 m, P m0 → m.role = m0.role → (∃ extra, m.parts = m0.parts ++ extra) → P m)
    (huser : ∀ m, m.role = "user" → P m)
    (hnew : turn.role = "assistant" → ∀ textParts tools, P
      { role := "model",
        parts := thoughtParts env turn enableThinking actualModelName sessionId
          ++ textParts ++ tools })
    (st st' : ConvState) (hst : ∀ m ∈ st.messages, P m)
    (h : step env enableThinking actualModelName sessionId st turn = .ok st') :
    ∀ m ∈ st'.messages, P m := by
  unfold step at h
  split at h
  · injection h with h
    subst h
    intro m hm
    simp only [handleUserMessage] at hm
    rcases List.mem_append.mp hm with h1 | h1
    · exact hst m h1
    · rw [List.mem_singleton] at h1
      exact huser m (by rw [h1])
  · split at h
    · rename_i hrole
      obtain ⟨tools, hcase | ⟨textParts, hcase⟩⟩ := handleAssistantMessage_ok h
      · intro m hm
        rw [hcase] at hm
        obtain ⟨m0, hm0, hr, hp⟩ := mem_appendToLast hm
        exact hstable m0 m (hst m0 hm0) hr hp
      · intro m hm
        rw [hcase] at hm
        rcases List.mem_append.mp hm with h1 | h1
        · exact hst m h1
        · rw [List.mem_singleton] at h1
          rw [h1]
          exact hnew hrole textParts tools
    · split at h
      · injection h with h
        subst h
        intro m hm
        rcases mem_pushFunctionResponse hm with h1 | ⟨m0, hm0, hr, hp⟩
        · exact huser m h1
        · exact hstable m0 m (hst m0 hm0) hr hp
      · injection h with h
        subst h
        exact hst

theorem OpenAI.loop_invariant (P : UnifiedMessage → Prop) (env : Env) (enableThinking : Bool)
    (actualModelName : String) (sessionId : Option String)
    (hstable : ∀ m0 m, P m0 → m.role = m0.role → (∃ extra, m.parts = m0.parts ++ extra) → P m)
    (huser : ∀ m, m.role = "user" → P m)
    (turns : List OpenAIMessage)
    (hnew : ∀ turn ∈ turns, turn.role = "assistant" → ∀ textParts tools, P
      { role := "model",
        parts := thoughtParts env turn enableThinking actualModelName sessionId
          ++ textParts ++ tools })
    (st st' : ConvState) (hst : ∀ m ∈ st.messages, P m)
    (h : loop env enableThinking actualModelName sessionId turns st = .ok st') :
    ∀ m ∈ st'.messages, P m := by
  induction turns generalizing st with
  | nil =>
    simp only [loop] at h
    injection h with h
    subst h
    exact hst
  | cons turn rest ih =>
    simp only [loop] at h
    split at h
    · cases h
    · rename_i st1 hstep
      exact ih (fun t ht => hnew t (List.mem_cons_of_mem _ ht)) st1
        (step_invariant P env enableThinking actualModelName sessionId turn hstable huser
          (hnew turn (List.mem_cons_self _ _)) st st1 hst hstep) h

theorem Claude.foldl_toolResult_invariant (P : UnifiedMessage → Prop)
    (hstable : ∀ m0 m, P m0 → m.role = m0.role → (∃ extra, m.parts = m0.parts ++ extra) → P m)
    (huser : ∀ m, m.role = "user" → P m)
    (items : List ClaudeContentItem) (msgs : List UnifiedMessage) (hst : ∀ m ∈ msgs, P m) :
    ∀ m ∈ items.foldl handleToolResultItem msgs, P m := by
  induction items generalizing msgs with
  | nil => exact hst
  | cons item rest ih =>
    simp only [List.foldl_cons]
    apply ih
    intro m hm
    unfold handleToolResultItem at hm
    split at hm
    · exact hst m hm
    · rcases mem_pushFunctionResponse hm with h1 | ⟨m0, hm0, hr, hp⟩
      · exact huser m h1
      · exact hstable m0 m (hst m0 hm0) hr hp

theorem Claude.claude_step_invariant (P : UnifiedMessage → Prop) (env : Env) (enableThinking : Bool)
    (actualModelName : String) (sessionId : Option String) (turn : ClaudeMessage)
    (hstable : ∀ m0 m, P m0 → m.role = m0.role → (∃ extra, m.parts = m0.parts ++ extra) → P m)
    (huser : ∀ m, m.role = "user" → P m)
    (hnew : ∀ textParts tools, P
      { role := "model",
        parts := thoughtParts env enableThinking actualModelName sessionId
          ++ textParts ++ tools })
    (st : ConvState) (hst : ∀ m ∈ st.messages, P m) :
    ∀ m ∈ (step env enableThinking actualModelName sessionId st turn).messages, P m := by
  unfold step
  split
  · split
    · simp only [handleClaudeToolResult]
      split
      · exact foldl_toolResult_invariant P hstable huser _ _ hst
      · exact hst
    · intro m hm
      simp only [handleClaudeUserMessage] at hm
      rcases List.mem_append.mp hm with h1 | h1
      · exact hst m h1
      · rw [List.mem_singleton] at h1
        exact huser m (by rw [h1])
  · split
    · obtain ⟨tools, hcase | ⟨textParts, hcase⟩⟩ := handleClaudeAssistantMessage_cases env turn st
        enableThinking actualModelName sessionId
      · intro m hm
        rw [hcase] at hm
        obtain ⟨m0, hm0, hr, hp⟩ := mem_appendToLast hm
        exact hstable m0 m (hst m0 hm0) hr hp
      · intro m hm
        rw [hcase] at hm
        rcases List.mem_append.mp hm with h1 | h1
        · exact hst m h1
        · rw [List.mem_singleton] at h1
          rw [h1]
          exact hnew textParts tools
    · exact hst

theorem Claude.foldl_invariant (P : UnifiedMessage → Prop) (env : Env) (enableThinking : Bool)
    (actualModelName : String) (sessionId : Option String)
    (hstable : ∀ m0 m, P m0 → m.role = m0.role → (∃ extra, m.parts = m0.parts ++ extra) → P m)
    (huser : ∀ m, m.role = "user" → P m)
    (hnew : ∀ textParts tools, P
      { role := "model",
        parts := thoughtParts env enableThinking actualModelName sessionId
          ++ textParts ++ tools })
    (turns : List ClaudeMessage) (st : ConvState) (hst : ∀ m ∈ st.messages, P m) :
    ∀ m ∈ (turns.foldl (step env enableThinking actualModelName sessionId) st).messages,
      P m := by
  induction turns generalizing st with
  | nil => exact hst
  | cons turn rest ih =>
    simp only [List.foldl_cons]
    exact ih _ (claude_step_invariant P env enableThinking actualModelName sessionId turn hstable
      huser hnew st hst)

/-! ## The OpenAI normalizer returns on well-shaped input -/

theorem OpenAI.convertToolCalls_returns (env : Env) (enableThinking : Bool)
    (actualModelName : String) (sessionId : Option String) (toolCalls : List OpenAIToolCall)
    (h : ∀ tc ∈ toolCalls, tc.function ≠ none) :
    ∃ r, convertToolCalls env enableThinking actualModelName sessionId toolCalls = .ok r := by
  induction toolCalls with
  | nil => exact ⟨_, rfl⟩
  | cons tc rest ih =>
    obtain ⟨r, hr⟩ := ih (fun x hx => h x (List.mem_cons_of_mem _ hx))
    cases hf : tc.function with
    | none => exact absurd hf (h tc (List.mem_cons_self _ _))
    | some f =>
      simp only [convertToolCalls, convertToolCall, hf, hr]
      exact ⟨_, rfl⟩

theorem OpenAI.step_returns (env : Env) (enableThinking : Bool) (actualModelName : String)
    (sessionId : Option String) (st : ConvState) (m : OpenAIMessage) (h : WellShaped m) :
    ∃ st', step env enableThinking actualModelName sessionId st m = .ok st' := by
  unfold step
  split
  · exact ⟨_, rfl⟩
  · split
    · rename_i hrole
      obtain ⟨hcontent, htools⟩ := h hrole
      have hhas : ∃ b, hasContent m.content = .ok b := by
        cases hc : m.content with
        | absent => exact ⟨_, rfl⟩
        | text s => exact ⟨_, rfl⟩
        | blocks items => exact absurd hc (hcontent items)
      obtain ⟨b, hb⟩ := hhas
      have hconv : ∃ r, (if (match m.tool_calls with
            | some toolCalls => !toolCalls.isEmpty
            | none => false) = true then
            convertToolCalls env enableThinking actualModelName sessionId (m.tool_calls.getD [])
          else .ok ([], [])) = .ok r := by
        split
        · cases ht : m.tool_calls with
          | none => exact ⟨_, rfl⟩
          | some tcs =>
            exact convertToolCalls_returns env enableThinking actualModelName sessionId tcs
              (htools tcs ht)
        · exact ⟨_, rfl⟩
      obtain ⟨r, hr⟩ := hconv
      simp only [handleAssistantMessage, hb, hr]
      split <;> exact ⟨_, rfl⟩
    · split <;> exact ⟨_, rfl⟩

theorem OpenAI.openaiMessageToAntigravity_returns (env : Env) (enableThinking : Bool)
    (actualModelName : String) (sessionId : Option String) (openaiMessages : List OpenAIMessage)
    (h : ∀ m ∈ openaiMessages, WellShaped m) :
    ∃ st, openaiMessageToAntigravity env openaiMessages enableThinking actualModelName sessionId
      = .ok st := by
  unfold openaiMessageToAntigravity
  generalize ({ messages := [], nameMappings := [] } : ConvState) = st0
  induction openaiMessages generalizing st0 with
  | nil => exact ⟨st0, rfl⟩
  | cons m rest ih =>
    obtain ⟨st1, h1⟩ := step_returns env enableThinking actualModelName sessionId st0 m
      (h m (List.mem_cons_self _ _))
    simp only [loop, h1]
    exact ih (fun x hx => h x (List.mem_cons_of_mem _ hx)) st1

theorem jsOrD_of_falsy (a : Option String) (b : String) (h : truthyStr a = false) :
    jsOrD a b = b := by
  cases a with
  | none => rfl
  | some s =>
    simp only [truthyStr, bne_eq_false_iff_eq] at h
    simp [jsOrD, h]

theorem jsOr_of_falsy (a b : Option String) (h : truthyStr a = false) : jsOr a b = b := by
  simp [jsOr, h]

/-- C4 (thinking injection). With `enableThinking = true`, every model-role message returned by
`openaiMessageToAntigravity` and by `claudeMessageToAntigravity` begins with a part having
`thought = true` immediately followed by a part carrying a `thoughtSignature`. The signature is
the one resolved for an assistant turn of the input (OpenAI: the turn's own signature, else the
cached one, else the default; Claude: the cached one, else the default), so it is the model's
default reasoning signature when nothing is cached and the turn carries none. -/
theorem thinking_injection (env : Env) (actualModelName : String) (sessionId : Option String)
    (openaiMessages : List OpenAIMessage) (st : ConvState)
    (hok : OpenAI.openaiMessageToAntigravity env openaiMessages true actualModelName sessionId
      = .ok st)
    (claudeMessages : List ClaudeMessage) :
    (∀ m ∈ st.messages, m.role = "model" →
      ∃ t sig rest turn, m.parts = Part.text t true :: Part.signature " " sig :: rest
        ∧ turn ∈ openaiMessages ∧ turn.role = "assistant"
        ∧ sig = jsOrD (jsOr turn.thoughtSignature
            (env.getReasoningSignature sessionId actualModelName))
            (env.getThoughtSignatureForModel actualModelName)
        ∧ (truthyStr turn.thoughtSignature = false →
            truthyStr (env.getReasoningSignature sessionId actualModelName) = false →
            sig = env.getThoughtSignatureForModel actualModelName))
      ∧ (∀ m ∈ (Claude.claudeMessageToAntigravity env claudeMessages true actualModelName
            sessionId).messages, m.role = "model" →
          ∃ t sig rest, m.parts = Part.text t true :: Part.signature " " sig :: rest
            ∧ sig = jsOrD (env.getReasoningSignature sessionId actualModelName)
                (env.getThoughtSignatureForModel actualModelName)
            ∧ (truthyStr (env.getReasoningSignature sessionId actualModelName) = false →
                sig = env.getThoughtSignatureForModel actualModelName)) := by
  constructor
  · refine OpenAI.loop_invariant _ env true actualModelName sessionId ?_ ?_ openaiMessages ?_ _ st
      ?_ hok
    · intro m0 m h0 hr hp hm
      obtain ⟨extra, hp⟩ := hp
      obtain ⟨t, sig, rest, turn, h1, h2⟩ := h0 (hr ▸ hm)
      exact ⟨t, sig, rest ++ extra, turn, by rw [hp, h1]; rfl, h2⟩
    · intro m hu hm
      rw [hu] at hm
      exact absurd hm (by decide)
    · intro turn hturn hrole textParts tools _
      refine ⟨_, _, textParts ++ tools, turn, rfl, hturn, hrole, rfl, ?_⟩
      intro h1 h2
      rw [jsOr_of_falsy _ _ h1, jsOrD_of_falsy _ _ h2]
    · intro m hm
      cases hm
  · refine Claude.foldl_invariant _ env true actualModelName sessionId ?_ ?_ ?_ claudeMessages _ ?_
    · intro m0 m h0 hr hp hm
      obtain ⟨extra, hp⟩ := hp
      obtain ⟨t, sig, rest, h1, h2⟩ := h0 (hr ▸ hm)
      exact ⟨t, sig, rest ++ extra, by rw [hp, h1]; rfl, h2⟩
    · intro m hu hm
      rw [hu] at hm
      exact absurd hm (by decide)
    · intro textParts tools _
      refine ⟨_, _, textParts ++ tools, rfl, rfl, ?_⟩
      intro h2
      rw [jsOrD_of_falsy _ _ h2]
    · intro m hm
      cases hm

/-- C4 on the sample OpenAI conversation and the end-to-end Claude conversation. -/
theorem thinking_injection_witness :
    (∀ m ∈ sampleOpenAIResult.messages, m.role = "model" →
      ∃ t sig rest turn, m.parts = Part.text t true :: Part.signature " " sig :: rest
        ∧ turn ∈ sampleOpenAIMessages ∧ turn.role = "assistant"
        ∧ sig = jsOrD (jsOr turn.thoughtSignature
            (sampleEnv.getReasoningSignature (some "s") "m"))
            (sampleEnv.getThoughtSignatureForModel "m")
        ∧ (truthyStr turn.thoughtSignature = false →
            truthyStr (sampleEnv.getReasoningSignature (some "s") "m") = false →
            sig = sampleEnv.getThoughtSignatureForModel "m"))
      ∧ (∀ m ∈ (Claude.claudeMessageToAntigravity sampleEnv endToEndMessages true "m"
            (some "s")).messages, m.role = "model" →
          ∃ t sig rest, m.parts = Part.text t true :: Part.signature " " sig :: rest
            ∧ sig = jsOrD (sampleEnv.getReasoningSignature (some "s") "m")
                (sampleEnv.getThoughtSignatureForModel "m")
            ∧ (truthyStr (sampleEnv.getReasoningSignature (some "s") "m") = false →
                sig = sampleEnv.getThoughtSignatureForModel "m")) :=
  thinking_injection sampleEnv "m" (some "s") sampleOpenAIMessages sampleOpenAIResult
    rfl endToEndMessages

/-! ## New model messages under thinking -/

theorem OpenAI.new_message_parts {env : Env} {message : OpenAIMessage} {st st' : ConvState}
    {enableThinking : Bool} {actualModelName : String} {sessionId : Option String}
    {m : UnifiedMessage}
    (hok : handleAssistantMessage env message st enableThinking actualModelName sessionId
      = .ok st')
    (hnew : st'.messages = st.messages ++ [m]) :
    ∃ textParts tools, m =
      { role := "model",
        parts := thoughtParts env message enableThinking actualModelName sessionId
          ++ textParts ++ tools } := by
  obtain ⟨tools, hcase | ⟨textParts, hcase⟩⟩ := handleAssistantMessage_ok hok
  · have h1 := congrArg List.length hcase
    rw [hnew, length_appendToLast] at h1
    simp at h1
  · rw [hnew] at hcase
    have h2 := List.append_cancel_left hcase
    injection h2 with h2
    exact ⟨textParts, tools, h2⟩

theorem Claude.claude_new_message_parts {env : Env} {message : ClaudeMessage} {st : ConvState}
    {enableThinking : Bool} {actualModelName : String} {sessionId : Option String}
    {m : UnifiedMessage}
    (hnew : (handleClaudeAssistantMessage env message st enableThinking actualModelName
      sessionId).messages = st.messages ++ [m]) :
    ∃ textParts tools, m =
      { role := "model",
        parts := thoughtParts env enableThinking actualModelName sessionId
          ++ textParts ++ tools } := by
  obtain ⟨tools, hcase | ⟨textParts, hcase⟩⟩ := handleClaudeAssistantMessage_cases env message st
    enableThinking actualModelName sessionId
  · have h1 := congrArg List.length hcase
    rw [hnew, length_appendToLast] at h1
    simp at h1
  · rw [hnew] at hcase
    have h2 := List.append_cancel_left hcase
    injection h2 with h2
    exact ⟨textParts, tools, h2⟩

/-- C5, evaluated. With thinking enabled, the function call part the Claude normalizer emits for
a `tool_use` block carries no `thoughtSignature`, while the OpenAI normalizer attaches the
tool-level signature to the part of a tool call (here the default, nothing being sent or
cached). -/
theorem claude_function_call_without_signature :
    (Claude.claudeMessageToAntigravity sampleEnv [sampleClaudeToolTurn] true "m"
        (some "s")).messages
      = [{ role := "model",
           parts := [Part.text " " true, Part.signature " " "default-reasoning-signature",
            Part.functionCall (some "x1") "My_Tool_" "\x7b\"q\":1\x7d" none] }]
      ∧ (OpenAI.openaiMessageToAntigravity sampleEnv [sampleToolTurn] true "m"
          (some "s")).map (fun st => st.messages)
        = .ok
          [{ role := "model",
             parts := [Part.text " " true, Part.signature " " "default-reasoning-signature",
              Part.functionCall (some "c2") "fetch" "u" (some "default-tool-signature")] }] :=
  ⟨by decide, rfl⟩

/-- C6, counterexample. An OpenAI assistant turn carrying `reasoning_content: "because"` starts a
new model message under thinking whose first part is `{text: "because", thought: true}`, not
the single-space thought. -/
theorem thought_text_counterexample :
    ∃ st m, OpenAI.handleAssistantMessage sampleEnv sampleReasoningTurn
          { messages := [], nameMappings := [] } true "m" (some "s") = .ok st
      ∧ st.messages = [] ++ [m]
      ∧ m.parts.head? = some (Part.text "because" true)
      ∧ m.parts.head? ≠ some (Part.text " " true) :=
  ⟨{ messages :=
      [{ role := "model",
         parts := [Part.text "because" true, Part.signature " " "default-reasoning-signature",
          Part.text "hello" false] }],
     nameMappings := [] }, _, rfl, rfl, rfl, by decide⟩

/-- C6, amended. Whenever an assistant turn starts a new model-role message with thinking
enabled, the message begins with a thought part followed by a part with text `" "` carrying the
signature; the text of the thought part is the turn's `reasoning_content` when that is a
non-empty string (OpenAI only) and the single space `" "` otherwise (always in Claude). -/
theorem thought_pair_text (env : Env) (actualModelName : String) (sessionId : Option String)
    (message : OpenAIMessage) (st st' : ConvState) (m : UnifiedMessage)
    (hok : OpenAI.handleAssistantMessage env message st true actualModelName sessionId = .ok st')
    (hnew : st'.messages = st.messages ++ [m])
    (turn : ClaudeMessage) (cst : ConvState) (cm : UnifiedMessage)
    (hcnew : (Claude.handleClaudeAssistantMessage env turn cst true actualModelName
      sessionId).messages = cst.messages ++ [cm]) :
    (∃ t sig rest, m.parts = Part.text t true :: Part.signature " " sig :: rest
        ∧ (∀ r, message.reasoning_content = some r → r ≠ "" → t = r)
        ∧ (message.reasoning_content = none ∨ message.reasoning_content = some "" → t = " "))
      ∧ ∃ sig rest, cm.parts = Part.text " " true :: Part.signature " " sig :: rest := by
  obtain ⟨textParts, tools, hm⟩ := OpenAI.new_message_parts hok hnew
  obtain ⟨ctextParts, ctools, hcm⟩ := Claude.claude_new_message_parts hcnew
  constructor
  · refine ⟨_, _, textParts ++ tools, by rw [hm]; rfl, ?_, ?_⟩
    · intro r hr hne
      simp [hr, hne]
    · rintro (h | h) <;> simp [h]
  · exact ⟨_, ctextParts ++ ctools, by rw [hcm]; rfl⟩

/-- C6 as amended, on the sample turn carrying `reasoning_content` and the sample Claude turn. -/
theorem thought_pair_text_witness :
    (∃ t sig rest,
        ({ role := "model",
           parts := [Part.text "because" true, Part.signature " " "default-reasoning-signature",
            Part.text "hello" false] } : UnifiedMessage).parts
          = Part.text t true :: Part.signature " " sig :: rest
        ∧ (∀ r, sampleReasoningTurn.reasoning_content = some r → r ≠ "" → t = r)
        ∧ (sampleReasoningTurn.reasoning_content = none
            ∨ sampleReasoningTurn.reasoning_content = some "" → t = " "))
      ∧ ∃ sig rest,
        ({ role := "model",
           parts := [Part.text " " true, Part.signature " " "default-reasoning-signature",
            Part.text "hello" false] } : UnifiedMessage).parts
          = Part.text " " true :: Part.signature " " sig :: rest :=
  thought_pair_text sampleEnv "m" (some "s") sampleReasoningTurn
    { messages := [], nameMappings := [] } _ _ rfl rfl
    sampleClaudeTextTurn { messages := [], nameMappings := [] } _ rfl

/-- C7 (reasoning-signature fallback chain). When an assistant turn starts a new model-role
message with thinking enabled, the signature part carries: in the OpenAI normalizer the turn's
own `thoughtSignature` when it is non-empty, otherwise the cached reasoning signature for
`(sessionId, model)` when it is non-empty, otherwise the model's default reasoning signature;
in the Claude normalizer the cached signature when non-empty, otherwise the default. The
signature is a string in every case. -/
theorem reasoning_signature_chain (env : Env) (actualModelName : String)
    (sessionId : Option String)
    (message : OpenAIMessage) (st st' : ConvState) (m : UnifiedMessage)
    (hok : OpenAI.handleAssistantMessage env message st true actualModelName sessionId = .ok st')
    (hnew : st'.messages = st.messages ++ [m])
    (turn : ClaudeMessage) (cst : ConvState) (cm : UnifiedMessage)
    (hcnew : (Claude.handleClaudeAssistantMessage env turn cst true actualModelName
      sessionId).messages = cst.messages ++ [cm]) :
    (∃ t sig rest, m.parts = Part.text t true :: Part.signature " " sig :: rest
        ∧ (∀ s, message.thoughtSignature = some s → s ≠ "" → sig = s)
        ∧ (truthyStr message.thoughtSignature = false →
            ∀ s, env.getReasoningSignature sessionId actualModelName = some s → s ≠ "" → sig = s)
        ∧ (truthyStr message.thoughtSignature = false →
            truthyStr (env.getReasoningSignature sessionId actualModelName) = false →
            sig = env.getThoughtSignatureForModel actualModelName))
      ∧ ∃ t sig rest, cm.parts = Part.text t true :: Part.signature " " sig :: rest
        ∧ (∀ s, env.getReasoningSignature sessionId actualModelName = some s → s ≠ "" → sig = s)
        ∧ (truthyStr (env.getReasoningSignature sessionId actualModelName) = false →
            sig = env.getThoughtSignatureForModel actualModelName) := by
  obtain ⟨textParts, tools, hm⟩ := OpenAI.new_message_parts hok hnew
  obtain ⟨ctextParts, ctools, hcm⟩ := Claude.claude_new_message_parts hcnew
  constructor
  · refine ⟨_, _, textParts ++ tools, by rw [hm]; rfl, ?_, ?_, ?_⟩
    · intro s hs hne
      simp [hs, jsOr, truthyStr, jsOrD, hne]
    · intro h1 s hs hne
      rw [jsOr_of_falsy _ _ h1, hs]
      simp [jsOrD, hne]
    · intro h1 h2
      rw [jsOr_of_falsy _ _ h1, jsOrD_of_falsy _ _ h2]
  · refine ⟨_, _, ctextParts ++ ctools, by rw [hcm]; rfl, ?_, ?_⟩
    · intro s hs hne
      rw [hs]
      simp [jsOrD, hne]
    · intro h2
      rw [jsOrD_of_falsy _ _ h2]

/-- C7 on the sample assistant turns, nothing being cached. -/
theorem reasoning_signature_chain_witness :
    (∃ t sig rest,
        ({ role := "model",
           parts := [Part.text "because" true, Part.signature " " "default-reasoning-signature",
            Part.text "hello" false] } : UnifiedMessage).parts
          = Part.text t true :: Part.signature " " sig :: rest
        ∧ (∀ s, sampleReasoningTurn.thoughtSignature = some s → s ≠ "" → sig = s)
        ∧ (truthyStr sampleReasoningTurn.thoughtSignature = false →
            ∀ s, sampleEnv.getReasoningSignature (some "s") "m" = some s → s ≠ "" → sig = s)
        ∧ (truthyStr sampleReasoningTurn.thoughtSignature = false →
            truthyStr (sampleEnv.getReasoningSignature (some "s") "m") = false →
            sig = sampleEnv.getThoughtSignatureForModel "m"))
      ∧ ∃ t sig rest,
        ({ role := "model",
           parts := [Part.text " " true, Part.signature " " "default-reasoning-signature",
            Part.text "hello" false] } : UnifiedMessage).parts
          = Part.text t true :: Part.signature " " sig :: rest
        ∧ (∀ s, sampleEnv.getReasoningSignature (some "s") "m" = some s → s ≠ "" → sig = s)
        ∧ (truthyStr (sampleEnv.getReasoningSignature (some "s") "m") = false →
            sig = sampleEnv.getThoughtSignatureForModel "m") :=
  reasoning_signature_chain sampleEnv "m" (some "s") sampleReasoningTurn
    { messages := [], nameMappings := [] } _ _ rfl rfl
    sampleClaudeTextTurn { messages := [], nameMappings := [] } _ rfl

/-! ## The merge rule of tool results -/

theorem pushFunctionResponse_rule (init : List UnifiedMessage) (last : UnifiedMessage)
    (r : Part) :
    (last.role = "user" → (∃ p ∈ last.parts, p.isFunctionResponse = true) →
        pushFunctionResponse (init ++ [last]) r
          = init ++ [{ last with parts := last.parts ++ [r] }])
      ∧ (¬ (last.role = "user" ∧ ∃ p ∈ last.parts, p.isFunctionResponse = true) →
        pushFunctionResponse (init ++ [last]) r
          = init ++ [last] ++ [{ role := "user", parts := [r] }]) := by
  rw [pushFunctionResponse_concat]
  constructor
  · intro h1 h2
    have hc : (last.role = "user" && last.parts.any Part.isFunctionResponse) = true := by
      simp only [Bool.and_eq_true, decide_eq_true_eq, List.any_eq_true]
      exact ⟨h1, h2⟩
    rw [if_pos hc]
  · intro h
    have hc : ¬ (last.role = "user" && last.parts.any Part.isFunctionResponse) = true := by
      simp only [Bool.and_eq_true, decide_eq_true_eq, List.any_eq_true]
      exact h
    rw [if_neg hc]

theorem resolveFunctionName_concat_of_not_model (msgs : List UnifiedMessage)
    (u : UnifiedMessage) (hu : u.role ≠ "model") (id : Option String) :
    resolveFunctionName (msgs ++ [u]) id = resolveFunctionName msgs id := by
  simp [resolveFunctionName, scanFunctionName, hu]

theorem pushFunctionResponse_after_model (previous : List UnifiedMessage)
    (last : UnifiedMessage) (hlast : last.role = "model") (r : Part) :
    pushFunctionResponse (previous ++ [last]) r
      = previous ++ [last] ++ [{ role := "user", parts := [r] }] := by
  apply (pushFunctionResponse_rule previous last r).2
  rintro ⟨h, _⟩
  rw [hlast] at h
  exact absurd h (by decide)

theorem pushFunctionResponse_onto_responses (msgs : List UnifiedMessage) (ps : List Part)
    (hps : ∃ p ∈ ps, p.isFunctionResponse = true) (r : Part) :
    pushFunctionResponse (msgs ++ [{ role := "user", parts := ps }]) r
      = msgs ++ [{ role := "user", parts := ps ++ [r] }] :=
  (pushFunctionResponse_rule msgs { role := "user", parts := ps } r).1 rfl hps

theorem OpenAI.loop_responses (env : Env) (enableThinking : Bool) (actualModelName : String)
    (sessionId : Option String) (msgs : List UnifiedMessage)
    (recorded : List (List (Option String))) (results : List OpenAIMessage)
    (hroles : ∀ t ∈ results, t.role = "tool") (ps : List Part)
    (hps : ∃ p ∈ ps, p.isFunctionResponse = true) :
    loop env enableThinking actualModelName sessionId results
        { messages := msgs ++ [{ role := "user", parts := ps }], nameMappings := recorded }
      = .ok { messages := msgs ++ [{ role := "user", parts := ps ++ results.map (responseOf msgs) }],
              nameMappings := recorded } := by
  induction results generalizing ps with
  | nil => simp [loop]
  | cons t rest ih =>
    have ht : t.role = "tool" := hroles t (List.mem_cons_self _ _)
    have hstep : step env enableThinking actualModelName sessionId
        { messages := msgs ++ [{ role := "user", parts := ps }], nameMappings := recorded } t
        = .ok { messages := msgs ++ [{ role := "user", parts := ps ++ [responseOf msgs t] }],
                nameMappings := recorded } := by
      simp only [step, ht, handleToolCall]
      rw [resolveFunctionName_concat_of_not_model msgs { role := "user", parts := ps }
          (by simp),
        pushFunctionResponse_onto_responses msgs ps hps]
      simp [responseOf]
    simp only [loop, hstep]
    rw [ih (fun x hx => hroles x (List.mem_cons_of_mem _ hx)) (ps ++ [responseOf msgs t])
      ⟨responseOf msgs t, by simp, rfl⟩]
    simp

theorem Claude.foldl_responses (msgs : List UnifiedMessage) (items : List ClaudeContentItem)
    (ps : List Part) (hps : ∃ p ∈ ps, p.isFunctionResponse = true) :
    items.foldl handleToolResultItem (msgs ++ [{ role := "user", parts := ps }])
      = msgs ++ [{ role := "user",
                   parts := ps ++ (items.filter fun i => i.type = some "tool_result").map
                    (responseOf msgs) }] := by
  induction items generalizing ps with
  | nil => simp
  | cons item rest ih =>
    simp only [List.foldl_cons]
    by_cases ht : item.type = some "tool_result"
    · have hstep : handleToolResultItem (msgs ++ [{ role := "user", parts := ps }]) item
          = msgs ++ [{ role := "user", parts := ps ++ [responseOf msgs item] }] := by
        simp only [handleToolResultItem, ht, bne_self_eq_false, Bool.false_eq_true, if_false]
        rw [resolveFunctionName_concat_of_not_model msgs { role := "user", parts := ps }
            (by simp),
          pushFunctionResponse_onto_responses msgs ps hps]
        rfl
      rw [hstep, ih (ps ++ [responseOf msgs item]) ⟨responseOf msgs item, by simp, rfl⟩]
      simp [List.filter_cons, ht]
    · have hstep : handleToolResultItem (msgs ++ [{ role := "user", parts := ps }]) item
          = msgs ++ [{ role := "user", parts := ps }] := by
        simp [handleToolResultItem, ht]
      rw [hstep, ih ps hps]
      simp [List.filter_cons, ht]

theorem Claude.foldl_responses_after_model (previous : List UnifiedMessage)
    (last : UnifiedMessage) (hlast : last.role = "model") (items : List ClaudeContentItem)
    (hitems : ∃ i ∈ items, i.type = some "tool_result") :
    items.foldl handleToolResultItem (previous ++ [last])
      = previous ++ [last] ++
        [{ role := "user",
           parts := (items.filter fun i => i.type = some "tool_result").map
            (responseOf (previous ++ [last])) }] := by
  induction items with
  | nil =>
    obtain ⟨i, hi, _⟩ := hitems
    cases hi
  | cons item rest ih =>
    simp only [List.foldl_cons]
    by_cases ht : item.type = some "tool_result"
    · have hstep : handleToolResultItem (previous ++ [last]) item
          = previous ++ [last] ++
            [{ role := "user", parts := [responseOf (previous ++ [last]) item] }] := by
        simp only [handleToolResultItem, ht, bne_self_eq_false, Bool.false_eq_true, if_false]
        rw [pushFunctionResponse_after_model previous last hlast]
        rfl
      rw [hstep, foldl_responses (previous ++ [last]) rest _
        ⟨responseOf (previous ++ [last]) item, by simp, rfl⟩]
      simp [List.filter_cons, ht]
    · have hstep : handleToolResultItem (previous ++ [last]) item = previous ++ [last] := by
        simp [handleToolResultItem, ht]
      have hrest : ∃ i ∈ rest, i.type = some "tool_result" := by
        obtain ⟨i, hi, hti⟩ := hitems
        rcases List.mem_cons.mp hi with h | h
        · subst h; exact absurd hti ht
        · exact ⟨i, h, hti⟩
      rw [hstep, ih hrest]
      simp [List.filter_cons, ht]

/-- C8 (tool-result merge rule). `handleToolCall` (OpenAI) and `handleClaudeToolResult` (Claude)
append the function response to the last unified message exactly when that message has role
`user` and already holds a function response part; otherwise, also on an empty list, they
append a new user message holding only that part. Consequently `k ≥ 1` consecutive tool results
arriving after a model-role message (OpenAI: `k` tool messages; Claude: the `tool_result` blocks
of one content array) add exactly one user message whose parts are the `k` function responses
in input order. -/
theorem tool_result_merge_rule (env : Env) (enableThinking : Bool) (actualModelName : String)
    (sessionId : Option String) (recorded : List (List (Option String)))
    (init : List UnifiedMessage) (last : UnifiedMessage)
    (message : OpenAIMessage) (item : ClaudeContentItem)
    (htype : item.type = some "tool_result")
    (previous : List UnifiedMessage) (lastModel : UnifiedMessage)
    (hmodel : lastModel.role = "model")
    (results : List OpenAIMessage) (hresults : results ≠ [])
    (hroles : ∀ t ∈ results, t.role = "tool")
    (items : List ClaudeContentItem) (hitems : ∃ i ∈ items, i.type = some "tool_result") :
    ((last.role = "user" → (∃ p ∈ last.parts, p.isFunctionResponse = true) →
        OpenAI.handleToolCall message (init ++ [last])
          = init ++ [{ last with
              parts := last.parts ++ [OpenAI.responseOf (init ++ [last]) message] }])
      ∧ (¬ (last.role = "user" ∧ ∃ p ∈ last.parts, p.isFunctionResponse = true) →
        OpenAI.handleToolCall message (init ++ [last])
          = init ++ [last] ++
            [{ role := "user", parts := [OpenAI.responseOf (init ++ [last]) message] }])
      ∧ OpenAI.handleToolCall message []
          = [{ role := "user", parts := [OpenAI.responseOf [] message] }])
    ∧ ((last.role = "user" → (∃ p ∈ last.parts, p.isFunctionResponse = true) →
        Claude.handleClaudeToolResult { role := "user", content := .blocks [item] }
            (init ++ [last])
          = init ++ [{ last with
              parts := last.parts ++ [Claude.responseOf (init ++ [last]) item] }])
      ∧ (¬ (last.role = "user" ∧ ∃ p ∈ last.parts, p.isFunctionResponse = true) →
        Claude.handleClaudeToolResult { role := "user", content := .blocks [item] }
            (init ++ [last])
          = init ++ [last] ++
            [{ role := "user", parts := [Claude.responseOf (init ++ [last]) item] }])
      ∧ Claude.handleClaudeToolResult { role := "user", content := .blocks [item] } []
          = [{ role := "user", parts := [Claude.responseOf [] item] }])
    ∧ OpenAI.loop env enableThinking actualModelName sessionId results
        { messages := previous ++ [lastModel], nameMappings := recorded }
      = .ok { messages := previous ++ [lastModel] ++
                [{ role := "user",
                   parts := results.map (OpenAI.responseOf (previous ++ [lastModel])) }],
              nameMappings := recorded }
    ∧ Claude.handleClaudeToolResult { role := "user", content := .blocks items }
        (previous ++ [lastModel])
      = previous ++ [lastModel] ++
          [{ role := "user",
             parts := (items.filter fun i => i.type = some "tool_result").map
              (Claude.responseOf (previous ++ [lastModel])) }] := by
  have hc : ∀ msgs, Claude.handleClaudeToolResult { role := "user", content := .blocks [item] }
      msgs = pushFunctionResponse msgs (Claude.responseOf msgs item) := by
    intro msgs
    simp [Claude.handleClaudeToolResult, Claude.handleToolResultItem, htype, Claude.responseOf]
  refine ⟨⟨?_, ?_, rfl⟩, ⟨?_, ?_, ?_⟩, ?_, ?_⟩
  · exact (pushFunctionResponse_rule init last _).1
  · exact (pushFunctionResponse_rule init last _).2
  · rw [hc]; exact (pushFunctionResponse_rule init last _).1
  · rw [hc]; exact (pushFunctionResponse_rule init last _).2
  · rw [hc]; rfl
  · cases results with
    | nil => exact absurd rfl hresults
    | cons t rest =>
      have ht : t.role = "tool" := hroles t (List.mem_cons_self _ _)
      have hstep : OpenAI.step env enableThinking actualModelName sessionId
          { messages := previous ++ [lastModel], nameMappings := recorded } t
          = .ok { messages := previous ++ [lastModel] ++
                    [{ role := "user",
                       parts := [OpenAI.responseOf (previous ++ [lastModel]) t] }],
                  nameMappings := recorded } := by
        simp only [OpenAI.step, ht, OpenAI.handleToolCall]
        rw [pushFunctionResponse_after_model previous lastModel hmodel]
        simp [OpenAI.responseOf]
      simp only [OpenAI.loop, hstep]
      rw [OpenAI.loop_responses env enableThinking actualModelName sessionId
        (previous ++ [lastModel]) recorded rest
        (fun x hx => hroles x (List.mem_cons_of_mem _ hx)) _
        ⟨OpenAI.responseOf (previous ++ [lastModel]) t, by simp, rfl⟩]
      simp
  · exact Claude.foldl_responses_after_model previous lastModel hmodel items hitems

/-- C8 for two consecutive tool results after the sample model message. -/
theorem tool_result_merge_rule_witness :
    OpenAI.loop sampleEnv true "m" (some "s") [sampleToolMessage, sampleToolMessage]
        { messages := [] ++ [sampleModelMessage], nameMappings := [] }
      = .ok { messages := [] ++ [sampleModelMessage] ++
                [{ role := "user",
                   parts := [sampleToolMessage, sampleToolMessage].map
                    (OpenAI.responseOf ([] ++ [sampleModelMessage])) }],
              nameMappings := [] }
    ∧ Claude.handleClaudeToolResult
        { role := "user", content := .blocks [sampleToolResult, sampleToolResult] }
        ([] ++ [sampleModelMessage])
      = [] ++ [sampleModelMessage] ++
          [{ role := "user",
             parts := ([sampleToolResult, sampleToolResult].filter
              fun i => i.type = some "tool_result").map
              (Claude.responseOf ([] ++ [sampleModelMessage])) }] :=
  (tool_result_merge_rule sampleEnv true "m" (some "s") [] [] sampleResponseMessage
    sampleToolMessage sampleToolResult rfl [] sampleModelMessage rfl
    [sampleToolMessage, sampleToolMessage] (by simp) (by decide)
    [sampleToolResult, sampleToolResult] ⟨sampleToolResult, by simp, rfl⟩).2.2

/-! ## The shared tool converter -/

/-- C9, evaluated. For the tool named `My Tool!`, session `s` and model `m`, the shared
converter calls `setToolNameMapping` with the three arguments `(m, My_Tool_, My Tool!)`: the
session id is not passed, so the call is not `(s, m, My_Tool_, My Tool!)`. -/
theorem shared_converter_drops_session :
    (ToolConverter.convertOpenAIToolsToAntigravity sampleEnv (some [sampleOpenAITool])
        (some "s") "m").2 = [[some "m", some "My_Tool_", some "My Tool!"]]
      ∧ (ToolConverter.convertOpenAIToolsToAntigravity sampleEnv (some [sampleOpenAITool])
        (some "s") "m").2 ≠ [[some "s", some "m", some "My_Tool_", some "My Tool!"]] := by
  constructor <;> decide

/-! ## The Gemini pass-through -/

/-- C10, counterexample. On a payload with one function call and two function responses without
ids, the first pass leaves the second response without an id and a second pass gives it the id
of the call: the contents change. -/
theorem gemini_not_idempotent :
    Gemini.responseIds (Gemini.augmentContents sampleEnv (fun k => Nat.repr k) true "m" none
        Gemini.unbalancedContents) = [some "call_0", none]
      ∧ Gemini.responseIds (Gemini.augmentContents sampleEnv (fun k => Nat.repr k) true "m" none
          (Gemini.augmentContents sampleEnv (fun k => Nat.repr k) true "m" none
            Gemini.unbalancedContents)) = [some "call_0", some "call_0"]
      ∧ Gemini.augmentContents sampleEnv (fun k => Nat.repr k) true "m" none
          (Gemini.augmentContents sampleEnv (fun k => Nat.repr k) true "m" none
            Gemini.unbalancedContents)
        ≠ Gemini.augmentContents sampleEnv (fun k => Nat.repr k) true "m" none
            Gemini.unbalancedContents := by
  have h1 : Gemini.responseIds (Gemini.augmentContents sampleEnv (fun k => Nat.repr k) true "m"
      none Gemini.unbalancedContents) = [some "call_0", none] := by decide
  have h2 : Gemini.responseIds (Gemini.augmentContents sampleEnv (fun k => Nat.repr k) true "m"
      none (Gemini.augmentContents sampleEnv (fun k => Nat.repr k) true "m" none
        Gemini.unbalancedContents)) = [some "call_0", some "call_0"] := by decide
  refine ⟨h1, h2, fun h => ?_⟩
  rw [h, h1] at h2
  exact absurd h2 (by decide)

namespace Gemini

theorem forEachState_fix {σ α : Type} (f : σ → α → α × σ) (l : List α) (s : σ)
    (h : ∀ a ∈ l, ∀ s, f s a = (a, s)) : forEachState f s l = (l, s) := by
  induction l generalizing s with
  | nil => rfl
  | cons a rest ih =>
    simp only [forEachState, h a (List.mem_cons_self _ _) s,
      ih s (fun b hb => h b (List.mem_cons_of_mem _ hb))]

theorem forEachState_forall {σ α : Type} (f : σ → α → α × σ) (Q : α → Prop)
    (h : ∀ s a, Q (f s a).1) (l : List α) (s : σ) : ∀ b ∈ (forEachState f s l).1, Q b := by
  induction l generalizing s with
  | nil => intro b hb; cases hb
  | cons a rest ih =>
    intro b hb
    simp only [forEachState, List.mem_cons] at hb
    rcases hb with hb | hb
    · rw [hb]; exact h s a
    · exact ih _ b hb

theorem forEachState_preserves {σ α : Type} (f : σ → α → α × σ) (P : α → Prop)
    (h : ∀ s a, P a → P (f s a).1) (l : List α) (s : σ) (hl : ∀ a ∈ l, P a) :
    ∀ b ∈ (forEachState f s l).1, P b := by
  induction l generalizing s with
  | nil => intro b hb; cases hb
  | cons a rest ih =>
    intro b hb
    simp only [forEachState, List.mem_cons] at hb
    rcases hb with hb | hb
    · rw [hb]; exact h s a (hl a (List.mem_cons_self _ _))
    · exact ih _ (fun x hx => hl x (List.mem_cons_of_mem _ hx)) b hb

theorem forEachState_flatMap {σ α β : Type} (f : σ → α → α × σ) (g : α → List β)
    (h : ∀ s a, g (f s a).1 = g a) (l : List α) (s : σ) :
    (forEachState f s l).1.flatMap g = l.flatMap g := by
  induction l generalizing s with
  | nil => rfl
  | cons a rest ih =>
    simp only [forEachState, List.flatMap_cons, h, ih]

theorem forEachState_sum {σ α : Type} (f : σ → α → α × σ) (n : α → Nat)
    (h : ∀ s a, n (f s a).1 = n a) (l : List α) (s : σ) :
    ((forEachState f s l).1.map n).sum = (l.map n).sum := by
  induction l generalizing s with
  | nil => rfl
  | cons a rest ih =>
    simp only [forEachState, List.map_cons, List.sum_cons, h, ih]

theorem truthy_call_id (s : String) : truthyStr (some ("call_" ++ s)) = true := by
  have h : ("call_" ++ s) ≠ "" := by
    intro h
    have := congrArg String.length h
    simp only [String.length_append] at this
    have h5 : "call_".length = 5 := by decide
    have h0 : "".length = 0 := by decide
    omega
  simp [truthyStr, h]

/-! ### First pass -/

theorem assignCallId_spec (fresh : Nat → String) (acc : IdState) (p : GeminiPart) :
    PartHasId (assignCallId fresh acc p).1
      ∧ (assignCallId fresh acc p).2.functionCallIds
          = acc.functionCallIds ++ partCallIds (assignCallId fresh acc p).1
      ∧ (assignCallId fresh acc p).2.functionCallIds.length
          = acc.functionCallIds.length + (if p.functionCall.isSome then 1 else 0) := by
  unfold assignCallId
  cases hfc : p.functionCall with
  | none => simp [PartHasId, partCallIds, hfc]
  | some fc =>
    by_cases hid : truthyStr fc.id = true
    · simp only [hid, Bool.not_true, Bool.false_eq_true, if_false]
      refine ⟨?_, ?_, ?_⟩
      · intro fc2 h2
        rw [hfc] at h2
        injection h2 with h2
        rw [← h2]; exact hid
      · simp [partCallIds, hfc]
      · simp
    · simp only [hid, Bool.not_false, if_true]
      refine ⟨?_, ?_, ?_⟩
      · intro fc2 h2
        simp only [Option.some.injEq] at h2
        rw [← h2]
        exact truthy_call_id _
      · simp [partCallIds]
      · simp

theorem assignCallId_fix (fresh : Nat → String) (acc : IdState) (p : GeminiPart)
    (h : PartHasId p) :
    assignCallId fresh acc p
      = (p, { acc with functionCallIds := acc.functionCallIds ++ partCallIds p }) := by
  unfold assignCallId
  cases hfc : p.functionCall with
  | none => simp [partCallIds, hfc]
  | some fc =>
    have hid := h fc hfc
    simp [hid, partCallIds, hfc]

theorem parts_assignCallId_spec (fresh : Nat → String) (ps : List GeminiPart) (acc : IdState) :
    (∀ p ∈ (forEachState (assignCallId fresh) acc ps).1, PartHasId p)
      ∧ (forEachState (assignCallId fresh) acc ps).2.functionCallIds
          = acc.functionCallIds ++ (forEachState (assignCallId fresh) acc ps).1.flatMap partCallIds
      ∧ (forEachState (assignCallId fresh) acc ps).2.functionCallIds.length
          = acc.functionCallIds.length + (ps.filter fun p => p.functionCall.isSome).length := by
  induction ps generalizing acc with
  | nil => simp [forEachState]
  | cons p rest ih =>
    obtain ⟨h1, h2, h3⟩ := assignCallId_spec fresh acc p
    obtain ⟨i1, i2, i3⟩ := ih (assignCallId fresh acc p).2
    refine ⟨?_, ?_, ?_⟩
    · intro q hq
      simp only [forEachState, List.mem_cons] at hq
      rcases hq with hq | hq
      · rw [hq]; exact h1
      · exact i1 q hq
    · simp only [forEachState, List.flatMap_cons]
      rw [i2, h2, List.append_assoc]
    · simp only [forEachState]
      rw [i3, h3]
      by_cases hc : p.functionCall.isSome = true
      · simp [List.filter_cons, hc]; omega
      · simp [List.filter_cons, hc]

theorem parts_assignCallId_fix (fresh : Nat → String) (ps : List GeminiPart) (acc : IdState)
    (h : ∀ p ∈ ps, PartHasId p) :
    forEachState (assignCallId fresh) acc ps
      = (ps, { acc with functionCallIds := acc.functionCallIds ++ ps.flatMap partCallIds }) := by
  induction ps generalizing acc with
  | nil => simp [forEachState]
  | cons p rest ih =>
    simp only [forEachState, assignCallId_fix fresh acc p (h p (List.mem_cons_self _ _)),
      ih _ (fun q hq => h q (List.mem_cons_of_mem _ hq)), List.flatMap_cons, List.append_assoc]

theorem assignCallIds_spec (fresh : Nat → String) (acc : IdState) (c : GeminiContent) :
    ContentHasIds (assignCallIds fresh acc c).1
      ∧ (assignCallIds fresh acc c).2.functionCallIds
          = acc.functionCallIds ++ contentCallIds (assignCallIds fresh acc c).1
      ∧ (assignCallIds fresh acc c).2.functionCallIds.length
          = acc.functionCallIds.length + contentCallCount c
      ∧ contentIdlessCount (assignCallIds fresh acc c).1 = contentIdlessCount c := by
  unfold assignCallIds
  by_cases hrole : c.role = some "model"
  · cases hparts : c.parts with
    | none =>
      simp [hrole, hparts, ContentHasIds, contentCallIds, contentCallCount]
    | some ps =>
      obtain ⟨h1, h2, h3⟩ := parts_assignCallId_spec fresh ps acc
      simp only [hrole, if_true]
      refine ⟨?_, ?_, ?_, ?_⟩
      · intro _ p hp
        exact h1 p (by simpa using hp)
      · simp only [contentCallIds, hrole, if_true, Option.getD_some]
        exact h2
      · simp only [contentCallCount, hrole, if_true, hparts, Option.getD_some]
        exact h3
      · simp [contentIdlessCount, hrole]
  · simp [hrole, ContentHasIds, contentCallIds, contentCallCount]

theorem assignCallIds_fix (fresh : Nat → String) (acc : IdState) (c : GeminiContent)
    (h : ContentHasIds c) :
    assignCallIds fresh acc c
      = (c, { acc with functionCallIds := acc.functionCallIds ++ contentCallIds c }) := by
  unfold assignCallIds
  by_cases hrole : c.role = some "model"
  · cases hparts : c.parts with
    | none => simp [hrole, hparts, contentCallIds]
    | some ps =>
      have hps : ∀ p ∈ ps, PartHasId p := fun p hp => h hrole p (by simpa [hparts] using hp)
      simp only [hrole, if_true, parts_assignCallId_fix fresh ps acc hps, contentCallIds, hparts,
        Option.getD_some]
      cases c
      simp_all
  · simp [hrole, contentCallIds]

theorem contents_assignCallIds_spec (fresh : Nat → String) (cs : List GeminiContent)
    (acc : IdState) :
    (∀ c ∈ (forEachState (assignCallIds fresh) acc cs).1, ContentHasIds c)
      ∧ (forEachState (assignCallIds fresh) acc cs).2.functionCallIds
          = acc.functionCallIds
            ++ (forEachState (assignCallIds fresh) acc cs).1.flatMap contentCallIds
      ∧ (forEachState (assignCallIds fresh) acc cs).2.functionCallIds.length
          = acc.functionCallIds.length + callCount cs
      ∧ idlessResponseCount (forEachState (assignCallIds fresh) acc cs).1
          = idlessResponseCount cs := by
  induction cs generalizing acc with
  | nil => simp [forEachState, callCount, idlessResponseCount]
  | cons c rest ih =>
    obtain ⟨h1, h2, h3, h4⟩ := assignCallIds_spec fresh acc c
    obtain ⟨i1, i2, i3, i4⟩ := ih (assignCallIds fresh acc c).2
    refine ⟨?_, ?_, ?_, ?_⟩
    · intro q hq
      simp only [forEachState, List.mem_cons] at hq
      rcases hq with hq | hq
      · rw [hq]; exact h1
      · exact i1 q hq
    · simp only [forEachState, List.flatMap_cons]
      rw [i2, h2, List.append_assoc]
    · simp only [forEachState]
      rw [i3, h3]
      simp [callCount]; omega
    · simp only [idlessResponseCount] at i4 ⊢
      simp only [forEachState, List.map_cons, List.sum_cons, i4, h4]

theorem contents_assignCallIds_fix (fresh : Nat → String) (cs : List GeminiContent)
    (acc : IdState) (h : ∀ c ∈ cs, ContentHasIds c) :
    forEachState (assignCallIds fresh) acc cs
      = (cs, { acc with functionCallIds := acc.functionCallIds ++ cs.flatMap contentCallIds }) := by
  induction cs generalizing acc with
  | nil => simp [forEachState]
  | cons c rest ih =>
    simp only [forEachState, assignCallIds_fix fresh acc c (h c (List.mem_cons_self _ _)),
      ih _ (fun q hq => h q (List.mem_cons_of_mem _ hq)), List.flatMap_cons, List.append_assoc]

end Gemini

namespace Gemini

/-! ### Second pass -/

theorem assignResponseId_spec (ids : List String) (hids : ∀ x ∈ ids, x ≠ "") (k : Nat)
    (p : GeminiPart) (hk : k + (if isIdlessResponse p then 1 else 0) ≤ ids.length) :
    isIdlessResponse (assignResponseId ids k p).1 = false
      ∧ (assignResponseId ids k p).2 = k + (if isIdlessResponse p then 1 else 0) := by
  unfold assignResponseId
  cases hfr : p.functionResponse with
  | none => simp [isIdlessResponse, hfr]
  | some fr =>
    by_cases hid : truthyStr fr.id = true
    · simp [isIdlessResponse, hfr, hid]
    · have hidle : isIdlessResponse p = true := by simp [isIdlessResponse, hfr, hid]
      rw [hidle] at hk
      have hlt : k < ids.length := by simp at hk; omega
      have hget : ids[k]? = some ids[k] := List.getElem?_eq_getElem hlt
      have hne : ids[k] ≠ "" := hids _ (List.getElem_mem hlt)
      have hid2 : truthyStr fr.id = false := by simpa using hid
      have htr : truthyStr (some ids[k]) = true := by simp [truthyStr, hne]
      simp [hid2, hlt, isIdlessResponse, hfr, hget, htr]

theorem assignResponseId_fix (ids : List String) (k : Nat) (p : GeminiPart)
    (h : isIdlessResponse p = false ∨ ids = []) : assignResponseId ids k p = (p, k) := by
  unfold assignResponseId
  cases hfr : p.functionResponse with
  | none => rfl
  | some fr =>
    rcases h with h | h
    · have hid : truthyStr fr.id = true := by simpa [isIdlessResponse, hfr] using h
      simp [hid]
    · simp [h]

theorem parts_assignResponseId_spec (ids : List String) (hids : ∀ x ∈ ids, x ≠ "")
    (ps : List GeminiPart) (k : Nat) (hk : k + (ps.filter isIdlessResponse).length ≤ ids.length) :
    (∀ q ∈ (forEachState (assignResponseId ids) k ps).1, isIdlessResponse q = false)
      ∧ (forEachState (assignResponseId ids) k ps).2
          = k + (ps.filter isIdlessResponse).length := by
  induction ps generalizing k with
  | nil => simp [forEachState]
  | cons p rest ih =>
    have hcount : (List.filter isIdlessResponse (p :: rest)).length
        = (if isIdlessResponse p then 1 else 0) + (rest.filter isIdlessResponse).length := by
      by_cases hc : isIdlessResponse p = true
      · simp [List.filter_cons, hc]; omega
      · simp [List.filter_cons, hc]
    rw [hcount] at hk ⊢
    obtain ⟨h1, h2⟩ := assignResponseId_spec ids hids k p (by omega)
    obtain ⟨i1, i2⟩ := ih (assignResponseId ids k p).2 (by rw [h2]; omega)
    refine ⟨?_, ?_⟩
    · intro q hq
      simp only [forEachState, List.mem_cons] at hq
      rcases hq with hq | hq
      · rw [hq]; exact h1
      · exact i1 q hq
    · simp only [forEachState]
      rw [i2, h2]; omega

theorem assignResponseIds_spec (ids : List String) (hids : ∀ x ∈ ids, x ≠ "") (k : Nat)
    (c : GeminiContent) (hk : k + contentIdlessCount c ≤ ids.length) :
    ContentNoIdless (assignResponseIds ids k c).1
      ∧ (assignResponseIds ids k c).2 = k + contentIdlessCount c := by
  unfold assignResponseIds
  by_cases hrole : c.role = some "user"
  · cases hparts : c.parts with
    | none => simp [hrole, hparts, ContentNoIdless, contentIdlessCount]
    | some ps =>
      simp only [contentIdlessCount, hrole, if_true, hparts, Option.getD_some] at hk ⊢
      obtain ⟨h1, h2⟩ := parts_assignResponseId_spec ids hids ps k hk
      refine ⟨?_, h2⟩
      intro _ p hp
      exact h1 p (by simpa using hp)
  · simp [hrole, ContentNoIdless, contentIdlessCount]

theorem assignResponseIds_model (ids : List String) (k : Nat) (c : GeminiContent) :
    contentCallIds (assignResponseIds ids k c).1 = contentCallIds c
      ∧ (ContentHasIds c → ContentHasIds (assignResponseIds ids k c).1) := by
  unfold assignResponseIds
  by_cases hrole : c.role = some "user"
  · have hne : c.role ≠ some "model" := by rw [hrole]; decide
    cases hparts : c.parts with
    | none => simp [hrole, hparts]
    | some ps => simp [hrole, contentCallIds, ContentHasIds, hne]
  · simp [hrole]

theorem assignResponseIds_fix (ids : List String) (k : Nat) (c : GeminiContent)
    (h : ContentNoIdless c ∨ ids = []) : assignResponseIds ids k c = (c, k) := by
  unfold assignResponseIds
  by_cases hrole : c.role = some "user"
  · cases hparts : c.parts with
    | none => simp [hrole, hparts]
    | some ps =>
      have hfix : forEachState (assignResponseId ids) k ps = (ps, k) := by
        apply forEachState_fix
        intro p hp s
        apply assignResponseId_fix
        rcases h with h | h
        · exact Or.inl (h hrole p (by simpa [hparts] using hp))
        · exact Or.inr h
      simp only [hrole, if_true, hfix]
      cases c
      simp_all
  · simp [hrole]

theorem contents_assignResponseIds_spec (ids : List String) (hids : ∀ x ∈ ids, x ≠ "")
    (cs : List GeminiContent) (k : Nat) (hk : k + idlessResponseCount cs ≤ ids.length) :
    ∀ c ∈ (forEachState (assignResponseIds ids) k cs).1, ContentNoIdless c := by
  induction cs generalizing k with
  | nil => intro c hc; cases hc
  | cons c rest ih =>
    simp only [idlessResponseCount, List.map_cons, List.sum_cons] at hk
    obtain ⟨h1, h2⟩ := assignResponseIds_spec ids hids k c (by omega)
    intro q hq
    simp only [forEachState, List.mem_cons] at hq
    rcases hq with hq | hq
    · rw [hq]; exact h1
    · exact ih (assignResponseIds ids k c).2 (by rw [h2, idlessResponseCount]; omega) q hq

/-! ### Third pass -/

theorem injectThought_model (sig : String) (c : GeminiContent) :
    contentCallIds (injectThought sig c) = contentCallIds c
      ∧ (ContentHasIds c → ContentHasIds (injectThought sig c))
      ∧ (ContentNoIdless c → ContentNoIdless (injectThought sig c)) := by
  unfold injectThought
  by_cases hrole : c.role = some "model"
  · have hne : c.role ≠ some "user" := by rw [hrole]; decide
    cases hparts : c.parts with
    | none => simp [hrole, hparts]
    | some ps =>
      by_cases ht : (ps.any fun p => p.thought = some true) = true
      · simp [hrole, ht]
      · simp only [hrole, if_true, ht, Bool.not_false]
        refine ⟨?_, ?_, ?_⟩
        · simp [contentCallIds, hrole, hparts, partCallIds, thoughtPart, signaturePart]
        · intro h _ p hp
          simp only [Option.getD_some, List.mem_cons] at hp
          rcases hp with hp | hp | hp
          · rw [hp]; intro fc hfc; simp [thoughtPart] at hfc
          · rw [hp]; intro fc hfc; simp [signaturePart] at hfc
          · exact h hrole p (by simpa [hparts] using hp)
        · intro _ hu
          simp at hu
  · simp [hrole]

theorem injectThought_idem (sig sig2 : String) (c : GeminiContent) :
    injectThought sig2 (injectThought sig c) = injectThought sig c := by
  unfold injectThought
  by_cases hrole : c.role = some "model"
  · cases hparts : c.parts with
    | none => simp [hrole, hparts]
    | some ps =>
      by_cases ht : (ps.any fun p => p.thought = some true) = true
      · simp [hrole, ht, hparts]
      · simp [hrole, ht, thoughtPart]
  · simp [hrole]

end Gemini

namespace Gemini

/-! ### Two passes -/

theorem contentCallIds_ne_empty (c : GeminiContent) (h : ContentHasIds c) :
    ∀ x ∈ contentCallIds c, x ≠ "" := by
  intro x hx
  unfold contentCallIds at hx
  by_cases hrole : c.role = some "model"
  · simp only [hrole, if_true, List.mem_flatMap] at hx
    obtain ⟨p, hp, hxp⟩ := hx
    have hid := h hrole p hp
    unfold partCallIds at hxp
    cases hfc : p.functionCall with
    | none => simp [hfc] at hxp
    | some fc =>
      simp only [hfc, List.mem_singleton] at hxp
      have ht := hid fc hfc
      cases hfid : fc.id with
      | none => simp [hfid, truthyStr] at ht
      | some s =>
        simp only [hfid, truthyStr, bne_iff_ne, ne_eq] at ht
        simpa [hxp, hfid] using ht
  · simp [hrole] at hx

theorem augmentContents_fixed (env : Env) (fresh : Nat → String) (enableThinking : Bool)
    (actualModelName : String) (sessionId : Option String) (contents : List GeminiContent)
    (h1 : ∀ c ∈ contents, ContentHasIds c)
    (h2 : (∀ c ∈ contents, ContentNoIdless c) ∨ contents.flatMap contentCallIds = [])
    (h3 : enableThinking = true → ∀ c ∈ contents, ∀ sig, injectThought sig c = c) :
    augmentContents env fresh enableThinking actualModelName sessionId contents = contents := by
  have hfirst := contents_assignCallIds_fix fresh contents
    { generated := 0, functionCallIds := [] } h1
  have hsecond : forEachState (assignResponseIds (contents.flatMap contentCallIds)) 0 contents
      = (contents, 0) := by
    apply forEachState_fix
    intro c hc k
    apply assignResponseIds_fix
    rcases h2 with h2 | h2
    · exact Or.inl (h2 c hc)
    · exact Or.inr h2
  unfold augmentContents
  simp only [hfirst, List.nil_append, hsecond]
  cases enableThinking with
  | false => simp
  | true =>
    simp only [if_true]
    conv => rhs; rw [← List.map_id contents]
    apply List.map_congr_left
    intro c hc
    exact h3 rfl c hc _

end Gemini

/-- C10, amended. The Gemini pass-through is idempotent on contents for every payload whose
model turns hold at least as many function call parts as its user turns hold function response
parts without an id (or hold no function call at all), for either thinking setting and whatever
environment and fresh-id supply the second pass uses: the second pass gives no function call a
new id, assigns or changes no function response id and injects no thought pair. -/
theorem gemini_idempotent_balanced (env env2 : Env) (fresh fresh2 : Nat → String)
    (enableThinking : Bool) (actualModelName actualModelName2 : String)
    (sessionId sessionId2 : Option String) (contents : List Gemini.GeminiContent)
    (h : Gemini.idlessResponseCount contents ≤ Gemini.callCount contents
      ∨ Gemini.callCount contents = 0) :
    Gemini.augmentContents env2 fresh2 enableThinking actualModelName2 sessionId2
        (Gemini.augmentContents env fresh enableThinking actualModelName sessionId contents)
      = Gemini.augmentContents env fresh enableThinking actualModelName sessionId contents := by
  obtain ⟨a1, a2, a3, a4⟩ := Gemini.contents_assignCallIds_spec fresh contents
    { generated := 0, functionCallIds := [] }
  simp only [List.nil_append, List.length_nil, Nat.zero_add] at a2 a3
  have hids : ∀ x ∈ (Gemini.forEachState (Gemini.assignCallIds fresh)
      { generated := 0, functionCallIds := [] } contents).2.functionCallIds, x ≠ "" := by
    intro x hx
    rw [a2, List.mem_flatMap] at hx
    obtain ⟨c, hc, hxc⟩ := hx
    exact Gemini.contentCallIds_ne_empty c (a1 c hc) x hxc
  have b1 := Gemini.forEachState_flatMap
    (Gemini.assignResponseIds (Gemini.forEachState (Gemini.assignCallIds fresh)
      { generated := 0, functionCallIds := [] } contents).2.functionCallIds)
    Gemini.contentCallIds (fun s a => (Gemini.assignResponseIds_model _ s a).1)
    (Gemini.forEachState (Gemini.assignCallIds fresh)
      { generated := 0, functionCallIds := [] } contents).1 0
  have b2 := Gemini.forEachState_preserves
    (Gemini.assignResponseIds (Gemini.forEachState (Gemini.assignCallIds fresh)
      { generated := 0, functionCallIds := [] } contents).2.functionCallIds)
    Gemini.ContentHasIds (fun s a => (Gemini.assignResponseIds_model _ s a).2)
    (Gemini.forEachState (Gemini.assignCallIds fresh)
      { generated := 0, functionCallIds := [] } contents).1 0 a1
  have b3 : (∀ c ∈ (Gemini.forEachState
      (Gemini.assignResponseIds (Gemini.forEachState (Gemini.assignCallIds fresh)
        { generated := 0, functionCallIds := [] } contents).2.functionCallIds) 0
      (Gemini.forEachState (Gemini.assignCallIds fresh)
        { generated := 0, functionCallIds := [] } contents).1).1, Gemini.ContentNoIdless c)
      ∨ (Gemini.forEachState (Gemini.assignCallIds fresh)
        { generated := 0, functionCallIds := [] } contents).2.functionCallIds = [] := by
    rcases h with h | h
    · left
      exact Gemini.contents_assignResponseIds_spec _ hids _ 0 (by rw [a4, a3]; omega)
    · right
      apply List.eq_nil_of_length_eq_zero
      rw [a3, h]
  rw [← b1] at a2
  apply Gemini.augmentContents_fixed
  · intro c hc
    unfold Gemini.augmentContents at hc
    cases enableThinking with
    | false => exact b2 c (by simpa using hc)
    | true =>
      simp only [if_true, List.mem_map] at hc
      obtain ⟨c0, hc0, hcc⟩ := hc
      rw [← hcc]
      exact (Gemini.injectThought_model _ c0).2.1 (b2 c0 hc0)
  · unfold Gemini.augmentContents
    cases enableThinking with
    | false =>
      simp only [Bool.false_eq_true, if_false]
      rcases b3 with b3 | b3
      · exact Or.inl b3
      · right; rw [← a2]; exact b3
    | true =>
      simp only [if_true]
      rcases b3 with b3 | b3
      · left
        intro c hc
        rw [List.mem_map] at hc
        obtain ⟨c0, hc0, hcc⟩ := hc
        rw [← hcc]
        exact (Gemini.injectThought_model _ c0).2.2 (b3 c0 hc0)
      · right
        rw [List.flatMap_map]
        have : (fun c => Gemini.contentCallIds (Gemini.injectThought
            (jsOrD (env.getReasoningSignature sessionId actualModelName)
              (env.getThoughtSignatureForModel actualModelName)) c)) = Gemini.contentCallIds := by
          funext c
          exact (Gemini.injectThought_model _ c).1
        simp only [Function.comp_def, this]
        rw [← a2]; exact b3
  · intro ht c hc sig
    subst ht
    unfold Gemini.augmentContents at hc
    simp only [if_true, List.mem_map] at hc
    obtain ⟨c0, _, hcc⟩ := hc
    rw [← hcc]
    exact Gemini.injectThought_idem _ sig c0

/-- C10 as amended, on the payload with one call and one response. -/
theorem gemini_idempotent_balanced_witness :
    Gemini.augmentContents sampleEnv (fun k => Nat.repr (k + 7)) true "m" none
        (Gemini.augmentContents sampleEnv (fun k => Nat.repr k) true "m" none
          Gemini.balancedContents)
      = Gemini.augmentContents sampleEnv (fun k => Nat.repr k) true "m" none
          Gemini.balancedContents :=
  gemini_idempotent_balanced sampleEnv sampleEnv (fun k => Nat.repr k)
    (fun k => Nat.repr (k + 7)) true "m" "m" none none Gemini.balancedContents
    (Or.inl (by decide))

/-! ## Positional pairing in the Gemini pass-through -/

/-- C11, counterexample. With two function calls and two function responses of which only the
second arrives without an id, that second response gets the id of the first call (`call_0`),
not the id of the second call (`call_1`). -/
theorem gemini_pairing_counterexample :
    (Gemini.modelCalls (Gemini.augmentContents sampleEnv (fun k => Nat.repr k) false "m" none
        Gemini.mixedContents)).map (fun c => c.id) = [some "call_0", some "call_1"]
      ∧ (Gemini.userResponses Gemini.mixedContents).map (fun r => r.id) = [some "r0", none]
      ∧ (Gemini.userResponses (Gemini.augmentContents sampleEnv (fun k => Nat.repr k) false "m"
          none Gemini.mixedContents)).map (fun r => r.id) = [some "r0", some "call_0"] := by
  refine ⟨by decide, by decide, by decide⟩

namespace Gemini

theorem forEachState_length {σ α : Type} (f : σ → α → α × σ) (l : List α) (s : σ) :
    (forEachState f s l).1.length = l.length := by
  induction l generalizing s with
  | nil => rfl
  | cons a rest ih => simp only [forEachState, List.length_cons, ih]

theorem forEachState_append {σ α : Type} (f : σ → α → α × σ) (l1 l2 : List α) (s : σ) :
    forEachState f s (l1 ++ l2)
      = ((forEachState f s l1).1 ++ (forEachState f (forEachState f s l1).2 l2).1,
          (forEachState f (forEachState f s l1).2 l2).2) := by
  induction l1 generalizing s with
  | nil => simp [forEachState]
  | cons a rest ih =>
    have h := ih (f s a).2
    show forEachState f s (a :: (rest ++ l2)) = _
    simp only [forEachState, h, List.cons_append]

theorem forEachState_lift {σ α β : Type} (f : σ → α → α × σ) (h : σ → β → β × σ)
    (g : α → List β)
    (hstep : ∀ s a, g (f s a).1 = (forEachState h s (g a)).1
      ∧ (f s a).2 = (forEachState h s (g a)).2)
    (l : List α) (s : σ) :
    (forEachState f s l).1.flatMap g = (forEachState h s (l.flatMap g)).1
      ∧ (forEachState f s l).2 = (forEachState h s (l.flatMap g)).2 := by
  induction l generalizing s with
  | nil => simp [forEachState]
  | cons a rest ih =>
    obtain ⟨h1, h2⟩ := hstep s a
    obtain ⟨i1, i2⟩ := ih (f s a).2
    rw [h2] at i1 i2
    simp only [forEachState, List.flatMap_cons, forEachState_append]
    rw [h2]
    exact ⟨by rw [h1, i1], i2⟩

theorem forEachState_pointwise {σ α : Type} (f : σ → α → α × σ) (R : α → α → Prop)
    (h : ∀ s a, R a (f s a).1) (l : List α) (s : σ) (j : Nat) (b a : α)
    (hb : l[j]? = some b) (ha : (forEachState f s l).1[j]? = some a) : R b a := by
  induction l generalizing s j with
  | nil => simp at hb
  | cons x rest ih =>
    cases j with
    | zero =>
      simp only [forEachState, List.getElem?_cons_zero, Option.some.injEq] at hb ha
      rw [← hb, ← ha]
      exact h s x
    | succ j =>
      simp only [forEachState, List.getElem?_cons_succ] at hb ha
      exact ih _ j hb ha

end Gemini

namespace Gemini

theorem assignCallId_calls (fresh : Nat → String) (s : IdState) (p : GeminiPart) :
    callsOfPart (assignCallId fresh s p).1 = (forEachState (callStep fresh) s (callsOfPart p)).1
      ∧ (assignCallId fresh s p).2 = (forEachState (callStep fresh) s (callsOfPart p)).2 := by
  unfold assignCallId callsOfPart
  cases hfc : p.functionCall with
  | none => simp [forEachState, hfc]
  | some fc =>
    by_cases hid : truthyStr fc.id = true
    · simp [forEachState, callStep, hid, hfc]
    · simp [forEachState, callStep, hid]

theorem assignCallIds_calls (fresh : Nat → String) (s : IdState) (c : GeminiContent) :
    callsOfContent (assignCallIds fresh s c).1
        = (forEachState (callStep fresh) s (callsOfContent c)).1
      ∧ (assignCallIds fresh s c).2 = (forEachState (callStep fresh) s (callsOfContent c)).2 := by
  unfold assignCallIds callsOfContent
  by_cases hrole : c.role = some "model"
  · cases hparts : c.parts with
    | none => simp [hrole, hparts, forEachState]
    | some ps =>
      have h := forEachState_lift (assignCallId fresh) (callStep fresh) callsOfPart
        (assignCallId_calls fresh) ps s
      simp only [hrole, if_true, Option.getD_some]
      exact h
  · simp [hrole, forEachState]

theorem assignCallIds_responses (fresh : Nat → String) (s : IdState) (c : GeminiContent) :
    responsesOfContent (assignCallIds fresh s c).1 = responsesOfContent c := by
  unfold assignCallIds responsesOfContent
  by_cases hrole : c.role = some "model"
  · have hne : c.role ≠ some "user" := by rw [hrole]; decide
    cases hparts : c.parts with
    | none => simp [hrole, hparts]
    | some ps => simp [hrole]
  · simp [hrole]

theorem assignResponseId_responses (ids : List String) (k : Nat) (p : GeminiPart) :
    responsesOfPart (assignResponseId ids k p).1
        = (forEachState (responseStep ids) k (responsesOfPart p)).1
      ∧ (assignResponseId ids k p).2
        = (forEachState (responseStep ids) k (responsesOfPart p)).2 := by
  unfold assignResponseId responsesOfPart
  cases hfr : p.functionResponse with
  | none => simp [forEachState, hfr]
  | some fr =>
    by_cases hc : (!truthyStr fr.id && decide (k < ids.length)) = true
    · simp [forEachState, responseStep, hc]
    · simp [forEachState, responseStep, hc, hfr]

theorem assignResponseIds_responses (ids : List String) (k : Nat) (c : GeminiContent) :
    responsesOfContent (assignResponseIds ids k c).1
        = (forEachState (responseStep ids) k (responsesOfContent c)).1
      ∧ (assignResponseIds ids k c).2
        = (forEachState (responseStep ids) k (responsesOfContent c)).2 := by
  unfold assignResponseIds responsesOfContent
  by_cases hrole : c.role = some "user"
  · cases hparts : c.parts with
    | none => simp [hrole, hparts, forEachState]
    | some ps =>
      have h := forEachState_lift (assignResponseId ids) (responseStep ids) responsesOfPart
        (assignResponseId_responses ids) ps k
      simp only [hrole, if_true, Option.getD_some]
      exact h
  · simp [hrole, forEachState]

theorem assignResponseIds_calls (ids : List String) (k : Nat) (c : GeminiContent) :
    callsOfContent (assignResponseIds ids k c).1 = callsOfContent c := by
  unfold assignResponseIds callsOfContent
  by_cases hrole : c.role = some "user"
  · have hne : c.role ≠ some "model" := by rw [hrole]; decide
    cases hparts : c.parts with
    | none => simp [hrole, hparts]
    | some ps => simp [hrole]
  · simp [hrole]

theorem injectThought_lists (sig : String) (c : GeminiContent) :
    callsOfContent (injectThought sig c) = callsOfContent c
      ∧ responsesOfContent (injectThought sig c) = responsesOfContent c := by
  unfold injectThought
  by_cases hrole : c.role = some "model"
  · cases hparts : c.parts with
    | none => simp [hrole, hparts]
    | some ps =>
      by_cases ht : (ps.any fun p => p.thought = some true) = true
      · simp [hrole, ht]
      · simp [hrole, ht, callsOfContent, responsesOfContent, hparts, callsOfPart, thoughtPart,
          signaturePart]
  · simp [hrole]

/-- The function calls and function responses of the augmented contents are those of the
payload after the flat passes `callStep` and `responseStep`. -/
theorem augmentContents_lists (env : Env) (fresh : Nat → String) (enableThinking : Bool)
    (actualModelName : String) (sessionId : Option String) (contents : List GeminiContent) :
    modelCalls (augmentContents env fresh enableThinking actualModelName sessionId contents)
        = (forEachState (callStep fresh) { generated := 0, functionCallIds := [] }
            (modelCalls contents)).1
      ∧ userResponses (augmentContents env fresh enableThinking actualModelName sessionId
          contents)
        = (forEachState
            (responseStep (forEachState (callStep fresh)
              { generated := 0, functionCallIds := [] } (modelCalls contents)).2.functionCallIds)
            0 (userResponses contents)).1 := by
  obtain ⟨a1, a2⟩ := forEachState_lift (assignCallIds fresh) (callStep fresh) callsOfContent
    (assignCallIds_calls fresh) contents { generated := 0, functionCallIds := [] }
  have a3 := forEachState_flatMap (assignCallIds fresh) responsesOfContent
    (assignCallIds_responses fresh) contents { generated := 0, functionCallIds := [] }
  obtain ⟨b1, _⟩ := forEachState_lift
    (assignResponseIds (forEachState (assignCallIds fresh)
      { generated := 0, functionCallIds := [] } contents).2.functionCallIds)
    (responseStep (forEachState (assignCallIds fresh)
      { generated := 0, functionCallIds := [] } contents).2.functionCallIds)
    responsesOfContent (assignResponseIds_responses _)
    (forEachState (assignCallIds fresh) { generated := 0, functionCallIds := [] } contents).1 0
  have b3 := forEachState_flatMap
    (assignResponseIds (forEachState (assignCallIds fresh)
      { generated := 0, functionCallIds := [] } contents).2.functionCallIds)
    callsOfContent (assignResponseIds_calls _)
    (forEachState (assignCallIds fresh) { generated := 0, functionCallIds := [] } contents).1 0
  have hc : ∀ sig, (fun c => callsOfContent (injectThought sig c)) = callsOfContent := by
    intro sig; funext c; exact (injectThought_lists sig c).1
  have hr : ∀ sig, (fun c => responsesOfContent (injectThought sig c)) = responsesOfContent := by
    intro sig; funext c; exact (injectThought_lists sig c).2
  unfold augmentContents modelCalls userResponses
  simp only [modelCalls, userResponses] at a1 a2 a3 b1 b3
  cases enableThinking with
  | false =>
    simp only [Bool.false_eq_true, if_false]
    rw [b3, a1, b1, a3, a2]
    exact ⟨rfl, rfl⟩
  | true =>
    simp only [if_true, List.flatMap_map, Function.comp_def, hc, hr]
    rw [b3, a1, b1, a3, a2]
    exact ⟨rfl, rfl⟩

end Gemini

namespace Gemini

theorem callStep_rel (fresh : Nat → String) (s : IdState) (b : FunctionCall) :
    truthyStr (callStep fresh s b).1.id = true
      ∧ (truthyStr b.id = true → (callStep fresh s b).1 = b)
      ∧ (callStep fresh s b).1.name = b.name ∧ (callStep fresh s b).1.args = b.args := by
  unfold callStep
  by_cases hid : truthyStr b.id = true
  · simp [hid]
  · have hid2 : truthyStr b.id = false := by simpa using hid
    simp [hid2, truthy_call_id]

theorem callStep_ids (fresh : Nat → String) (l : List FunctionCall) (acc : IdState) :
    (forEachState (callStep fresh) acc l).2.functionCallIds
      = acc.functionCallIds
        ++ (forEachState (callStep fresh) acc l).1.map fun c => c.id.getD "" := by
  induction l generalizing acc with
  | nil => simp [forEachState]
  | cons c rest ih =>
    simp only [forEachState, List.map_cons]
    rw [ih]
    unfold callStep
    by_cases hid : truthyStr c.id = true
    · simp [hid]
    · simp [hid]

theorem idlessBefore_zero (rs : List FunctionResponse) : idlessBefore rs 0 = 0 := by
  simp [idlessBefore]

theorem idlessBefore_succ (r : FunctionResponse) (rest : List FunctionResponse) (j : Nat) :
    idlessBefore (r :: rest) (j + 1)
      = (if truthyStr r.id = true then 0 else 1) + idlessBefore rest j := by
  unfold idlessBefore
  by_cases h : truthyStr r.id = true
  · simp [List.filter_cons, h]
  · simp [List.filter_cons, h]; omega

theorem responseStep_index (ids : List String) (rs : List FunctionResponse) (k j : Nat)
    (b a : FunctionResponse) (hb : rs[j]? = some b)
    (ha : (forEachState (responseStep ids) k rs).1[j]? = some a) :
    (truthyStr b.id = true → a = b)
      ∧ (truthyStr b.id = false →
          (k + idlessBefore rs j < ids.length →
              a = { b with id := ids[k + idlessBefore rs j]? })
            ∧ (ids.length ≤ k + idlessBefore rs j → a = b)) := by
  induction rs generalizing k j with
  | nil => simp at hb
  | cons r rest ih =>
    cases j with
    | zero =>
      simp only [forEachState, List.getElem?_cons_zero, Option.some.injEq] at hb ha
      subst hb
      rw [idlessBefore_zero, Nat.add_zero]
      unfold responseStep at ha
      by_cases hid : truthyStr r.id = true
      · simp only [hid, Bool.not_true, Bool.false_and, Bool.false_eq_true, if_false] at ha
        exact ⟨fun _ => ha.symm, fun h => by rw [hid] at h; cases h⟩
      · have hid2 : truthyStr r.id = false := by simpa using hid
        by_cases hk : k < ids.length
        · simp only [hid2, Bool.not_false, Bool.true_and, hk, decide_True, if_true] at ha
          exact ⟨fun h => absurd h hid, fun _ => ⟨fun _ => ha.symm, fun h => by omega⟩⟩
        · simp only [hid2, Bool.not_false, Bool.true_and, hk, decide_False, Bool.false_eq_true,
            if_false] at ha
          exact ⟨fun h => absurd h hid, fun _ => ⟨fun h => absurd h hk, fun _ => ha.symm⟩⟩
    | succ j =>
      simp only [forEachState, List.getElem?_cons_succ] at hb ha
      obtain ⟨i1, i2⟩ := ih (responseStep ids k r).2 j hb ha
      refine ⟨i1, fun hfalse => ?_⟩
      obtain ⟨i3, i4⟩ := i2 hfalse
      rw [idlessBefore_succ]
      unfold responseStep at i3 i4
      by_cases hid : truthyStr r.id = true
      · simp only [hid, Bool.not_true, Bool.false_and, Bool.false_eq_true, if_false] at i3 i4
        simp only [hid, if_true, Nat.zero_add]
        exact ⟨i3, i4⟩
      · have hid2 : truthyStr r.id = false := by simpa using hid
        by_cases hk : k < ids.length
        · simp only [hid2, Bool.not_false, Bool.true_and, hk, decide_True, if_true] at i3 i4
          simp only [hid2, Bool.false_eq_true, if_false]
          have he : k + (1 + idlessBefore rest j) = k + 1 + idlessBefore rest j := by omega
          rw [he]
          exact ⟨i3, i4⟩
        · simp only [hid2, Bool.not_false, Bool.true_and, hk, decide_False, Bool.false_eq_true,
            if_false] at i3 i4
          simp only [hid2, Bool.false_eq_true, if_false]
          exact ⟨fun h => by omega, fun _ => i4 (by omega)⟩

end Gemini

/-- C11, amended. After augmentation every function call part of a model turn has a non-empty
id, and a call that arrived with one is unchanged. A function response of a user turn that
arrived with an id is unchanged; the one that arrived without an id and has `k` responses
without an id before it (document order over user turns) carries the id of the `k`-th function
call (document order over model turns, counting from zero) when that call exists, and is
unchanged otherwise. -/
theorem gemini_pairing (env : Env) (fresh : Nat → String) (enableThinking : Bool)
    (actualModelName : String) (sessionId : Option String)
    (contents : List Gemini.GeminiContent) :
    (∀ (j : Nat) (b a : Gemini.FunctionCall), (Gemini.modelCalls contents)[j]? = some b →
        (Gemini.modelCalls (Gemini.augmentContents env fresh enableThinking actualModelName
          sessionId contents))[j]? = some a →
        truthyStr a.id = true ∧ (truthyStr b.id = true → a = b)
          ∧ a.name = b.name ∧ a.args = b.args)
      ∧ (Gemini.modelCalls (Gemini.augmentContents env fresh enableThinking actualModelName
          sessionId contents)).length = (Gemini.modelCalls contents).length
      ∧ (Gemini.userResponses (Gemini.augmentContents env fresh enableThinking actualModelName
          sessionId contents)).length = (Gemini.userResponses contents).length
      ∧ ∀ (j : Nat) (b a : Gemini.FunctionResponse),
        (Gemini.userResponses contents)[j]? = some b →
        (Gemini.userResponses (Gemini.augmentContents env fresh enableThinking actualModelName
          sessionId contents))[j]? = some a →
        (truthyStr b.id = true → a = b)
          ∧ (truthyStr b.id = false →
            (∀ c, (Gemini.modelCalls (Gemini.augmentContents env fresh enableThinking
                  actualModelName sessionId contents))[
                    Gemini.idlessBefore (Gemini.userResponses contents) j]? = some c →
                a = { b with id := c.id })
              ∧ ((Gemini.modelCalls (Gemini.augmentContents env fresh enableThinking
                  actualModelName sessionId contents))[
                    Gemini.idlessBefore (Gemini.userResponses contents) j]? = none →
                a = b)) := by
  obtain ⟨hcalls, hresp⟩ := Gemini.augmentContents_lists env fresh enableThinking
    actualModelName sessionId contents
  have hids := Gemini.callStep_ids fresh (Gemini.modelCalls contents)
    { generated := 0, functionCallIds := [] }
  simp only [List.nil_append] at hids
  rw [← hcalls] at hids
  have hrel : ∀ (j : Nat) (b a : Gemini.FunctionCall),
      (Gemini.modelCalls contents)[j]? = some b →
      (Gemini.modelCalls (Gemini.augmentContents env fresh enableThinking actualModelName
        sessionId contents))[j]? = some a →
      truthyStr a.id = true ∧ (truthyStr b.id = true → a = b)
        ∧ a.name = b.name ∧ a.args = b.args := by
    intro j b a hb ha
    rw [hcalls] at ha
    exact Gemini.forEachState_pointwise (Gemini.callStep fresh)
      (fun b a => truthyStr a.id = true ∧ (truthyStr b.id = true → a = b)
        ∧ a.name = b.name ∧ a.args = b.args)
      (Gemini.callStep_rel fresh) _ _ j b a hb ha
  have hlen : (Gemini.modelCalls (Gemini.augmentContents env fresh enableThinking
      actualModelName sessionId contents)).length = (Gemini.modelCalls contents).length := by
    rw [hcalls, Gemini.forEachState_length]
  refine ⟨hrel, hlen, ?_, ?_⟩
  · rw [hresp, Gemini.forEachState_length]
  · intro j b a hb ha
    rw [hresp] at ha
    obtain ⟨h1, h2⟩ := Gemini.responseStep_index _ _ 0 j b a hb ha
    refine ⟨h1, fun hfalse => ?_⟩
    obtain ⟨h3, h4⟩ := h2 hfalse
    simp only [Nat.zero_add] at h3 h4
    rw [hids] at h3 h4
    simp only [List.length_map, List.getElem?_map] at h3 h4
    constructor
    · intro c hc
      have hlt : Gemini.idlessBefore (Gemini.userResponses contents) j
          < (Gemini.modelCalls (Gemini.augmentContents env fresh enableThinking
            actualModelName sessionId contents)).length := by
        by_contra hge
        rw [List.getElem?_eq_none (by omega)] at hc
        cases hc
      have ha2 := h3 hlt
      rw [hc] at ha2
      have hlt2 : Gemini.idlessBefore (Gemini.userResponses contents) j
          < (Gemini.modelCalls contents).length := by rw [← hlen]; exact hlt
      have htr := (hrel _ _ c (List.getElem?_eq_getElem hlt2) hc).1
      have hcid : some (c.id.getD "") = c.id := by
        cases hci : c.id with
        | none => rw [hci] at htr; simp [truthyStr] at htr
        | some s => rfl
      rw [ha2]
      simp only [Option.map_some', hcid]
    · intro hnone
      apply h4
      by_contra hlt
      rw [List.getElem?_eq_getElem (by omega)] at hnone
      cases hnone

/-! ## System instruction -/

/-- C12, counterexample. With no base instruction configured and a Gemini body without system
instruction, the merged text is empty and `generateGeminiRequestBody` still sets
`request.systemInstruction`, to `{ role: 'user', parts: [{ text: '' }] }`. -/
theorem gemini_empty_system_instruction :
    Gemini.mergedText sampleHost.config sampleGeminiBody = ""
      ∧ (Gemini.generateGeminiRequestBody sampleEnv sampleHost (fun k => Nat.repr k)
          sampleGeminiBody "m" sampleToken).request.systemInstruction
        = some { role := some "user", parts := some [Gemini.textPart ""] } :=
  ⟨by decide, rfl⟩

/-- C12, amended. In the envelope of `generateRequestBody` and of `generateClaudeRequestBody`
the request has a `systemInstruction` exactly when the merged system-instruction text is
non-empty, and it is then `{ role: 'user', parts: [{ text }] }` with that text;
`generateGeminiRequestBody` always sets `request.systemInstruction` to
`{ role: 'user', parts: [{ text: mergedText }] }`, also when the merged text is empty. -/
theorem system_instruction_attached (env : Env) (host : Host) (modelName : String)
    (parameters : Option Json) (token : Token)
    (openaiMessages : List OpenAIMessage) (openaiTools : Option (List ToolConverter.OpenAITool))
    (body : Envelope Request) (recorded : List (List (Option String)))
    (hok : OpenAI.generateRequestBody env host openaiMessages modelName parameters openaiTools
      token = .ok (body, recorded))
    (claudeMessages : List ClaudeMessage) (claudeTools : Option (List ToolConverter.ClaudeTool))
    (systemPrompt : Option String)
    (fresh : Nat → String) (geminiBody : Gemini.GeminiRequest) :
    ((body.request.systemInstruction.isSome = true
          ↔ truthyStr (host.extractSystemInstruction openaiMessages) = true)
        ∧ ∀ si, body.request.systemInstruction = some si →
          si = { role := "user",
                 parts := [Part.text ((host.extractSystemInstruction openaiMessages).getD "")
                  false] })
      ∧ (((Claude.generateClaudeRequestBody env host claudeMessages modelName parameters
            claudeTools systemPrompt token).1.request.systemInstruction.isSome = true
          ↔ Claude.mergedSystem host.config systemPrompt ≠ "")
        ∧ ∀ si, (Claude.generateClaudeRequestBody env host claudeMessages modelName parameters
            claudeTools systemPrompt token).1.request.systemInstruction = some si →
          si = { role := "user",
                 parts := [Part.text (Claude.mergedSystem host.config systemPrompt) false] })
      ∧ (Gemini.generateGeminiRequestBody env host fresh geminiBody modelName
          token).request.systemInstruction
        = some { role := some "user",
                 parts := some [Gemini.textPart (Gemini.mergedText host.config geminiBody)] } := by
  refine ⟨?_, ?_, rfl⟩
  · unfold OpenAI.generateRequestBody at hok
    simp only at hok
    split at hok
    · cases hok
    · split at hok
      · cases hok
      · injection hok with hok
        injection hok with hbody _
        subst hbody
        by_cases ht : truthyStr (host.extractSystemInstruction openaiMessages) = true
        · simp [ht]
        · simp [ht]
  · unfold Claude.generateClaudeRequestBody
    by_cases hm : Claude.mergedSystem host.config systemPrompt = ""
    · simp [hm]
    · simp [hm]

/-- C12 as amended, on the sample conversation, where no system instruction is extracted. -/
theorem system_instruction_attached_witness :
    ((sampleOpenAIEnvelope.request.systemInstruction.isSome = true
          ↔ truthyStr (sampleHost.extractSystemInstruction sampleOpenAIMessages) = true)
        ∧ ∀ si, sampleOpenAIEnvelope.request.systemInstruction = some si →
          si = { role := "user",
                 parts := [Part.text
                  ((sampleHost.extractSystemInstruction sampleOpenAIMessages).getD "") false] })
      ∧ (((Claude.generateClaudeRequestBody sampleEnv sampleHost endToEndMessages "m" none
            none (some "B") sampleToken).1.request.systemInstruction.isSome = true
          ↔ Claude.mergedSystem sampleHost.config (some "B") ≠ "")
        ∧ ∀ si, (Claude.generateClaudeRequestBody sampleEnv sampleHost endToEndMessages "m" none
            none (some "B") sampleToken).1.request.systemInstruction = some si →
          si = { role := "user",
                 parts := [Part.text (Claude.mergedSystem sampleHost.config (some "B")) false] })
      ∧ (Gemini.generateGeminiRequestBody sampleEnv sampleHost (fun k => Nat.repr k)
          sampleGeminiBody "m" sampleToken).request.systemInstruction
        = some { role := some "user",
                 parts := some [Gemini.textPart
                  (Gemini.mergedText sampleHost.config sampleGeminiBody)] } :=
  system_instruction_attached sampleEnv sampleHost "m" none sampleToken sampleOpenAIMessages
    none sampleOpenAIEnvelope sampleOpenAIResult.nameMappings rfl endToEndMessages none (some "B")
    (fun k => Nat.repr k) sampleGeminiBody

theorem dropWhile_of_head (p : Char → Bool) (l : List Char)
    (h : ∀ c, l.head? = some c → p c = false) : l.dropWhile p = l := by
  cases l with
  | nil => rfl
  | cons a rest => simp [List.dropWhile, h a rfl]

theorem jsTrim_of_noOuterWhitespace (s : String) (h : NoOuterWhitespace s) : jsTrim s = s := by
  obtain ⟨h1, h2⟩ := h
  unfold jsTrim
  rw [dropWhile_of_head _ _ h1, dropWhile_of_head _ s.data.reverse (by simpa using h2)]
  simp

/-- C13 (system-instruction merge, `generateClaudeRequestBody`). For the base instruction `A`
(`config.systemInstruction || ''`) and the per-request prompt `B` (empty when missing), both
without leading or trailing white space: with the merge option enabled the merged text is
`A`, a blank line and `B` when both are non-empty, `B` when `A` is empty and `A` when `B` is
empty; with the option disabled it is `A` whatever `B` is. -/
theorem claude_system_merge (config : Config) (systemPrompt : Option String)
    (hA : NoOuterWhitespace (jsOrD config.systemInstruction ""))
    (hB : NoOuterWhitespace (systemPrompt.getD "")) :
    (config.useContextSystemPrompt = true →
        (jsOrD config.systemInstruction "" ≠ "" → systemPrompt.getD "" ≠ "" →
            Claude.mergedSystem config systemPrompt
              = jsOrD config.systemInstruction "" ++ "\n\n" ++ systemPrompt.getD "")
          ∧ (jsOrD config.systemInstruction "" = "" →
            Claude.mergedSystem config systemPrompt = systemPrompt.getD "")
          ∧ (systemPrompt.getD "" = "" →
            Claude.mergedSystem config systemPrompt = jsOrD config.systemInstruction ""))
      ∧ (config.useContextSystemPrompt = false →
        Claude.mergedSystem config systemPrompt = jsOrD config.systemInstruction "") := by
  have tA := jsTrim_of_noOuterWhitespace _ hA
  have tB := jsTrim_of_noOuterWhitespace _ hB
  have htruthy : truthyStr systemPrompt = (systemPrompt.getD "" != "") := by
    cases systemPrompt with
    | none => rfl
    | some s => rfl
  constructor
  · intro hmerge
    refine ⟨?_, ?_, ?_⟩
    · intro hAne hBne
      simp [Claude.mergedSystem, hmerge, htruthy, tA, tB, hAne, hBne, String.intercalate,
        String.intercalate.go]
    · intro hAe
      by_cases hBe : systemPrompt.getD "" = ""
      · simp [Claude.mergedSystem, hmerge, htruthy, hAe, hBe]
      · have te : jsTrim "" = "" := by decide
        simp [Claude.mergedSystem, hmerge, htruthy, tB, hAe, hBe, te, String.intercalate,
          String.intercalate.go]
    · intro hBe
      simp [Claude.mergedSystem, hmerge, htruthy, hBe]
  · intro hmerge
    simp [Claude.mergedSystem, hmerge]

/-- C13 for the base instruction `A` and the prompt `B`, with the merge option enabled. -/
theorem claude_system_merge_witness :
    Claude.mergedSystem
        { systemInstruction := some "A", useContextSystemPrompt := true, thinking_budget := none }
        (some "B") = "A\n\nB" :=
  ((claude_system_merge
    { systemInstruction := some "A", useContextSystemPrompt := true, thinking_budget := none }
    (some "B") ⟨fun c h => by cases h; decide, fun c h => by cases h; decide⟩
    ⟨fun c h => by cases h; decide, fun c h => by cases h; decide⟩).1 rfl).1
    (by decide) (by decide)

/-! ## Raised errors -/

/-- C14, evaluated. `openaiMessageToAntigravity` raises a `TypeError` on an assistant turn
whose content is an array (`message.content.trim` is not a function) and on an assistant turn
with a tool call that has no `function` object (`toolCall.function.name`). -/
theorem openai_normalizer_raises :
    OpenAI.openaiMessageToAntigravity sampleEnv [sampleArrayTurn] false "m" (some "s")
        = .error "TypeError: message.content.trim is not a function"
      ∧ OpenAI.openaiMessageToAntigravity sampleEnv [sampleBareCallTurn] false "m" (some "s")
        = .error "TypeError: toolCall.function is undefined" :=
  ⟨rfl, rfl⟩

/-- C15, evaluated. On a tool entry without `function` key, `convertOpenAIToolsToAntigravity`
of `openai.js` raises a `TypeError` (`tool.function.description`), while the one of
`toolConverter.js` returns one tool group. -/
theorem openai_tool_converter_raises :
    OpenAI.convertOpenAIToolsToAntigravity sampleEnv (some [sampleBareTool]) (some "s") "m"
        = .error "TypeError: tool.function is undefined"
      ∧ (ToolConverter.convertOpenAIToolsToAntigravity sampleEnv (some [sampleBareTool])
          (some "s") "m").1.length = 1 :=
  ⟨rfl, rfl⟩

/-! ## Tool declarations -/

theorem OpenAI.convertTools_toolOf (env : Env) (sessionId : Option String)
    (actualModelName : String) (functions : List ToolConverter.OpenAIToolFunction) :
    ∃ recorded, convertTools env sessionId actualModelName (functions.map toolOf)
      = .ok (functions.map (groupOf env), recorded) := by
  induction functions with
  | nil => exact ⟨[], rfl⟩
  | cons f rest ih =>
    obtain ⟨r, hr⟩ := ih
    simp only [List.map_cons, convertTools, convertTool, toolOf] at hr ⊢
    rw [hr]
    exact ⟨_, rfl⟩

/-- C16 (two grouping shapes). For a non-empty list of `n` OpenAI tools (each with its
`function` object), resp. Claude tools, the converter of `toolConverter.js` returns exactly one
tool group whose `functionDeclarations` holds the `n` converted tools in input order, and the
converter of `openai.js`, resp. `claude.js`, returns `n` tool groups in input order, each
holding the one declaration of its tool; flattened, both give the names `sanitize(name)` of
the tools in input order. For a missing or empty tool list all four return the empty list. -/
theorem two_grouping_shapes (env : Env) (sessionId : Option String) (actualModelName : String)
    (functions : List ToolConverter.OpenAIToolFunction) (hfunctions : functions ≠ [])
    (claudeTools : List ToolConverter.ClaudeTool) (hclaude : claudeTools ≠ []) :
    ((ToolConverter.convertOpenAIToolsToAntigravity env (some (functions.map OpenAI.toolOf))
          sessionId actualModelName).1
        = [{ functionDeclarations := functions.map fun f =>
              (ToolConverter.convertSingleTool env f.name f.description f.parameters sessionId
                actualModelName).1 }]
      ∧ (∃ recorded, OpenAI.convertOpenAIToolsToAntigravity env
            (some (functions.map OpenAI.toolOf)) sessionId actualModelName
          = .ok (functions.map (OpenAI.groupOf env), recorded))
      ∧ (functions.map fun f =>
            (ToolConverter.convertSingleTool env f.name f.description f.parameters sessionId
              actualModelName).1.name)
          = functions.map (fun f => env.sanitizeToolName f.name)
      ∧ ((functions.map (OpenAI.groupOf env)).flatMap fun g =>
            g.functionDeclarations.map fun d => d.name)
          = functions.map (fun f => env.sanitizeToolName f.name))
    ∧ ((ToolConverter.convertClaudeToolsToAntigravity env (some claudeTools) sessionId
          actualModelName).1
        = [{ functionDeclarations := claudeTools.map fun t =>
              (ToolConverter.convertSingleTool env t.name t.description t.input_schema sessionId
                actualModelName).1 }]
      ∧ (Claude.convertClaudeToolsToAntigravity env (some claudeTools) sessionId
          actualModelName).1
        = claudeTools.map (fun t => (Claude.convertTool env sessionId actualModelName t).1)
      ∧ (∀ t, ∃ d, (Claude.convertTool env sessionId actualModelName t).1.functionDeclarations
          = [d] ∧ d.name = env.sanitizeToolName t.name)
      ∧ (claudeTools.map fun t =>
            (ToolConverter.convertSingleTool env t.name t.description t.input_schema sessionId
              actualModelName).1.name)
          = claudeTools.map (fun t => env.sanitizeToolName t.name)
      ∧ ((claudeTools.map fun t =>
            (Claude.convertTool env sessionId actualModelName t).1).flatMap fun g =>
              g.functionDeclarations.map fun d => d.name)
          = claudeTools.map (fun t => env.sanitizeToolName t.name))
    ∧ ((ToolConverter.convertOpenAIToolsToAntigravity env none sessionId actualModelName).1 = []
      ∧ (ToolConverter.convertOpenAIToolsToAntigravity env (some []) sessionId
          actualModelName).1 = []
      ∧ OpenAI.convertOpenAIToolsToAntigravity env none sessionId actualModelName = .ok ([], [])
      ∧ OpenAI.convertOpenAIToolsToAntigravity env (some []) sessionId actualModelName
          = .ok ([], [])
      ∧ (ToolConverter.convertClaudeToolsToAntigravity env none sessionId actualModelName).1 = []
      ∧ (ToolConverter.convertClaudeToolsToAntigravity env (some []) sessionId
          actualModelName).1 = []
      ∧ (Claude.convertClaudeToolsToAntigravity env none sessionId actualModelName).1 = []
      ∧ (Claude.convertClaudeToolsToAntigravity env (some []) sessionId actualModelName).1
          = []) := by
  refine ⟨⟨?_, ?_, ?_, ?_⟩, ⟨?_, ?_, ?_, ?_, ?_⟩, ⟨rfl, rfl, rfl, rfl, rfl, rfl, rfl, rfl⟩⟩
  · cases functions with
    | nil => exact absurd rfl hfunctions
    | cons f rest =>
      simp [ToolConverter.convertOpenAIToolsToAntigravity, ToolConverter.collect, OpenAI.toolOf,
        Function.comp_def]
  · obtain ⟨r, hr⟩ := OpenAI.convertTools_toolOf env sessionId actualModelName functions
    refine ⟨r, ?_⟩
    cases functions with
    | nil => exact absurd rfl hfunctions
    | cons f rest => exact hr
  · simp [ToolConverter.convertSingleTool]
  · induction functions with
    | nil => rfl
    | cons f rest ih =>
      cases rest with
      | nil => simp [OpenAI.groupOf]
      | cons g more =>
        have := ih (by simp)
        simp only [List.map_cons, List.flatMap_cons] at this ⊢
        rw [this]
        simp [OpenAI.groupOf]
  · cases claudeTools with
    | nil => exact absurd rfl hclaude
    | cons t rest =>
      simp [ToolConverter.convertClaudeToolsToAntigravity, ToolConverter.collect,
        Function.comp_def]
  · cases claudeTools with
    | nil => exact absurd rfl hclaude
    | cons t rest => simp [Claude.convertClaudeToolsToAntigravity]
  · intro t
    exact ⟨_, rfl, rfl⟩
  · simp [ToolConverter.convertSingleTool]
  · induction claudeTools with
    | nil => rfl
    | cons t rest ih =>
      cases rest with
      | nil => simp [Claude.convertTool]
      | cons g more =>
        have := ih (by simp)
        simp only [List.map_cons, List.flatMap_cons] at this ⊢
        rw [this]
        simp [Claude.convertTool]

/-- C16 for one OpenAI tool and one Claude tool named `My Tool!`. -/
theorem two_grouping_shapes_witness :
    (∃ recorded, OpenAI.convertOpenAIToolsToAntigravity sampleEnv
          (some ([sampleToolFunction].map OpenAI.toolOf)) (some "s") "m"
        = .ok ([sampleToolFunction].map (OpenAI.groupOf sampleEnv), recorded))
      ∧ (ToolConverter.convertOpenAIToolsToAntigravity sampleEnv
          (some ([sampleToolFunction].map OpenAI.toolOf)) (some "s") "m").1
        = [{ functionDeclarations := [sampleToolFunction].map fun f =>
              (ToolConverter.convertSingleTool sampleEnv f.name f.description f.parameters
                (some "s") "m").1 }] :=
  ⟨(two_grouping_shapes sampleEnv (some "s") "m" [sampleToolFunction] (by simp)
      [sampleClaudeTool] (by simp)).1.2.1,
    (two_grouping_shapes sampleEnv (some "s") "m" [sampleToolFunction] (by simp)
      [sampleClaudeTool] (by simp)).1.1⟩

theorem ToolConverter.foldl_declarations (env : Env) (sessionId : Option String)
    (actualModelName : String) (declarations : List GeminiDeclaration)
    (acc : List FunctionDeclaration × List (List (Option String))) :
    (declarations.foldl
        (fun acc fd =>
          (acc.1 ++ [(convertSingleTool env fd.name fd.description fd.parameters sessionId
              actualModelName).1],
            acc.2 ++ (convertSingleTool env fd.name fd.description fd.parameters sessionId
              actualModelName).2))
        acc).1
      = acc.1 ++ declarations.map fun fd =>
          (convertSingleTool env fd.name fd.description fd.parameters sessionId
            actualModelName).1 := by
  induction declarations generalizing acc with
  | nil => simp
  | cons fd rest ih =>
    simp only [List.foldl_cons, List.map_cons]
    rw [ih]
    simp

theorem ToolConverter.collectGeminiTool_fst (env : Env) (sessionId : Option String)
    (actualModelName : String) (tool : GeminiTool)
    (acc : List FunctionDeclaration × List (List (Option String))) :
    (collectGeminiTool env sessionId actualModelName acc tool).1
      = acc.1 ++ declarationsOfEntry env sessionId actualModelName tool := by
  unfold collectGeminiTool declarationsOfEntry
  cases h1 : tool.functionDeclarations with
  | some ds =>
    simp only [Option.orElse]
    exact foldl_declarations env sessionId actualModelName ds acc
  | none =>
    cases h2 : tool.function_declarations with
    | some ds =>
      simp only [Option.orElse]
      exact foldl_declarations env sessionId actualModelName ds acc
    | none =>
      simp only [Option.orElse]
      cases h3 : tool.name with
      | none => simp [truthyStr]
      | some name =>
        by_cases hn : name = ""
        · simp [truthyStr, hn]
        · simp [truthyStr, hn]

theorem ToolConverter.foldl_collectGeminiTool (env : Env) (sessionId : Option String)
    (actualModelName : String) (tools : List GeminiTool)
    (acc : List FunctionDeclaration × List (List (Option String))) :
    (tools.foldl (collectGeminiTool env sessionId actualModelName) acc).1
      = acc.1 ++ tools.flatMap (declarationsOfEntry env sessionId actualModelName) := by
  induction tools generalizing acc with
  | nil => simp
  | cons tool rest ih =>
    simp only [List.foldl_cons, List.flatMap_cons]
    rw [ih, collectGeminiTool_fst, List.append_assoc]

/-- C17 (Gemini tool flattening). The declarations `convertGeminiToolsToAntigravity` collects
are, in input order, the concatenation over the entries of `declarationsOfEntry`; the result
is a single tool group holding this list when it is non-empty and the empty list otherwise,
also for a missing tool list. -/
theorem gemini_tool_flattening (env : Env) (sessionId : Option String)
    (actualModelName : String) (tools : List ToolConverter.GeminiTool) :
    (tools.flatMap (ToolConverter.declarationsOfEntry env sessionId actualModelName) ≠ [] →
        (ToolConverter.convertGeminiToolsToAntigravity env (some tools) sessionId
          actualModelName).1
          = [{ functionDeclarations :=
                tools.flatMap (ToolConverter.declarationsOfEntry env sessionId
                  actualModelName) }])
      ∧ (tools.flatMap (ToolConverter.declarationsOfEntry env sessionId actualModelName) = [] →
        (ToolConverter.convertGeminiToolsToAntigravity env (some tools) sessionId
          actualModelName).1 = [])
      ∧ (ToolConverter.convertGeminiToolsToAntigravity env none sessionId actualModelName).1
          = [] := by
  have h := ToolConverter.foldl_collectGeminiTool env sessionId actualModelName tools ([], [])
  simp only [List.nil_append] at h
  refine ⟨?_, ?_, rfl⟩
  · intro hne
    cases tools with
    | nil => exact absurd rfl hne
    | cons t rest =>
      have hpos : ((t :: rest).flatMap
          (ToolConverter.declarationsOfEntry env sessionId actualModelName)).length > 0 :=
        List.length_pos.mpr hne
      simp only [ToolConverter.convertGeminiToolsToAntigravity, h, hpos, if_true]
  · intro he
    cases tools with
    | nil => rfl
    | cons t rest =>
      simp only [ToolConverter.convertGeminiToolsToAntigravity, h, he]
      rfl

/-- C17 on a grouped entry followed by a flat entry: one group with the two declarations. -/
theorem gemini_tool_flattening_witness :
    (ToolConverter.convertGeminiToolsToAntigravity sampleEnv
        (some [sampleGeminiGroup, sampleGeminiFlat]) (some "s") "m").1
      = [{ functionDeclarations :=
            [sampleGeminiGroup, sampleGeminiFlat].flatMap
              (ToolConverter.declarationsOfEntry sampleEnv (some "s") "m") }] :=
  (gemini_tool_flattening sampleEnv (some "s") "m" [sampleGeminiGroup, sampleGeminiFlat]).1
    (by simp [ToolConverter.declarationsOfEntry, sampleGeminiGroup, sampleGeminiFlat])

/-! ## Shape of the emitted parameters -/

theorem ToolConverter.getField_setField_same (key : String) (value : Json)
    (l : List (String × Json)) : getField key (setField key value l) = some value := by
  induction l with
  | nil => simp [setField, getField]
  | cons kv rest ih =>
    obtain ⟨k, v⟩ := kv
    by_cases h : k = key
    · simp [setField, getField, h]
    · simp [setField, getField, h, ih]

theorem ToolConverter.getField_setField_ne (key other : String) (value : Json)
    (l : List (String × Json)) (hne : other ≠ key) :
    getField other (setField key value l) = getField other l := by
  induction l with
  | nil => simp [setField, getField, hne.symm]
  | cons kv rest ih =>
    obtain ⟨k, v⟩ := kv
    by_cases h : k = key
    · have h2 : ¬ k = other := by rw [h]; exact fun e => hne e.symm
      simp [setField, getField, h, h2, hne.symm]
    · by_cases h3 : k = other
      · subst h3
        simp [setField, getField, h]
      · simp [setField, getField, h, h3, ih]

theorem ToolConverter.convertSingleTool_shape (env : Env) (name description : Option String)
    (parameters : Option Json) (sessionId : Option String) (actualModelName : String) :
    ParametersShape "OBJECT" (cleanedOf env parameters)
        (convertSingleTool env name description parameters sessionId
          actualModelName).1.parameters
      ∧ (isString (getField "type" (cleanedOf env parameters)) "object" = true →
        getField "type" (convertSingleTool env name description parameters sessionId
          actualModelName).1.parameters = some (Json.str "OBJECT")) := by
  have hpt : ("properties" : String) ≠ "type" := by decide
  have htp : ("type" : String) ≠ "properties" := by decide
  have hOO : isString (some (Json.str "OBJECT")) "OBJECT" = true := by decide
  unfold ParametersShape convertSingleTool cleanedOf
  simp only []
  generalize (env.cleanParameters (orEmptyObject parameters)).getD [] = c
  cases ht : getField "type" c with
  | none =>
    cases hp : getField "properties" c with
    | none =>
      simp [getField_setField_same, getField_setField_ne, hpt, htp, hOO, hp, ht]
    | some v =>
      simp [getField_setField_same, getField_setField_ne, hpt, htp, hOO, hp, ht]
  | some t =>
    by_cases ho : isString (some t) "object" = true
    · cases hp : getField "properties" c with
      | none =>
        simp [getField_setField_same, getField_setField_ne, hpt, htp, hOO, hp, ht, ho]
      | some v =>
        simp [getField_setField_same, getField_setField_ne, hpt, htp, hOO, hp, ht, ho]
    · cases hp : getField "properties" c with
      | none =>
        by_cases hO : isString (some t) "OBJECT" = true
        · simp [getField_setField_same, getField_setField_ne, hpt, htp, hp, ht, ho, hO]
        · simp [getField_setField_same, getField_setField_ne, hpt, htp, hp, ht, ho, hO]
      | some v =>
        simp [getField_setField_same, getField_setField_ne, hpt, htp, hp, ht, ho]

theorem cleanedParams_shape (env : Env) (parameters : Option Json) :
    ParametersShape "object" (cleanedOf env parameters) (cleanedParams env parameters) := by
  have hpt : ("properties" : String) ≠ "type" := by decide
  have htp : ("type" : String) ≠ "properties" := by decide
  have hoo : ToolConverter.isString (some (Json.str "object")) "object" = true := by decide
  unfold ParametersShape cleanedParams cleanedOf
  simp only []
  generalize (env.cleanParameters (ToolConverter.orEmptyObject parameters)).getD [] = c
  cases ht : ToolConverter.getField "type" c with
  | none =>
    cases hp : ToolConverter.getField "properties" c with
    | none =>
      simp [ToolConverter.getField_setField_same, ToolConverter.getField_setField_ne, hpt, htp,
        hoo, hp, ht]
    | some v =>
      simp [ToolConverter.getField_setField_same, ToolConverter.getField_setField_ne, hpt, htp,
        hoo, hp, ht]
  | some t =>
    cases hp : ToolConverter.getField "properties" c with
    | none =>
      by_cases ho : ToolConverter.isString (some t) "object" = true
      · simp [ToolConverter.getField_setField_same, ToolConverter.getField_setField_ne, hpt,
          htp, hp, ht, ho]
      · simp [ToolConverter.getField_setField_same, ToolConverter.getField_setField_ne, hpt,
          htp, hp, ht, ho]
    | some v =>
      simp [ToolConverter.getField_setField_same, ToolConverter.getField_setField_ne, hpt, htp,
        hp, ht]

theorem OpenAI.convertTools_mem (env : Env) (sessionId : Option String)
    (actualModelName : String) (tools : List ToolConverter.OpenAITool)
    (groups : List DeclarationGroup) (recorded : List (List (Option String)))
    (h : convertTools env sessionId actualModelName tools = .ok (groups, recorded)) :
    ∀ g ∈ groups, ∃ f, g = groupOf env f := by
  induction tools generalizing groups recorded with
  | nil =>
    simp only [convertTools] at h
    injection h with h
    injection h with h1 _
    subst h1
    intro g hg
    cases hg
  | cons tool rest ih =>
    simp only [convertTools] at h
    split at h
    · cases h
    · rename_i group rec1 hconv
      split at h
      · cases h
      · rename_i groups2 rec2 hrest
        injection h with h
        injection h with h1 _
        subst h1
        intro g hg
        rcases List.mem_cons.mp hg with hg | hg
        · subst hg
          unfold convertTool at hconv
          cases hf : tool.function with
          | none => simp [hf] at hconv
          | some f =>
            simp only [hf] at hconv
            injection hconv with hconv
            injection hconv with h1 _
            exact ⟨f, by rw [← h1]; rfl⟩
        · exact ih groups2 rec2 hrest g hg

/-- C18 (shape of the emitted parameters). Every declaration emitted by a tool converter has a
defined `parameters.type`, which is the object-type marker when the cleaned schema has no type
(`OBJECT` in `toolConverter.js`, which also rewrites a lower-case `object` to `OBJECT`;
`object` in `openai.js` and `claude.js`); and whenever the emitted type is the marker,
`parameters.properties` is defined, being the empty mapping when the cleaned schema had none
and the properties of the cleaned schema otherwise. -/
theorem declaration_shape (env : Env) (sessionId : Option String) (actualModelName : String) :
    (∀ name description parameters,
        ParametersShape "OBJECT" (cleanedOf env parameters)
            (ToolConverter.convertSingleTool env name description parameters sessionId
              actualModelName).1.parameters
          ∧ (ToolConverter.isString (ToolConverter.getField "type" (cleanedOf env parameters))
                "object" = true →
              ToolConverter.getField "type"
                (ToolConverter.convertSingleTool env name description parameters sessionId
                  actualModelName).1.parameters = some (Json.str "OBJECT")))
      ∧ (∀ parameters,
          ParametersShape "object" (cleanedOf env parameters) (cleanedParams env parameters))
      ∧ (∀ tools, ∀ g ∈ (ToolConverter.convertOpenAIToolsToAntigravity env tools sessionId
            actualModelName).1, ∀ d ∈ g.functionDeclarations, SharedShape env d.parameters)
      ∧ (∀ tools, ∀ g ∈ (ToolConverter.convertClaudeToolsToAntigravity env tools sessionId
            actualModelName).1, ∀ d ∈ g.functionDeclarations, SharedShape env d.parameters)
      ∧ (∀ tools, ∀ g ∈ (ToolConverter.convertGeminiToolsToAntigravity env tools sessionId
            actualModelName).1, ∀ d ∈ g.functionDeclarations, SharedShape env d.parameters)
      ∧ (∀ tools groups recorded,
          OpenAI.convertOpenAIToolsToAntigravity env tools sessionId actualModelName
            = .ok (groups, recorded) →
          ∀ g ∈ groups, ∀ d ∈ g.functionDeclarations, LegacyShape env d.parameters)
      ∧ ∀ tools, ∀ g ∈ (Claude.convertClaudeToolsToAntigravity env tools sessionId
          actualModelName).1, ∀ d ∈ g.functionDeclarations, LegacyShape env d.parameters := by
  have hshared : ∀ name description parameters, SharedShape env
      (ToolConverter.convertSingleTool env name description parameters sessionId
        actualModelName).1.parameters := fun name description parameters =>
    ⟨parameters, ToolConverter.convertSingleTool_shape env name description parameters sessionId
      actualModelName⟩
  refine ⟨fun name description parameters =>
      ToolConverter.convertSingleTool_shape env name description parameters sessionId
        actualModelName,
    cleanedParams_shape env, ?_, ?_, ?_, ?_, ?_⟩
  · intro tools g hg d hd
    unfold ToolConverter.convertOpenAIToolsToAntigravity at hg
    split at hg
    · cases hg
    · cases hg
    · simp only [ToolConverter.collect, List.mem_singleton] at hg
      subst hg
      simp only [List.map_map, List.mem_map, Function.comp_apply] at hd
      obtain ⟨tool, _, hd⟩ := hd
      subst hd
      split <;> exact hshared _ _ _
  · intro tools g hg d hd
    unfold ToolConverter.convertClaudeToolsToAntigravity at hg
    split at hg
    · cases hg
    · cases hg
    · simp only [ToolConverter.collect, List.mem_singleton] at hg
      subst hg
      simp only [List.map_map, List.mem_map, Function.comp_apply] at hd
      obtain ⟨tool, _, hd⟩ := hd
      subst hd
      exact hshared _ _ _
  · intro tools g hg d hd
    unfold ToolConverter.convertGeminiToolsToAntigravity at hg
    split at hg
    · cases hg
    · cases hg
    · rename_i ts _
      simp only [ToolConverter.foldl_collectGeminiTool, List.nil_append] at hg
      split at hg
      · rw [List.mem_singleton] at hg
        subst hg
        simp only [List.mem_flatMap] at hd
        obtain ⟨tool, _, hd⟩ := hd
        unfold ToolConverter.declarationsOfEntry at hd
        split at hd
        · rw [List.mem_map] at hd
          obtain ⟨fd, _, hd⟩ := hd
          subst hd
          exact hshared _ _ _
        · rw [List.mem_map] at hd
          obtain ⟨fd, _, hd⟩ := hd
          subst hd
          exact hshared _ _ _
        · split at hd
          · split at hd
            · cases hd
            · rw [List.mem_singleton] at hd
              subst hd
              exact hshared _ _ _
          · cases hd
      · cases hg
  · intro tools groups recorded hok g hg d hd
    unfold OpenAI.convertOpenAIToolsToAntigravity at hok
    split at hok
    · injection hok with hok
      injection hok with h1 _
      subst h1
      cases hg
    · injection hok with hok
      injection hok with h1 _
      subst h1
      cases hg
    · obtain ⟨f, hf⟩ := OpenAI.convertTools_mem env sessionId actualModelName _ groups recorded
        hok g hg
      subst hf
      simp only [OpenAI.groupOf, List.mem_singleton] at hd
      subst hd
      exact ⟨f.parameters, cleanedParams_shape env f.parameters⟩
  · intro tools g hg d hd
    unfold Claude.convertClaudeToolsToAntigravity at hg
    split at hg
    · cases hg
    · cases hg
    · simp only [List.map_map, List.mem_map, Function.comp_apply] at hg
      obtain ⟨tool, _, hg⟩ := hg
      subst hg
      simp only [Claude.convertTool, List.mem_singleton] at hd
      subst hd
      exact ⟨tool.input_schema, cleanedParams_shape env tool.input_schema⟩

/-! ## Ordering of the parts of a model message -/

theorem mem_appendToLast_cases {m : UnifiedMessage} {msgs : List UnifiedMessage}
    {ps : List Part} (h : m ∈ appendToLast msgs ps) :
    m ∈ msgs ∨ ∃ m0 ∈ msgs, m = { m0 with parts := m0.parts ++ ps } := by
  rcases List.eq_nil_or_concat msgs with h0 | ⟨init, last, h0⟩
  · subst h0; cases h
  · rw [List.concat_eq_append] at h0
    subst h0
    rw [appendToLast_concat] at h
    rcases List.mem_append.mp h with h1 | h1
    · exact Or.inl (List.mem_append_left _ h1)
    · rw [List.mem_singleton] at h1
      exact Or.inr ⟨last, by simp, h1⟩

theorem mem_pushFunctionResponse_cases {m : UnifiedMessage} {msgs : List UnifiedMessage}
    {r : Part} (h : m ∈ pushFunctionResponse msgs r) : m.role = "user" ∨ m ∈ msgs := by
  rcases List.eq_nil_or_concat msgs with h0 | ⟨init, last, h0⟩
  · subst h0
    left
    simp only [pushFunctionResponse, List.getLast?_nil, List.nil_append, List.mem_singleton] at h
    rw [h]
  · rw [List.concat_eq_append] at h0
    subst h0
    rw [pushFunctionResponse_concat] at h
    by_cases hc : (last.role = "user" && last.parts.any Part.isFunctionResponse) = true
    · rw [if_pos hc] at h
      have hrole : last.role = "user" := by
        simp only [Bool.and_eq_true, decide_eq_true_eq] at hc
        exact hc.1
      rcases List.mem_append.mp h with h1 | h1
      · exact Or.inr (List.mem_append_left _ h1)
      · rw [List.mem_singleton] at h1
        left; rw [h1]; exact hrole
    · rw [if_neg hc] at h
      rcases List.mem_append.mp h with h1 | h1
      · exact Or.inr h1
      · rw [List.mem_singleton] at h1
        left; rw [h1]

theorem OpenAI.convertToolCalls_calls (env : Env) (enableThinking : Bool)
    (actualModelName : String) (sessionId : Option String) (toolCalls : List OpenAIToolCall)
    (parts : List Part) (recorded : List (List (Option String)))
    (h : convertToolCalls env enableThinking actualModelName sessionId toolCalls
      = .ok (parts, recorded)) :
    ∀ p ∈ parts, p.isFunctionCall = true := by
  induction toolCalls generalizing parts recorded with
  | nil =>
    simp only [convertToolCalls] at h
    injection h with h
    injection h with h1 _
    subst h1
    intro p hp
    cases hp
  | cons tc rest ih =>
    simp only [convertToolCalls] at h
    split at h
    · cases h
    · rename_i part rec1 hconv
      split at h
      · cases h
      · rename_i parts2 rec2 hrest
        injection h with h
        injection h with h1 _
        subst h1
        intro p hp
        rcases List.mem_cons.mp hp with hp | hp
        · subst hp
          unfold convertToolCall at hconv
          cases hf : tc.function with
          | none => simp [hf] at hconv
          | some f =>
            simp only [hf] at hconv
            injection hconv with hconv
            injection hconv with h1 _
            rw [← h1]; rfl
        · exact ih parts2 rec2 hrest p hp

theorem OpenAI.handleAssistantMessage_shape {env : Env} {message : OpenAIMessage}
    {st st' : ConvState} {enableThinking : Bool} {actualModelName : String}
    {sessionId : Option String}
    (h : handleAssistantMessage env message st enableThinking actualModelName sessionId
      = .ok st') :
    ∃ tools, (∀ p ∈ tools, p.isFunctionCall = true)
      ∧ (st'.messages = appendToLast st.messages tools
        ∨ ∃ textParts, textParts.length ≤ 1 ∧ (∀ p ∈ textParts, p.isPlainText = true)
          ∧ st'.messages = st.messages ++
              [{ role := "model",
                 parts := thoughtParts env message enableThinking actualModelName sessionId
                  ++ textParts ++ tools }]) := by
  simp only [handleAssistantMessage] at h
  split at h
  · cases h
  · split at h
    · cases h
    · rename_i tools recorded htools
      have hcalls : ∀ p ∈ tools, p.isFunctionCall = true := by
        split at htools
        · exact convertToolCalls_calls env enableThinking actualModelName sessionId _ tools
            recorded htools
        · injection htools with htools
          injection htools with h1 _
          subst h1
          intro p hp
          cases hp
      split at h
      · injection h with h
        subst h
        exact ⟨tools, hcalls, Or.inl rfl⟩
      · injection h with h
        subst h
        refine ⟨tools, hcalls, Or.inr ⟨_, ?_, ?_, rfl⟩⟩
        · split <;> simp
        · intro p hp
          split at hp
          · rw [List.mem_singleton] at hp
            rw [hp]; rfl
          · cases hp

theorem Claude.toolUseParts_calls (env : Env) (items : List ClaudeContentItem) :
    ∀ p ∈ toolUseParts env items, p.isFunctionCall = true := by
  intro p hp
  simp only [toolUseParts, List.mem_map] at hp
  obtain ⟨item, _, hp⟩ := hp
  rw [← hp]; rfl

theorem Claude.handleClaudeAssistantMessage_shape (env : Env) (message : ClaudeMessage)
    (st : ConvState) (enableThinking : Bool) (actualModelName : String)
    (sessionId : Option String) :
    ∃ tools, (∀ p ∈ tools, p.isFunctionCall = true)
      ∧ ((handleClaudeAssistantMessage env message st enableThinking actualModelName
            sessionId).messages = appendToLast st.messages tools
        ∨ ∃ textParts, textParts.length ≤ 1 ∧ (∀ p ∈ textParts, p.isPlainText = true)
          ∧ (handleClaudeAssistantMessage env message st enableThinking actualModelName
              sessionId).messages = st.messages ++
              [{ role := "model",
                 parts := thoughtParts env enableThinking actualModelName sessionId
                  ++ textParts ++ tools }]) := by
  have hcalls : ∀ p ∈ (scanContent env actualModelName sessionId message.content).toolCalls,
      p.isFunctionCall = true := by
    cases hc : message.content with
    | absent => intro p hp; simp [scanContent] at hp
    | text s => intro p hp; simp [scanContent] at hp
    | blocks items =>
      rw [(scanContent_blocks env actualModelName sessionId items).2]
      exact toolUseParts_calls env items
  simp only [handleClaudeAssistantMessage]
  split
  · exact ⟨_, hcalls, Or.inl rfl⟩
  · refine ⟨_, hcalls, Or.inr ⟨_, ?_, ?_, rfl⟩⟩
    · split <;> simp
    · intro p hp
      split at hp
      · rw [List.mem_singleton] at hp
        rw [hp]; rfl
      · cases hp

theorem orderedParts_noContentAfterCall {parts : List Part} (h : OrderedParts parts) :
    NoContentAfterCall parts := by
  obtain ⟨thoughts, text, calls, hparts, hth, _, htx, hcalls⟩ := h
  intro i j p q hij hp hpc hq
  have hhead : ∀ x ∈ thoughts ++ text, x.isFunctionCall = false := by
    intro x hx
    rcases List.mem_append.mp hx with h1 | h1
    · have := hth x h1
      cases x <;> simp_all [Part.isThoughtOrSignature, Part.isFunctionCall]
    · have := htx x h1
      cases x <;> simp_all [Part.isPlainText, Part.isFunctionCall]
  have hi : (thoughts ++ text).length ≤ i := by
    by_contra hlt
    have hlt : i < (thoughts ++ text).length := Nat.lt_of_not_le hlt
    rw [hparts, List.getElem?_append_left hlt] at hp
    have hmem : p ∈ thoughts ++ text := List.getElem?_mem hp
    rw [hhead p hmem] at hpc
    cases hpc
  have hj : (thoughts ++ text).length ≤ j := Nat.le_trans hi (Nat.le_of_lt hij)
  rw [hparts, List.getElem?_append_right hj] at hq
  exact hcalls q (List.getElem?_mem hq)

theorem orderedParts_append_calls {parts extra : List Part} (h : OrderedParts parts)
    (hextra : ∀ p ∈ extra, p.isFunctionCall = true) : OrderedParts (parts ++ extra) := by
  obtain ⟨thoughts, text, calls, hparts, hth, hlen, htx, hcalls⟩ := h
  refine ⟨thoughts, text, calls ++ extra, ?_, hth, hlen, htx, ?_⟩
  · rw [hparts, List.append_assoc]
  · intro p hp
    rcases List.mem_append.mp hp with h1 | h1
    · exact hcalls p h1
    · exact hextra p h1

theorem OpenAI.thoughtParts_thoughts (env : Env) (message : OpenAIMessage)
    (enableThinking : Bool) (actualModelName : String) (sessionId : Option String) :
    ∀ p ∈ thoughtParts env message enableThinking actualModelName sessionId,
      p.isThoughtOrSignature = true := by
  intro p hp
  unfold thoughtParts at hp
  split at hp
  · simp only [List.mem_cons, List.mem_singleton, List.not_mem_nil, or_false] at hp
    rcases hp with hp | hp <;> rw [hp] <;> rfl
  · cases hp

theorem Claude.claude_thoughtParts_thoughts (env : Env) (enableThinking : Bool)
    (actualModelName : String) (sessionId : Option String) :
    ∀ p ∈ thoughtParts env enableThinking actualModelName sessionId,
      p.isThoughtOrSignature = true := by
  intro p hp
  unfold thoughtParts at hp
  split at hp
  · simp only [List.mem_cons, List.mem_singleton, List.not_mem_nil, or_false] at hp
    rcases hp with hp | hp <;> rw [hp] <;> rfl
  · cases hp

theorem modelPartsOrdered_of_ordered {messages : List UnifiedMessage}
    (h : ∀ m ∈ messages, m.role = "model" → OrderedParts m.parts) :
    ModelPartsOrdered messages :=
  fun m hm hrole => ⟨h m hm hrole, orderedParts_noContentAfterCall (h m hm hrole)⟩

theorem ordered_appendToLast {msgs : List UnifiedMessage} {tools : List Part}
    (hst : ∀ m ∈ msgs, m.role = "model" → OrderedParts m.parts)
    (htools : ∀ p ∈ tools, p.isFunctionCall = true) :
    ∀ m ∈ appendToLast msgs tools, m.role = "model" → OrderedParts m.parts := by
  intro m hm hrole
  rcases mem_appendToLast_cases hm with h1 | ⟨m0, hm0, h1⟩
  · exact hst m h1 hrole
  · subst h1
    exact orderedParts_append_calls (hst m0 hm0 hrole) htools

theorem ordered_new_message {msgs : List UnifiedMessage} {thoughts textParts tools : List Part}
    (hst : ∀ m ∈ msgs, m.role = "model" → OrderedParts m.parts)
    (hth : ∀ p ∈ thoughts, p.isThoughtOrSignature = true)
    (hlen : textParts.length ≤ 1) (htx : ∀ p ∈ textParts, p.isPlainText = true)
    (htools : ∀ p ∈ tools, p.isFunctionCall = true) :
    ∀ m ∈ msgs ++ [{ role := "model", parts := thoughts ++ textParts ++ tools }],
      m.role = "model" → OrderedParts m.parts := by
  intro m hm hrole
  rcases List.mem_append.mp hm with h1 | h1
  · exact hst m h1 hrole
  · rw [List.mem_singleton] at h1
    subst h1
    exact ⟨thoughts, textParts, tools, rfl, hth, hlen, htx, htools⟩

theorem ordered_pushFunctionResponse {msgs : List UnifiedMessage} {r : Part}
    (hst : ∀ m ∈ msgs, m.role = "model" → OrderedParts m.parts) :
    ∀ m ∈ pushFunctionResponse msgs r, m.role = "model" → OrderedParts m.parts := by
  intro m hm hrole
  rcases mem_pushFunctionResponse_cases hm with h1 | h1
  · rw [h1] at hrole
    exact absurd hrole (by decide)
  · exact hst m h1 hrole

theorem OpenAI.step_ordered (env : Env) (enableThinking : Bool) (actualModelName : String)
    (sessionId : Option String) (turn : OpenAIMessage) (st st' : ConvState)
    (hst : ∀ m ∈ st.messages, m.role = "model" → OrderedParts m.parts)
    (h : step env enableThinking actualModelName sessionId st turn = .ok st') :
    ∀ m ∈ st'.messages, m.role = "model" → OrderedParts m.parts := by
  unfold step at h
  split at h
  · injection h with h
    subst h
    intro m hm hrole
    simp only [handleUserMessage] at hm
    rcases List.mem_append.mp hm with h1 | h1
    · exact hst m h1 hrole
    · rw [List.mem_singleton] at h1
      rw [h1] at hrole
      have hne : ("user" : String) = "model" := hrole
      exact absurd hne (by decide)
  · split at h
    · obtain ⟨tools, htools, hcase | ⟨textParts, hlen, htx, hcase⟩⟩ :=
        handleAssistantMessage_shape h
      · rw [hcase]
        exact ordered_appendToLast hst htools
      · rw [hcase]
        exact ordered_new_message hst
          (thoughtParts_thoughts env turn enableThinking actualModelName sessionId) hlen htx
          htools
    · split at h
      · injection h with h
        subst h
        exact ordered_pushFunctionResponse hst
      · injection h with h
        subst h
        exact hst

theorem OpenAI.loop_ordered (env : Env) (enableThinking : Bool) (actualModelName : String)
    (sessionId : Option String) (turns : List OpenAIMessage) (st st' : ConvState)
    (hst : ∀ m ∈ st.messages, m.role = "model" → OrderedParts m.parts)
    (h : loop env enableThinking actualModelName sessionId turns st = .ok st') :
    ∀ m ∈ st'.messages, m.role = "model" → OrderedParts m.parts := by
  induction turns generalizing st with
  | nil =>
    simp only [loop] at h
    injection h with h
    subst h
    exact hst
  | cons turn rest ih =>
    simp only [loop] at h
    split at h
    · cases h
    · rename_i st1 hstep
      exact ih st1 (step_ordered env enableThinking actualModelName sessionId turn st st1 hst
        hstep) h

theorem Claude.foldl_toolResult_ordered (items : List ClaudeContentItem)
    (msgs : List UnifiedMessage)
    (hst : ∀ m ∈ msgs, m.role = "model" → OrderedParts m.parts) :
    ∀ m ∈ items.foldl handleToolResultItem msgs, m.role = "model" → OrderedParts m.parts := by
  induction items generalizing msgs with
  | nil => exact hst
  | cons item rest ih =>
    simp only [List.foldl_cons]
    apply ih
    unfold handleToolResultItem
    split
    · exact hst
    · exact ordered_pushFunctionResponse hst

theorem Claude.claude_step_ordered (env : Env) (enableThinking : Bool)
    (actualModelName : String) (sessionId : Option String) (turn : ClaudeMessage)
    (st : ConvState) (hst : ∀ m ∈ st.messages, m.role = "model" → OrderedParts m.parts) :
    ∀ m ∈ (step env enableThinking actualModelName sessionId st turn).messages,
      m.role = "model" → OrderedParts m.parts := by
  unfold step
  split
  · split
    · simp only [handleClaudeToolResult]
      split
      · exact foldl_toolResult_ordered _ _ hst
      · exact hst
    · intro m hm hrole
      simp only [handleClaudeUserMessage] at hm
      rcases List.mem_append.mp hm with h1 | h1
      · exact hst m h1 hrole
      · rw [List.mem_singleton] at h1
        rw [h1] at hrole
        have hne : ("user" : String) = "model" := hrole
        exact absurd hne (by decide)
  · split
    · obtain ⟨tools, htools, hcase | ⟨textParts, hlen, htx, hcase⟩⟩ :=
        handleClaudeAssistantMessage_shape env turn st enableThinking actualModelName sessionId
      · rw [hcase]
        exact ordered_appendToLast hst htools
      · rw [hcase]
        exact ordered_new_message hst
          (claude_thoughtParts_thoughts env enableThinking actualModelName sessionId) hlen htx
          htools
    · exact hst

theorem Claude.foldl_ordered (env : Env) (enableThinking : Bool) (actualModelName : String)
    (sessionId : Option String) (turns : List ClaudeMessage) (st : ConvState)
    (hst : ∀ m ∈ st.messages, m.role = "model" → OrderedParts m.parts) :
    ∀ m ∈ (turns.foldl (step env enableThinking actualModelName sessionId) st).messages,
      m.role = "model" → OrderedParts m.parts := by
  induction turns generalizing st with
  | nil => exact hst
  | cons turn rest ih =>
    simp only [List.foldl_cons]
    exact ih _ (claude_step_ordered env enableThinking actualModelName sessionId turn st hst)

/-- C19: for every environment, message list, thinking setting, model name and session, every
model-role message of the state returned by the OpenAI normalizer, which returns one on every
list of well-shaped turns, and of the state returned by the Claude normalizer has parts that
are, in order, thought or signature parts, then at most one plain text part, then only function
call parts; and no part other than a function call follows a function call part. -/
theorem part_ordering (env : Env) (enableThinking : Bool) (actualModelName : String)
    (sessionId : Option String) :
    (∀ (openaiMessages : List OpenAIMessage) (st : ConvState),
        OpenAI.openaiMessageToAntigravity env openaiMessages enableThinking actualModelName
            sessionId = .ok st →
          ModelPartsOrdered st.messages)
      ∧ (∀ openaiMessages : List OpenAIMessage,
          (∀ m ∈ openaiMessages, OpenAI.WellShaped m) →
            ∃ st, OpenAI.openaiMessageToAntigravity env openaiMessages enableThinking
                actualModelName sessionId = .ok st ∧ ModelPartsOrdered st.messages)
      ∧ ∀ claudeMessages : List ClaudeMessage,
          ModelPartsOrdered (Claude.claudeMessageToAntigravity env claudeMessages enableThinking
            actualModelName sessionId).messages := by
  have hnil : ∀ m ∈ ({ messages := [], nameMappings := [] } : ConvState).messages,
      m.role = "model" → OrderedParts m.parts := by
    intro m hm
    cases hm
  have hopenai : ∀ (openaiMessages : List OpenAIMessage) (st : ConvState),
      OpenAI.openaiMessageToAntigravity env openaiMessages enableThinking actualModelName
          sessionId = .ok st →
        ModelPartsOrdered st.messages := by
    intro openaiMessages st h
    exact modelPartsOrdered_of_ordered
      (OpenAI.loop_ordered env enableThinking actualModelName sessionId openaiMessages _ st
        hnil h)
  refine ⟨hopenai, ?_, ?_⟩
  · intro openaiMessages hshape
    obtain ⟨st, hst⟩ := OpenAI.openaiMessageToAntigravity_returns env enableThinking
      actualModelName sessionId openaiMessages hshape
    exact ⟨st, hst, hopenai openaiMessages st hst⟩
  · intro claudeMessages
    exact modelPartsOrdered_of_ordered
      (Claude.foldl_ordered env enableThinking actualModelName sessionId claudeMessages _ hnil)

/-- Witness of C19: the OpenAI normalizer returns `sampleOpenAIResult` on `sampleOpenAIMessages`
and the Claude normalizer, on a conversation whose assistant turn lists a text block after a
`tool_use` block and is followed by a tool-call-only turn, returns a model message with five
parts; the model messages of both have ordered parts. -/
theorem part_ordering_witness :
    OpenAI.openaiMessageToAntigravity sampleEnv sampleOpenAIMessages true "m" (some "s")
        = .ok sampleOpenAIResult
      ∧ ModelPartsOrdered sampleOpenAIResult.messages
      ∧ (Claude.claudeMessageToAntigravity sampleEnv sampleInterleavedMessages true "m"
          (some "s")).messages.map (fun m => (m.role, m.parts.map Part.isFunctionCall))
          = [("user", [false]), ("model", [false, false, false, true, true])]
      ∧ ModelPartsOrdered (Claude.claudeMessageToAntigravity sampleEnv
          sampleInterleavedMessages true "m" (some "s")).messages :=
  ⟨rfl, (part_ordering sampleEnv true "m" (some "s")).1 sampleOpenAIMessages sampleOpenAIResult
      rfl, by decide,
    (part_ordering sampleEnv true "m" (some "s")).2.2 sampleInterleavedMessages⟩

/-! ## Envelope shape -/

theorem OpenAI.filterLoop_subset (openaiMessages : List OpenAIMessage) (i startIndex : Nat)
    (rest : List OpenAIMessage) :
    ∀ m ∈ filterLoop openaiMessages i startIndex rest, m ∈ openaiMessages := by
  induction rest generalizing i startIndex with
  | nil => intro m hm; exact hm
  | cons message rest ih =>
    intro m hm
    simp only [filterLoop] at hm
    split at hm
    · exact ih _ _ m hm
    · exact List.mem_of_mem_drop hm

theorem OpenAI.filteredMessages_subset (config : Config) (openaiMessages : List OpenAIMessage) :
    ∀ m ∈ filteredMessages config openaiMessages, m ∈ openaiMessages := by
  intro m hm
  unfold filteredMessages at hm
  split at hm
  · exact filterLoop_subset openaiMessages 0 0 openaiMessages m hm
  · exact hm

theorem OpenAI.convertTools_returns (env : Env) (sessionId : Option String)
    (actualModelName : String) (tools : List ToolConverter.OpenAITool)
    (h : ∀ t ∈ tools, t.function ≠ none) :
    ∃ r, convertTools env sessionId actualModelName tools = .ok r := by
  induction tools with
  | nil => exact ⟨_, rfl⟩
  | cons t rest ih =>
    obtain ⟨r, hr⟩ := ih (fun x hx => h x (List.mem_cons_of_mem _ hx))
    cases hf : t.function with
    | none => exact absurd hf (h t (List.mem_cons_self _ _))
    | some f =>
      simp only [convertTools, convertTool, hf, hr]
      exact ⟨_, rfl⟩

theorem OpenAI.generateRequestBody_returns (env : Env) (host : Host)
    (openaiMessages : List OpenAIMessage) (modelName : String) (parameters : Option Json)
    (openaiTools : Option (List ToolConverter.OpenAITool)) (token : Token)
    (hmessages : ∀ m ∈ openaiMessages, WellShaped m)
    (htools : ∀ tools, openaiTools = some tools → ∀ t ∈ tools, t.function ≠ none) :
    ∃ r, generateRequestBody env host openaiMessages modelName parameters openaiTools token
      = .ok r := by
  obtain ⟨st, hst⟩ := openaiMessageToAntigravity_returns env (host.isEnableThinking modelName)
    (host.modelMapping modelName) token.sessionId (filteredMessages host.config openaiMessages)
    (fun m hm => hmessages m (filteredMessages_subset host.config openaiMessages m hm))
  have hconv : ∃ r, convertOpenAIToolsToAntigravity env openaiTools token.sessionId
      (host.modelMapping modelName) = .ok r := by
    cases openaiTools with
    | none => exact ⟨_, rfl⟩
    | some tools =>
      cases tools with
      | nil => exact ⟨_, rfl⟩
      | cons t rest =>
        exact convertTools_returns env token.sessionId (host.modelMapping modelName) (t :: rest)
          (htools (t :: rest) rfl)
  obtain ⟨⟨groups, recorded⟩, hconv⟩ := hconv
  unfold generateRequestBody
  simp only [hst, hconv]
  exact ⟨_, rfl⟩

/-- C20, counterexample. For a Gemini body without `toolConfig` the request of the envelope
`generateGeminiRequestBody` returns has no `toolConfig`, and for a body whose `toolConfig` has
mode `AUTO` the request keeps that `toolConfig`. -/
theorem gemini_envelope_tool_config :
    (Gemini.generateGeminiRequestBody sampleEnv sampleHost (fun k => Nat.repr k)
        sampleGeminiBody "m" sampleToken).request.toolConfig.isNone = true
      ∧ ((Gemini.generateGeminiRequestBody sampleEnv sampleHost (fun k => Nat.repr k)
        sampleGeminiAutoBody "m" sampleToken).request.toolConfig.map Json.stringify)
        = some "\x7b\"functionCallingConfig\":\x7b\"mode\":\"AUTO\"\x7d\x7d" :=
  ⟨rfl, by decide⟩

/-- C20, amended. The envelope returned by each of the three entry points has `project` equal
to the project id of the token, `requestId` the generated id, `model` the mapped model name and
`userAgent` equal to `antigravity`, and its request has `sessionId` equal to the session id of
the token. In the envelopes of `generateRequestBody`, which returns one whenever the messages
are well shaped and every tool has a `function` object, and of `generateClaudeRequestBody` the
request has `toolConfig.functionCallingConfig.mode` equal to `VALIDATED`; the request of
`generateGeminiRequestBody` has the `toolConfig` of the body it was given. -/
theorem envelope_shape (env : Env) (host : Host) (modelName : String)
    (parameters : Option Json) (token : Token) :
    (∀ (openaiMessages : List OpenAIMessage)
        (openaiTools : Option (List ToolConverter.OpenAITool))
        (body : Envelope Request) (recorded : List (List (Option String))),
        OpenAI.generateRequestBody env host openaiMessages modelName parameters openaiTools
            token = .ok (body, recorded) →
          EnvelopeShape host modelName token body
            ∧ body.request.toolConfig.functionCallingConfig.mode = "VALIDATED"
            ∧ body.request.sessionId = token.sessionId)
      ∧ (∀ (openaiMessages : List OpenAIMessage)
          (openaiTools : Option (List ToolConverter.OpenAITool)),
          (∀ m ∈ openaiMessages, OpenAI.WellShaped m) →
          (∀ tools, openaiTools = some tools → ∀ t ∈ tools, t.function ≠ none) →
            ∃ r, OpenAI.generateRequestBody env host openaiMessages modelName parameters
              openaiTools token = .ok r)
      ∧ (∀ (claudeMessages : List ClaudeMessage)
          (claudeTools : Option (List ToolConverter.ClaudeTool)) (systemPrompt : Option String),
          EnvelopeShape host modelName token
              (Claude.generateClaudeRequestBody env host claudeMessages modelName parameters
                claudeTools systemPrompt token).1
            ∧ (Claude.generateClaudeRequestBody env host claudeMessages modelName parameters
                claudeTools systemPrompt token).1.request.toolConfig.functionCallingConfig.mode
              = "VALIDATED"
            ∧ (Claude.generateClaudeRequestBody env host claudeMessages modelName parameters
                claudeTools systemPrompt token).1.request.sessionId = token.sessionId)
      ∧ ∀ (fresh : Nat → String) (geminiBody : Gemini.GeminiRequest),
          EnvelopeShape host modelName token
              (Gemini.generateGeminiRequestBody env host fresh geminiBody modelName token)
            ∧ (Gemini.generateGeminiRequestBody env host fresh geminiBody modelName
                token).request.toolConfig = geminiBody.toolConfig
            ∧ (Gemini.generateGeminiRequestBody env host fresh geminiBody modelName
                token).request.sessionId = token.sessionId := by
  refine ⟨?_, ?_, ?_, ?_⟩
  · intro openaiMessages openaiTools body recorded hok
    unfold OpenAI.generateRequestBody at hok
    simp only at hok
    split at hok
    · cases hok
    · split at hok
      · cases hok
      · injection hok with hok
        injection hok with hbody _
        subst hbody
        exact ⟨⟨rfl, rfl, rfl, rfl⟩, rfl, rfl⟩
  · intro openaiMessages openaiTools hmessages htools
    exact OpenAI.generateRequestBody_returns env host openaiMessages modelName parameters
      openaiTools token hmessages htools
  · intro claudeMessages claudeTools systemPrompt
    exact ⟨⟨rfl, rfl, rfl, rfl⟩, rfl, rfl⟩
  · intro fresh geminiBody
    exact ⟨⟨rfl, rfl, rfl, rfl⟩, rfl, rfl⟩

/-- Witness of C20 as amended: `generateRequestBody` returns `sampleOpenAIEnvelope` on the
sample conversation, and that envelope has the stated shape. -/
theorem envelope_shape_witness :
    OpenAI.generateRequestBody sampleEnv sampleHost sampleOpenAIMessages "m" none none
        sampleToken = .ok (sampleOpenAIEnvelope, sampleOpenAIResult.nameMappings)
      ∧ EnvelopeShape sampleHost "m" sampleToken sampleOpenAIEnvelope
      ∧ sampleOpenAIEnvelope.request.toolConfig.functionCallingConfig.mode = "VALIDATED"
      ∧ sampleOpenAIEnvelope.request.sessionId = sampleToken.sessionId :=
  ⟨rfl, (envelope_shape sampleEnv sampleHost "m" none sampleToken).1 sampleOpenAIMessages none
    sampleOpenAIEnvelope sampleOpenAIResult.nameMappings rfl⟩

/-! ## System turns in `generateRequestBody` -/

theorem OpenAI.filterLoop_spec (openaiMessages : List OpenAIMessage) (i : Nat)
    (rest : List OpenAIMessage) (hrest : openaiMessages.drop i = rest) :
    filterLoop openaiMessages i i rest
      = if rest.all isSystem then openaiMessages else withoutLeadingSystem rest := by
  induction rest generalizing i with
  | nil => simp [filterLoop]
  | cons message rest ih =>
    have hnext : openaiMessages.drop (i + 1) = rest := by
      have h := congrArg (List.drop 1) hrest
      rw [List.drop_drop] at h
      simpa [Nat.add_comm] using h
    by_cases hm : message.role = "system"
    · have hs : isSystem message = true := by simp [isSystem, hm]
      simp only [filterLoop, hm, if_true, ih (i + 1) hnext, List.all_cons, hs, Bool.true_and,
        withoutLeadingSystem, List.dropWhile_cons_of_pos]
    · have hs : isSystem message = false := by simp [isSystem, hm]
      simp [filterLoop, hm, hrest, List.all_cons, hs, withoutLeadingSystem]

theorem OpenAI.filteredMessages_spec (config : Config) (openaiMessages : List OpenAIMessage) :
    filteredMessages config openaiMessages
      = if config.useContextSystemPrompt && !openaiMessages.all isSystem then
          withoutLeadingSystem openaiMessages
        else openaiMessages := by
  unfold filteredMessages
  by_cases hflag : config.useContextSystemPrompt = true
  · rw [if_pos hflag, filterLoop_spec openaiMessages 0 openaiMessages rfl]
    by_cases hall : openaiMessages.all isSystem = true
    · simp [hflag, hall]
    · simp [hflag, hall]
  · simp [hflag]

/-- C21, divergence. With the merge flag enabled, `generateRequestBody` hands to the normalizer
the input without its leading run of system-role messages only when some message of the input
is not a system message; a list made only of system-role messages is handed over whole. For
the list holding the one system turn with text `S` the filtered list is that list, not the
empty list, and the contents of the envelope are one user-role message with text `S`; when a
user turn follows, the system turn is removed. With the flag disabled every message is handed
over, and the normalizer turns each system turn into a user-role unified message. -/
theorem system_only_list_handed_over :
    (∀ (config : Config) (openaiMessages : List OpenAIMessage),
        OpenAI.filteredMessages config openaiMessages
          = if config.useContextSystemPrompt && !openaiMessages.all OpenAI.isSystem then
              OpenAI.withoutLeadingSystem openaiMessages
            else openaiMessages)
      ∧ (sampleHost.config.useContextSystemPrompt = true
        ∧ OpenAI.filteredMessages sampleHost.config [sampleSystemTurn] = [sampleSystemTurn]
        ∧ OpenAI.withoutLeadingSystem [sampleSystemTurn] = []
        ∧ (OpenAI.generateRequestBody sampleEnv sampleHost [sampleSystemTurn] "m" none none
            sampleToken).toOption.map (fun r => r.1.request.contents)
          = some [{ role := "user", parts := [Part.text "S" false] }]
        ∧ OpenAI.filteredMessages sampleHost.config [sampleSystemTurn, sampleUserTurn]
          = [sampleUserTurn]
        ∧ (OpenAI.generateRequestBody sampleEnv sampleHost [sampleSystemTurn, sampleUserTurn]
            "m" none none sampleToken).toOption.map (fun r => r.1.request.contents)
          = some [{ role := "user", parts := [Part.text "hi" false] }])
      ∧ ∀ (env : Env) (enableThinking : Bool) (actualModelName : String)
          (sessionId : Option String) (st : ConvState) (turn : OpenAIMessage),
          turn.role = "system" →
            OpenAI.step env enableThinking actualModelName sessionId st turn
              = .ok { st with messages := st.messages ++
                  [{ role := "user",
                     parts := Part.text (OpenAI.extractImagesFromContent turn.content).text false
                      :: (OpenAI.extractImagesFromContent turn.content).images }] } := by
  refine ⟨OpenAI.filteredMessages_spec, ⟨rfl, by decide, by decide, rfl, by decide, rfl⟩, ?_⟩
  intro env enableThinking actualModelName sessionId st turn hrole
  simp [OpenAI.step, hrole, OpenAI.handleUserMessage]

/-! ## User turns of the Claude normalizer -/

theorem pushFunctionResponse_eq (msgs : List UnifiedMessage) (r : Part) :
    pushFunctionResponse msgs r
      = if endsWithResponses msgs then appendToLast msgs [r]
        else msgs ++ [{ role := "user", parts := [r] }] := by
  unfold pushFunctionResponse endsWithResponses
  cases msgs.getLast? with
  | none => simp
  | some last => rfl

theorem allParts_append (msgs : List UnifiedMessage) (m : UnifiedMessage) :
    allParts (msgs ++ [m]) = allParts msgs ++ m.parts := by
  simp [allParts]

theorem Claude.responseOf_concat_of_not_model (msgs : List UnifiedMessage)
    (u : UnifiedMessage) (hu : u.role ≠ "model") :
    responseOf (msgs ++ [u]) = responseOf msgs := by
  funext item
  simp only [responseOf, resolveFunctionName_concat_of_not_model msgs u hu]

theorem Claude.foldl_toolResults (msgs : List UnifiedMessage) (items : List ClaudeContentItem)
    (hitems : ∃ i ∈ items, i.type = some "tool_result") :
    items.foldl handleToolResultItem msgs
      = if endsWithResponses msgs then appendToLast msgs (toolResultParts msgs items)
        else msgs ++ [{ role := "user", parts := toolResultParts msgs items }] := by
  induction items with
  | nil =>
    obtain ⟨i, hi, _⟩ := hitems
    cases hi
  | cons item rest ih =>
    simp only [List.foldl_cons]
    by_cases ht : item.type = some "tool_result"
    · have hstep : handleToolResultItem msgs item = pushFunctionResponse msgs (responseOf msgs item) := by
        simp only [handleToolResultItem, ht, bne_self_eq_false, Bool.false_eq_true, if_false]
        rfl
      have hparts : toolResultParts msgs (item :: rest)
          = responseOf msgs item :: (rest.filter fun i => i.type = some "tool_result").map
              (responseOf msgs) := by
        simp [toolResultParts, List.filter_cons, ht]
      rw [hstep, hparts, pushFunctionResponse_eq]
      by_cases hends : endsWithResponses msgs = true
      · rw [if_pos hends, if_pos hends]
        rcases List.eq_nil_or_concat msgs with h0 | ⟨init, last, h0⟩
        · subst h0
          simp [endsWithResponses] at hends
        · rw [List.concat_eq_append] at h0
          subst h0
          have hlast : last.role = "user" := by
            simp only [endsWithResponses, List.getLast?_concat, Bool.and_eq_true,
              decide_eq_true_eq] at hends
            exact hends.1
          have hne : last.role ≠ "model" := by
            rw [hlast]; decide
          rw [appendToLast_concat, appendToLast_concat, responseOf_concat_of_not_model init last hne]
          have hshape : ({ last with parts := last.parts ++ [responseOf init item] }
              : UnifiedMessage)
              = { role := "user", parts := last.parts ++ [responseOf init item] } := by
            rw [← hlast]
          rw [hshape, foldl_responses init rest (last.parts ++ [responseOf init item])
            ⟨responseOf init item, by simp, rfl⟩]
          simp [hlast]
      · rw [if_neg hends, if_neg hends,
          foldl_responses msgs rest [responseOf msgs item] ⟨responseOf msgs item, by simp, rfl⟩]
        simp
    · have hstep : handleToolResultItem msgs item = msgs := by
        simp [handleToolResultItem, ht]
      have hrest : ∃ i ∈ rest, i.type = some "tool_result" := by
        obtain ⟨i, hi, hti⟩ := hitems
        rcases List.mem_cons.mp hi with h | h
        · subst h; exact absurd hti ht
        · exact ⟨i, h, hti⟩
      have hparts : toolResultParts msgs (item :: rest) = toolResultParts msgs rest := by
        simp [toolResultParts, List.filter_cons, ht]
      rw [hstep, ih hrest, hparts]

theorem Claude.allParts_foldl_toolResults (msgs : List UnifiedMessage)
    (items : List ClaudeContentItem) (hitems : ∃ i ∈ items, i.type = some "tool_result") :
    allParts (items.foldl handleToolResultItem msgs)
      = allParts msgs ++ toolResultParts msgs items := by
  rw [foldl_toolResults msgs items hitems]
  by_cases hends : endsWithResponses msgs = true
  · rw [if_pos hends]
    rcases List.eq_nil_or_concat msgs with h0 | ⟨init, last, h0⟩
    · subst h0
      simp [endsWithResponses] at hends
    · rw [List.concat_eq_append] at h0
      subst h0
      rw [appendToLast_concat, allParts_append, allParts_append, List.append_assoc]
  · rw [if_neg hends, allParts_append]

theorem Claude.extract_foldl (items : List ClaudeContentItem) (acc : Extracted) :
    items.foldl extractItem acc
      = { text := acc.text ++ textOf items, images := acc.images ++ imagesOf items } := by
  induction items generalizing acc with
  | nil => simp [textOf, imagesOf, String.join]
  | cons item rest ih =>
    simp only [List.foldl_cons]
    rw [ih (extractItem acc item)]
    by_cases ht : item.type = some "text"
    · simp [extractItem, ht, textOf, imagesOf, imagePart, join_cons, String.append_assoc]
    · by_cases hi : item.type = some "image"
      · cases hs : item.source with
        | none => simp [extractItem, ht, hi, hs, textOf, imagesOf, imagePart]
        | some source =>
          by_cases hc : (source.type = some "base64" && truthyStr source.data) = true
          · simp [extractItem, ht, hi, hs, hc, textOf, imagesOf, imagePart]
          · simp [extractItem, ht, hi, hs, hc, textOf, imagesOf, imagePart]
      · simp [extractItem, ht, hi, textOf, imagesOf, imagePart]

theorem Claude.extractImagesFromClaudeContent_spec (content : ClaudeContent) :
    extractImagesFromClaudeContent content
      = { text := userText content, images := userImages content } := by
  cases content with
  | absent => rfl
  | text s => rfl
  | blocks items =>
    simp only [extractImagesFromClaudeContent, extract_foldl, userText, userImages]
    simp

/-- C22 (user turns of the Claude normalizer). For a user message whose content array holds at
least one `tool_result` block, the step of `claudeMessageToAntigravity` leaves the recorded name
mappings alone and adds to the unified messages exactly the function response parts of the
`tool_result` blocks, one per block in block order, either onto the last message (when it is a
user message that already holds a function response) or as one new user message; the parts of
all messages afterwards are the parts before followed by these function responses, so the text
and image blocks of the message contribute no part. For a user message without `tool_result`
block the step appends one user message whose first part is the concatenated text, followed by
the base64 images in order. -/
theorem claude_user_turn (env : Env) (enableThinking : Bool) (actualModelName : String)
    (sessionId : Option String) (st : ConvState) (message : ClaudeMessage)
    (hrole : message.role = "user") :
    (∀ items, message.content = .blocks items →
        (∃ i ∈ items, i.type = some "tool_result") →
          (Claude.step env enableThinking actualModelName sessionId st message).nameMappings
              = st.nameMappings
            ∧ (Claude.step env enableThinking actualModelName sessionId st message).messages
              = (if endsWithResponses st.messages then
                  appendToLast st.messages (Claude.toolResultParts st.messages items)
                else st.messages ++
                  [{ role := "user", parts := Claude.toolResultParts st.messages items }])
            ∧ allParts
                (Claude.step env enableThinking actualModelName sessionId st message).messages
              = allParts st.messages ++ Claude.toolResultParts st.messages items
            ∧ Claude.toolResultParts st.messages items
              = (items.filter fun i => i.type = some "tool_result").map fun i =>
                  Part.functionResponse i.tool_use_id
                    (resolveFunctionName st.messages i.tool_use_id)
                    (MessageContent.text (Claude.resultContent i.content)))
      ∧ (Claude.hasToolResult message.content = false →
          Claude.step env enableThinking actualModelName sessionId st message
            = { st with messages := st.messages ++
                [{ role := "user",
                   parts := Part.text (Claude.userText message.content) false
                    :: Claude.userImages message.content }] }) := by
  constructor
  · intro items hcontent hitems
    have hhas : Claude.hasToolResult message.content = true := by
      rw [hcontent]
      simp only [Claude.hasToolResult, List.any_eq_true, decide_eq_true_eq]
      exact hitems
    have hstep : Claude.step env enableThinking actualModelName sessionId st message
        = { st with messages := items.foldl Claude.handleToolResultItem st.messages } := by
      rw [hcontent] at hhas
      simp only [Claude.step, hrole, if_true, Claude.handleClaudeToolResult, hcontent, hhas]
    rw [hstep]
    exact ⟨rfl, Claude.foldl_toolResults st.messages items hitems,
      Claude.allParts_foldl_toolResults st.messages items hitems, rfl⟩
  · intro hnone
    simp only [Claude.step, hrole, hnone, if_true, Bool.false_eq_true, if_false,
      Claude.handleClaudeUserMessage, Claude.extractImagesFromClaudeContent_spec]

/-- Witness of C22: after a model message calling `My_Tool_` with id `c1`, a user turn with a
text block, the result of `c1`, an image block and the result of an unknown call `x2` adds one
user message holding the two function responses only; a user turn with two text blocks around
an image block adds one user message with the joined text and the image. -/
theorem claude_user_turn_witness :
    (Claude.step sampleEnv true "m" (some "s") sampleCallState sampleMixedResultTurn).messages
        = sampleCallState.messages ++
          [{ role := "user",
             parts := [Part.functionResponse (some "c1") "My_Tool_" (MessageContent.text "42"),
              Part.functionResponse (some "x2") "" (MessageContent.text "7")] }]
      ∧ allParts
          (Claude.step sampleEnv true "m" (some "s") sampleCallState
            sampleMixedResultTurn).messages
        = allParts sampleCallState.messages ++
          Claude.toolResultParts sampleCallState.messages
            [sampleTextBlock, sampleToolResult, sampleImageBlock, sampleOtherResult]
      ∧ Claude.step sampleEnv true "m" (some "s") sampleCallState sampleImageTurn
        = { sampleCallState with messages := sampleCallState.messages ++
            [{ role := "user",
               parts := [Part.text "notenote" false, Part.inlineData "image/png" "AAAA"] }] } :=
  ⟨by decide,
    ((claude_user_turn sampleEnv true "m" (some "s") sampleCallState sampleMixedResultTurn
      rfl).1 _ rfl ⟨sampleToolResult, by simp, rfl⟩).2.2.1,
    (claude_user_turn sampleEnv true "m" (some "s") sampleCallState sampleImageTurn rfl).2 rfl⟩

/-! ## Merge coalescing and array content -/

theorem OpenAI.handleAssistantMessage_array_content (env : Env) (message : OpenAIMessage)
    (st : ConvState) (enableThinking : Bool) (actualModelName : String)
    (sessionId : Option String) (items : List OpenAIContentItem)
    (hcontent : message.content = .blocks items) :
    handleAssistantMessage env message st enableThinking actualModelName sessionId
      = .error "TypeError: message.content.trim is not a function" := by
  simp [handleAssistantMessage, hasContent, hcontent]

/-- C1, divergence. After a model message, `handleAssistantMessage` (OpenAI) given an assistant
turn with one tool call and the empty array as content, a turn with a tool call and no text,
raises a `TypeError` instead of merging, with thinking disabled and enabled; it raises on every
turn whose content is an array, and on the sample turn whose tool call has no `function`
object. `handleClaudeAssistantMessage` merges a turn whose content array holds only a
`tool_use` block into the last message, and `handleAssistantMessage` merges the turn with the
same tool call and missing content. On the turns with missing or blank string content whose
tool calls have a `function` object, and on the Claude turns with a content array, both
handlers keep every earlier message and append the function call parts of the turn to the
last message. -/
theorem merge_coalescing_array_content :
    (OpenAI.handleAssistantMessage sampleEnv sampleEmptyArrayCallTurn sampleModelState false "m"
          (some "s")
        = .error "TypeError: message.content.trim is not a function"
      ∧ OpenAI.handleAssistantMessage sampleEnv sampleEmptyArrayCallTurn sampleModelState true
          "m" (some "s")
        = .error "TypeError: message.content.trim is not a function"
      ∧ (∃ e, OpenAI.handleAssistantMessage sampleEnv sampleBareCallTurn sampleModelState false
          "m" (some "s") = .error e)
      ∧ OpenAI.handleAssistantMessage sampleEnv sampleToolTurn sampleModelState false "m"
          (some "s")
        = .ok { messages :=
                  [{ role := "model",
                     parts := [Part.functionCall (some "c1") "search" "q" none,
                      Part.functionCall (some "c2") "fetch" "u" none] }],
                nameMappings := [] }
      ∧ (Claude.handleClaudeAssistantMessage sampleEnv sampleClaudeToolTurn sampleModelState
          false "m" (some "s")).messages
        = [{ role := "model",
             parts := [Part.functionCall (some "c1") "search" "q" none,
              Part.functionCall (some "x1") "My_Tool_" "\x7b\"q\":1\x7d" none] }])
      ∧ (∀ (env : Env) (message : OpenAIMessage) (st : ConvState) (enableThinking : Bool)
          (actualModelName : String) (sessionId : Option String)
          (items : List OpenAIContentItem),
          message.content = .blocks items →
            OpenAI.handleAssistantMessage env message st enableThinking actualModelName
                sessionId
              = .error "TypeError: message.content.trim is not a function")
      ∧ ∀ (env : Env) (enableThinking : Bool) (actualModelName : String)
          (sessionId : Option String) (init : List UnifiedMessage) (last : UnifiedMessage)
          (recorded : List (List (Option String))) (message : OpenAIMessage)
          (calls : List (Option String × OpenAIFunction × Option String))
          (turn : ClaudeMessage) (items : List ClaudeContentItem),
          last.role = "model" →
          calls ≠ [] →
          message.tool_calls = some (calls.map OpenAI.callOf) →
          (message.content = .absent ∨ ∃ s, message.content = .text s ∧ jsTrim s = "") →
          turn.content = .blocks items →
          (∃ item ∈ items, item.type = some "tool_use") →
          jsTrim (Claude.textOf items) = "" →
            (∃ st, OpenAI.handleAssistantMessage env message
                  { messages := init ++ [last], nameMappings := recorded }
                  enableThinking actualModelName sessionId = .ok st
                ∧ st.messages = init ++
                  [{ last with
                      parts := last.parts ++
                        calls.map (OpenAI.partOf env enableThinking actualModelName
                          sessionId) }])
              ∧ (Claude.handleClaudeAssistantMessage env turn
                  { messages := init ++ [last], nameMappings := recorded }
                  enableThinking actualModelName sessionId).messages
                = init ++ [{ last with parts := last.parts ++ Claude.toolUseParts env items }] := by
  refine ⟨⟨rfl, rfl, ⟨_, rfl⟩, rfl, by decide⟩, ?_, ?_⟩
  · intro env message st enableThinking actualModelName sessionId items hcontent
    exact OpenAI.handleAssistantMessage_array_content env message st enableThinking
      actualModelName sessionId items hcontent
  · intro env enableThinking actualModelName sessionId init last recorded message calls turn
      items hlast hcalls htools hblank hitems huse htext
    exact merge_coalescing env enableThinking actualModelName sessionId init last recorded hlast
      message calls hcalls htools hblank turn items hitems huse htext

end Antigravity
